import Mathlib

/-!
# SecPasswordGenerate.c (Security-55471): password generation and the weak-password heuristic

A shallow embedding of `sec/Security/SecPasswordGenerate.c`.

Conventions of the embedding
* A `CFString` is the list of its UTF-16 code units (`UniChar`), as natural numbers.
* The four predefined CoreFoundation character sets are restricted to their ASCII members.
* C `double` arithmetic is idealised as real arithmetic.
* A computation that leaves the contract of C or of CoreFoundation (a null or wrongly typed
  reference handed to a CF call, a range outside its string, a division by zero, a
  variable-length array without a positive size), and a loop that has not ended when its
  fuel is used up, both have the result `none`.
-/

namespace SecPassword

/-! ## Strings and character sets -/

/-- A `CFStringRef`: the sequence of its code units (`UniChar`), each a natural number. -/
abbrev CFString := List Nat

/-- The constant string `CFSTR("...")`. -/
def CFSTR (s : String) : CFString := s.toList.map Char.toNat

/-- A `CFCharacterSetRef`: one of the predefined sets the file obtains with
`CFCharacterSetGetPredefined`, or a set made by `CFCharacterSetCreateWithCharactersInString`. -/
inductive CFCharacterSet where
  | uppercaseLetter
  | lowercaseLetter
  | decimalDigit
  | punctuation
  | withCharactersInString (characters : CFString)
  deriving DecidableEq, Repr

/-- Modelled from the spec: the character class of uppercase letters. CoreFoundation's
`kCFCharacterSetUppercaseLetter` is not among the sources; its ASCII members are `A` to
`Z`. -/
def isUppercaseLetter (c : Nat) : Bool := decide (65 ≤ c) && decide (c ≤ 90)

/-- Modelled from the spec: the character class of lowercase letters. CoreFoundation's
`kCFCharacterSetLowercaseLetter` is not among the sources; its ASCII members are `a` to
`z`. -/
def isLowercaseLetter (c : Nat) : Bool := decide (97 ≤ c) && decide (c ≤ 122)

/-- Modelled from the spec: the character class of decimal digits. CoreFoundation's
`kCFCharacterSetDecimalDigit` is not among the sources; its ASCII members are `0` to `9`. -/
def isDecimalDigit (c : Nat) : Bool := decide (48 ≤ c) && decide (c ≤ 57)

/-- Modelled from the spec: the character class of punctuation. CoreFoundation's
`kCFCharacterSetPunctuation` (Unicode general category P) is not among the sources; its
ASCII members are
`! " # % & ' ( ) * , - . / : ; ? @ [ \ ] _ { }`. -/
def isPunctuation (c : Nat) : Bool :=
  [33, 34, 35, 37, 38, 39, 40, 41, 42, 44, 45, 46, 47, 58, 59, 63, 64, 91, 92, 93, 95,
    123, 125].contains c

/-- Modelled from the spec: membership of a character in a character class
(`CFCharacterSetIsCharacterMember` of CoreFoundation, not among the sources). -/
def CFCharacterSet.isMember : CFCharacterSet → Nat → Bool
  | .uppercaseLetter, c => isUppercaseLetter c
  | .lowercaseLetter, c => isLowercaseLetter c
  | .decimalDigit, c => isDecimalDigit c
  | .punctuation, c => isPunctuation c
  | .withCharactersInString characters, c => characters.contains c

/-- Modelled from the spec: does the string hold a member of the character class,
`CFStringFindCharacterFromSet(string, set, CFRangeMake(0, length), 0, NULL)` of
CoreFoundation, not among the sources. -/
def CFStringFindCharacterFromSet (string : CFString) (set : CFCharacterSet) : Bool :=
  string.any set.isMember

/-! ## The gperf table of common PINs -/

def TOTAL_KEYWORDS : Nat := 100
def MIN_WORD_LENGTH : Nat := 4
def MAX_WORD_LENGTH : Nat := 4
def MIN_HASH_VALUE : Nat := 21
def MAX_HASH_VALUE : Nat := 275

/-- The table `asso_values` of `pinhash`. -/
def asso_values : List Nat :=
  [276, 276, 276, 276, 276, 276, 276, 276, 276, 276, 276, 276, 276, 276, 276, 276, 276, 276, 276, 276,
   276, 276, 276, 276, 276, 276, 276, 276, 276, 276, 276, 276, 276, 276, 276, 276, 276, 276, 276, 276,
   276, 276, 276, 276, 276, 276, 276, 276, 5, 0, 10, 10, 30, 50, 100, 120, 70, 25, 57, 85,
   2, 4, 1, 19, 14, 11, 92, 276, 276, 276, 276, 276, 276, 276, 276, 276, 276, 276, 276, 276,
   276, 276, 276, 276, 276, 276, 276, 276, 276, 276, 276, 276, 276, 276, 276, 276, 276, 276, 276, 276,
   276, 276, 276, 276, 276, 276, 276, 276, 276, 276, 276, 276, 276, 276, 276, 276, 276, 276, 276, 276,
   276, 276, 276, 276, 276, 276, 276, 276, 276, 276, 276, 276, 276, 276, 276, 276, 276, 276, 276, 276,
   276, 276, 276, 276, 276, 276, 276, 276, 276, 276, 276, 276, 276, 276, 276, 276, 276, 276, 276, 276,
   276, 276, 276, 276, 276, 276, 276, 276, 276, 276, 276, 276, 276, 276, 276, 276, 276, 276, 276, 276,
   276, 276, 276, 276, 276, 276, 276, 276, 276, 276, 276, 276, 276, 276, 276, 276, 276, 276, 276, 276,
   276, 276, 276, 276, 276, 276, 276, 276, 276, 276, 276, 276, 276, 276, 276, 276, 276, 276, 276, 276,
   276, 276, 276, 276, 276, 276, 276, 276, 276, 276, 276, 276, 276, 276, 276, 276, 276, 276, 276, 276,
   276, 276, 276, 276, 276, 276, 276, 276, 276, 276, 276, 276, 276, 276, 276, 276, 276, 276, 276, 276,
   276, 276, 276, 276, 276]

/-- `pinhash`: `str` is a C string, read as 0 past its end. -/
def pinhash (str : List Nat) (len : Nat) : Nat :=
  len + asso_values.getD (str.getD 3 0 % 256 + 9) 0 + asso_values.getD (str.getD 2 0 % 256) 0
    + asso_values.getD (str.getD 1 0 % 256) 0 + asso_values.getD (str.getD 0 0 % 256 + 3) 0

/-- The table `wordlist` of `in_word_set`. -/
def wordlist : List CFString :=
  (["", "", "", "", "", "", "", "", "", "", "", "",
   "", "", "", "", "", "", "", "", "", "0103", "", "",
   "", "", "0123", "", "", "", "", "0303", "", "", "", "",
   "", "", "", "0110", "", "1103", "", "", "", "", "1123", "",
   "", "0000", "", "1203", "", "0404", "", "", "", "", "1234", "1110",
   "2015", "2013", "", "2014", "1010", "2005", "2003", "", "2004", "1210", "0505", "0111",
   "", "", "", "2008", "0101", "", "2007", "", "", "", "", "2006",
   "2010", "1995", "1993", "", "1994", "2000", "", "1111", "", "", "", "1998",
   "1101", "", "1997", "", "0808", "1211", "", "1996", "0102", "", "1201", "",
   "", "1990", "", "", "", "", "0202", "", "2011", "", "", "1112",
   "1958", "2001", "", "1957", "1102", "", "3333", "", "1956", "1212", "1985", "1983",
   "", "1984", "1202", "", "0909", "", "0606", "", "1988", "1991", "", "1987",
   "2012", "", "", "", "1986", "2002", "", "", "", "0707", "1980", "",
   "2009", "", "", "2222", "1965", "1963", "", "1964", "", "", "2229", "",
   "", "1992", "1968", "", "", "1967", "", "", "1999", "", "1966", "",
   "1975", "1973", "", "1974", "1960", "", "1981", "", "4444", "", "1978", "",
   "7465", "1977", "", "", "", "", "1976", "2580", "", "1959", "", "",
   "1970", "", "", "", "", "", "", "", "", "", "1982", "",
   "1961", "", "", "5252", "", "1989", "", "", "", "", "", "",
   "", "", "", "", "", "", "", "", "1971", "", "", "",
   "", "", "", "", "1962", "", "5683", "", "6666", "", "", "1969",
   "", "", "", "", "", "", "", "", "", "", "", "",
   "1972", "", "", "", "", "", "", "1979", "", "", "", "7667"] : List String).map CFSTR

/-- `in_word_set`: the table entry equal to `str`, if the slot of its hash holds it. -/
def in_word_set (str : List Nat) (len : Nat) : Option CFString :=
  if len ≤ MAX_WORD_LENGTH ∧ len ≥ MIN_WORD_LENGTH then
    let key := pinhash str len
    if key ≤ MAX_HASH_VALUE then
      let s := wordlist.getD key []
      if str.getD 0 0 = s.getD 0 0 ∧ str.drop 1 = s.drop 1 then some s else none
    else none
  else none

/-- The pins that reached the top 20 list. -/
def blacklist : List CFString :=
  ["1234", "1004", "2000", "1122", "4321", "2001", "2580"].map CFSTR

/-! ## SecPasswordIsPasswordWeak -/

def alphabetSetSize : Nat := 26
def decimalSetSize : Nat := 10
def punctuationSetSize : Nat := 33
def entropyStrengthThreshold : Nat := 35

/-- Modelled from the spec: `CFStringToCString` (utilities/SecCFWrappers.h) is not among the
sources. It is called on strings of decimal digits only, whose UTF-8 bytes are their code
units. -/
def CFStringToCString (passcode : CFString) : List Nat := passcode

/-- The C expression `pin[0] == pin[1] == pin[2] == pin[3]`, which associates to the left:
the 0-or-1 result of each comparison is compared with the next character. -/
def chainedEquality (pin : List Nat) : Bool :=
  let b01 : Nat := if pin.getD 0 0 = pin.getD 1 0 then 1 else 0
  let b012 : Nat := if b01 = pin.getD 2 0 then 1 else 0
  decide (b012 = pin.getD 3 0)

/-- The three loops over a PIN that is not four digits long,
`for(i = 0; i < length; i++){ if(i is the last index) return true;
 else if (rel pin[i] pin[i+1]) continue; else break; }`:
true when the loop returns true, false when it breaks or never runs. -/
def pinLoop (rel : Nat → Nat → Bool) : List Nat → Bool
  | [] => false
  | [_] => true
  | a :: b :: rest => if rel a b then pinLoop rel (b :: rest) else false

/-- The counters `u`, `l`, `d`, `p` after the loop of the entropy branch: every character
is counted in the first of the four sets that holds it. -/
def countCategories : CFString → Nat × Nat × Nat × Nat
  | [] => (0, 0, 0, 0)
  | c :: rest =>
    let (u, l, d, p) := countCategories rest
    if isUppercaseLetter c then (u + 1, l, d, p)
    else if isLowercaseLetter c then (u, l + 1, d, p)
    else if isDecimalDigit c then (u, l, d + 1, p)
    else if isPunctuation c then (u, l, d, p + 1)
    else (u, l, d, p)

/-- The value of `characterSet` computed from the four counters. -/
def characterSetSize (counters : Nat × Nat × Nat × Nat) : Nat :=
  (if counters.1 > 0 then alphabetSetSize else 0)
    + (if counters.2.1 > 0 then alphabetSetSize else 0)
    + (if counters.2.2.1 > 0 then decimalSetSize else 0)
    + (if counters.2.2.2 > 0 then punctuationSetSize else 0)

/-- The alphabet-size estimate in the words of the specification: the sum of 26 if the
candidate has an uppercase letter, 26 if it has a lowercase letter, 10 if it has a decimal
digit and 33 if it has a punctuation character. -/
def alphabetSizeEstimate (candidate : CFString) : Nat :=
  (if candidate.any isUppercaseLetter then 26 else 0)
    + (if candidate.any isLowercaseLetter then 26 else 0)
    + (if candidate.any isDecimalDigit then 10 else 0)
    + (if candidate.any isPunctuation then 33 else 0)

/-- The test `strength < entropyStrengthThreshold`, where
`strength = CFStringGetLength(passcode)*log2(characterSet)`, over the reals.
`log2(0)` is minus infinity in C: the product is minus infinity for a positive length and
NaN, which compares false, for length 0. -/
def strengthBelowThreshold (length characterSet : Nat) : Prop :=
  if characterSet = 0 then 0 < length
  else (length : ℝ) * Real.logb 2 (characterSet : ℝ) < (entropyStrengthThreshold : ℝ)

theorem strengthBelowThreshold_iff (length characterSet : Nat) :
    strengthBelowThreshold length characterSet ↔
      if characterSet = 0 then 0 < length
      else characterSet ^ length < 2 ^ entropyStrengthThreshold := by
  unfold strengthBelowThreshold
  by_cases h : characterSet = 0
  · simp [h]
  · simp only [h, if_false]
    have hpos : (0 : ℝ) < (characterSet : ℝ) := by
      exact_mod_cast Nat.pos_of_ne_zero h
    have h1 : (length : ℝ) * Real.logb 2 (characterSet : ℝ)
        = Real.logb 2 ((characterSet : ℝ) ^ length) := by
      rw [Real.logb_pow]
    have h2 : ((entropyStrengthThreshold : Nat) : ℝ)
        = Real.logb 2 ((2 : ℝ) ^ entropyStrengthThreshold) := by
      rw [Real.logb_pow, Real.logb_self_eq_one (by norm_num)]; simp
    rw [h1, h2, Real.logb_lt_logb_iff (by norm_num) (pow_pos hpos _) (by positivity)]
    exact_mod_cast Iff.rfl

instance (length characterSet : Nat) : Decidable (strengthBelowThreshold length characterSet) :=
  decidable_of_iff _ (strengthBelowThreshold_iff length characterSet).symm

/-- `SecPasswordIsPasswordWeak`. -/
def SecPasswordIsPasswordWeak (passcode : CFString) : Bool :=
  if passcode.length < 4 then true
  else
    let isNumber := passcode.all CFCharacterSet.decimalDigit.isMember
    if isNumber && passcode.length == 4 then
      let pin := CFStringToCString passcode
      if (in_word_set pin 4).isSome then true
      else if chainedEquality pin then true
      else if pin.getD 0 0 = pin.getD 1 0 ∧ pin.getD 2 0 = pin.getD 3 0 then true
      else if pin.getD 0 0 = pin.getD 2 0 ∧ pin.getD 1 0 = pin.getD 3 0 then true
      else if blacklist.any (fun blackCode => blackCode == pin) then true
      else false
    else if isNumber then
      let pin := CFStringToCString passcode
      if pinLoop (fun a b => a == b) pin then true
      else if pinLoop (fun a b => a + 1 == b) pin then true
      else if pinLoop (fun a b => a == b + 1) pin then true
      else false
    else
      let characterSet := characterSetSize (countCategories passcode)
      if strengthBelowThreshold passcode.length characterSet then true else false

/-! ## The secure random source -/

/-- The answers of the secure random source to the successive calls of `SecRandomCopyBytes`:
`none` for a call that returns -1, `some bytes` for a call that fills the buffer with
`bytes`. -/
abbrev RandomSource := List (Option (List Nat))

/-- Modelled from the spec: the secure random source that fills a buffer and reports success
or failure, `SecRandomCopyBytes(kSecRandomDefault, count, bytes)`, not among the sources. It
takes the next answer of the source.
The result is `none` when the source has no answer left or the answer has not `count` bytes;
otherwise the bytes written (`none` for the return value -1) and the rest of the source. -/
def SecRandomCopyBytes (count : Nat) : RandomSource → Option (Option (List Nat) × RandomSource)
  | [] => none
  | none :: rest => some (none, rest)
  | some bytes :: rest =>
    if bytes.length = count then some (some (bytes.map (fun b => b % 256)), rest) else none

/-- The value `uint8_t limitAvoidingModuloBias = UCHAR_MAX - (UCHAR_MAX % upperBound)` of
`getUniformRandomNumbers`, for an upper bound that is not 0. -/
def limitAvoidingModuloBias (upperBound : Nat) : Nat := 255 - 255 % upperBound

/-- The inner loop of `getUniformRandomNumbers`,
`for (i = numberOfAcceptedNumbers; i < numberOfDesiredNumbers; ++i)`, on the buffer in
place; `steps` is `numberOfDesiredNumbers - i`. Returns the buffer and
`numberOfAcceptedNumbers`. -/
def acceptLoop (limitAvoidingModuloBias upperBound : Nat) :
    (steps : Nat) → (buffer : List Nat) → (i numberOfAcceptedNumbers : Nat) → List Nat × Nat
  | 0, buffer, _, numberOfAcceptedNumbers => (buffer, numberOfAcceptedNumbers)
  | steps + 1, buffer, i, numberOfAcceptedNumbers =>
    if buffer.getD i 0 < limitAvoidingModuloBias then
      acceptLoop limitAvoidingModuloBias upperBound steps
        (buffer.set numberOfAcceptedNumbers (buffer.getD i 0 % upperBound)) (i + 1)
        (numberOfAcceptedNumbers + 1)
    else
      acceptLoop limitAvoidingModuloBias upperBound steps buffer (i + 1) numberOfAcceptedNumbers

/-- The outer loop of `getUniformRandomNumbers`. -/
def getUniformRandomNumbersLoop (limitAvoidingModuloBias upperBound numberOfDesiredNumbers : Nat) :
    (fuel : Nat) → (buffer : List Nat) → (numberOfAcceptedNumbers : Nat) → RandomSource →
      Option (List Nat × RandomSource)
  | 0, buffer, numberOfAcceptedNumbers, rng =>
    if numberOfAcceptedNumbers < numberOfDesiredNumbers then none else some (buffer, rng)
  | fuel + 1, buffer, numberOfAcceptedNumbers, rng =>
    if numberOfAcceptedNumbers < numberOfDesiredNumbers then
      match SecRandomCopyBytes (numberOfDesiredNumbers - numberOfAcceptedNumbers) rng with
      | none => none
      | some (none, rng1) =>
        getUniformRandomNumbersLoop limitAvoidingModuloBias upperBound numberOfDesiredNumbers
          fuel buffer numberOfAcceptedNumbers rng1
      | some (some bytes, rng1) =>
        let filled := buffer.take numberOfAcceptedNumbers ++ bytes
        let next := acceptLoop limitAvoidingModuloBias upperBound
          (numberOfDesiredNumbers - numberOfAcceptedNumbers) filled numberOfAcceptedNumbers
          numberOfAcceptedNumbers
        getUniformRandomNumbersLoop limitAvoidingModuloBias upperBound numberOfDesiredNumbers
          fuel next.1 next.2 rng1
    else some (buffer, rng)

/-- `getUniformRandomNumbers(buffer, numberOfDesiredNumbers, upperBound)`; `upperBound` is the
`uint8_t` argument. `UCHAR_MAX % 0` is undefined. Every turn of the outer loop takes an answer
of the source, so one turn more than the source has answers is all the fuel the loop can
use. -/
def getUniformRandomNumbers (numberOfDesiredNumbers upperBound : Nat) (rng : RandomSource) :
    Option (List Nat × RandomSource) :=
  if upperBound = 0 then none
  else
    getUniformRandomNumbersLoop (limitAvoidingModuloBias upperBound) upperBound
      numberOfDesiredNumbers (rng.length + 1) (List.replicate numberOfDesiredNumbers 0) 0 rng

/-! ## Values of the requirement dictionaries -/

/-- A `CFTypeRef` found as a value in a requirements dictionary. A dictionary value is
given by the values of the two keys the file reads in it, `kSecPasswordCharacterCount` and
`kSecPasswordCharacters`. -/
inductive CFType where
  | null
  | string (s : CFString)
  | number (value : Int)
  | array (sets : List CFCharacterSet)
  | dictionary (characterCount characters : Option CFType)
  | other

/-- A `CFTypeRef` variable: `none` is the `NULL` pointer. -/
abbrev CFTypeRef := Option CFType

/-- Modelled from the spec: `isNull` (utilities/SecCFWrappers.h) is not among the sources:
the reference is `kCFNull`. -/
def isNull : CFTypeRef → Bool
  | some .null => true
  | _ => false

/-- Modelled from the spec: `isString` (utilities/SecCFWrappers.h): the reference is a
`CFStringRef`. -/
def isString : CFTypeRef → Bool
  | some (.string _) => true
  | _ => false

/-- Modelled from the spec: `isNumber` (utilities/SecCFWrappers.h): the reference is a
`CFNumberRef`. -/
def isNumber : CFTypeRef → Bool
  | some (.number _) => true
  | _ => false

/-- Modelled from the spec: `isArray` (utilities/SecCFWrappers.h): the reference is a
`CFArrayRef`. -/
def isArray : CFTypeRef → Bool
  | some (.array _) => true
  | _ => false

/-- Modelled from the spec: `isDictionary` (utilities/SecCFWrappers.h): the reference is a
`CFDictionaryRef`. -/
def isDictionary : CFTypeRef → Bool
  | some (.dictionary _ _) => true
  | _ => false

/-- A reference used as a `CFStringRef`; anything else is outside the contract of the CF
call that receives it. -/
def asString : CFTypeRef → Option CFString
  | some (.string s) => some s
  | _ => none

/-- Modelled from the spec: the numeric value of a requirement,
`CFNumberGetValue(ref, kCFNumberSInt64Type, &valuePtr)` of CoreFoundation followed by the cast
to `long`. -/
def CFNumberGetValue : CFTypeRef → Option Int
  | some (.number value) => some value
  | _ => none

/-- Modelled from the spec: the password classes. SecPasswordGenerate.h is not among the
sources; the types are given by the names the file uses, and `other` is any further value
of the `uint32_t`. -/
inductive SecPasswordType where
  | kSecPasswordTypeSafari
  | kSecPasswordTypeiCloudRecovery
  | kSecPasswordTypeWifi
  | kSecPasswordTypePIN
  | other
  deriving DecidableEq, Repr

/-- The dictionary of password requirements a caller passes in: the value stored under
each key the file reads, `none` when the key is absent. -/
structure Requirements where
  kSecPasswordMinLengthKey : CFTypeRef := none
  kSecPasswordMaxLengthKey : CFTypeRef := none
  kSecPasswordAllowedCharactersKey : CFTypeRef := none
  kSecPasswordRequiredCharactersKey : CFTypeRef := none
  kSecPasswordDefaultForType : CFTypeRef := none
  kSecPasswordDisallowedCharacters : CFTypeRef := none
  kSecPasswordCantStartWithChars : CFTypeRef := none
  kSecPasswordCantEndWithChars : CFTypeRef := none
  kSecPasswordContainsNoMoreThanNSpecificCharacters : CFTypeRef := none
  kSecPasswordContainsAtLeastNSpecificCharacters : CFTypeRef := none
  kSecPasswordContainsNoMoreThanNConsecutiveIdenticalCharacters : CFTypeRef := none
  kSecPasswordGroupSize : CFTypeRef := none
  kSecPasswordNumberOfGroups : CFTypeRef := none
  kSecPasswordSeparator : CFTypeRef := none

/-- The internally used dictionary of password generation parameters.
`kSecUseDefaultPasswordFormatKey` holds `CFSTR("true")` or `CFSTR("false")`. -/
structure Parameters where
  kSecUseDefaultPasswordFormatKey : Bool
  kSecNumberOfRequiredRandomCharactersKey : Int
  kSecAllowedCharactersKey : CFString
  kSecRequiredCharacterSetsKey : Option (List CFCharacterSet)
  kSecPasswordDisallowedCharacters : CFTypeRef := none
  kSecPasswordCantStartWithChars : CFTypeRef := none
  kSecPasswordCantEndWithChars : CFTypeRef := none
  kSecPasswordContainsNoMoreThanNSpecificCharacters : CFTypeRef := none
  kSecPasswordContainsAtLeastNSpecificCharacters : CFTypeRef := none
  kSecPasswordContainsNoMoreThanNConsecutiveIdenticalCharacters : CFTypeRef := none
  kSecPasswordGroupSize : CFTypeRef := none
  kSecPasswordNumberOfGroups : CFTypeRef := none
  kSecPasswordSeparator : CFTypeRef := none

/-! ## Validation predicates -/

/-- `passwordContainsRequiredCharacters`. -/
def passwordContainsRequiredCharacters (password : CFString)
    (requiredCharacterSets : List CFCharacterSet) : Bool :=
  requiredCharacterSets.all (fun characterSet => CFStringFindCharacterFromSet password characterSet)

/-- The inner loop of `passwordContainsLessThanNIdenticalCharacters` over the characters from
index `j` on: `none` when `require_quiet(repeating <= identicalCount, fail)` fails, otherwise
the value of `repeating` when the loop ends. `Char` and `nextChar` are `unsigned char`. -/
def identicalInnerLoop (Char : Nat) (identicalCount : Int) : CFString → Int → Option Int
  | [], repeating => some repeating
  | nextChar :: rest, repeating =>
    if repeating ≤ identicalCount then
      if Char = nextChar % 256 then identicalInnerLoop Char identicalCount rest (repeating + 1)
      else some 0
    else none

/-- The outer loop of `passwordContainsLessThanNIdenticalCharacters` over the characters from
index `i` on; `repeating` is carried from one turn to the next. -/
def identicalOuterLoop (identicalCount : Int) : CFString → Int → Bool
  | [], _ => true
  | c :: rest, repeating =>
    match identicalInnerLoop (c % 256) identicalCount (c :: rest) repeating with
    | none => false
    | some repeating1 => identicalOuterLoop identicalCount rest repeating1

/-- `passwordContainsLessThanNIdenticalCharacters`. -/
def passwordContainsLessThanNIdenticalCharacters (password : CFString) (identicalCount : Int) :
    Bool :=
  identicalOuterLoop identicalCount password 0

/-- The value of `counter` in `passwordContainsAtLeastNCharacters` and
`passwordContainsLessThanNCharacters`. -/
def countCharacters (password characters : CFString) : Nat :=
  password.countP (CFCharacterSet.withCharactersInString characters).isMember

/-- `passwordContainsAtLeastNCharacters`. -/
def passwordContainsAtLeastNCharacters (password characters : CFString) (N : Int) : Bool :=
  if (countCharacters password characters : Int) < N then false else true

/-- `passwordContainsLessThanNCharacters`. -/
def passwordContainsLessThanNCharacters (password characters : CFString) (N : Int) : Bool :=
  if (countCharacters password characters : Int) > N then false else true

/-- `passwordDoesNotContainCharacters`. -/
def passwordDoesNotContainCharacters (password prohibitedCharacters : CFString) : Bool :=
  !CFStringFindCharacterFromSet password (.withCharactersInString prohibitedCharacters)

/-- `doesPasswordEndWith`: false when the comparison of the last characters of the password
with `prohibitedCharacters` is `kCFCompareEqualTo`, true otherwise. The range starts before
the string when `prohibitedCharacters` is the longer. -/
def doesPasswordEndWith (password prohibitedCharacters : CFString) : Option Bool :=
  if prohibitedCharacters.length ≤ password.length then
    if password.drop (password.length - prohibitedCharacters.length) = prohibitedCharacters
    then some false else some true
  else none

/-- `doesPasswordStartWith`: false when the comparison of the first characters of the
password with `prohibitedCharacters` is `kCFCompareEqualTo`, true otherwise. The range ends
after the string when `prohibitedCharacters` is the longer. -/
def doesPasswordStartWith (password prohibitedCharacters : CFString) : Option Bool :=
  if prohibitedCharacters.length ≤ password.length then
    if password.take prohibitedCharacters.length = prohibitedCharacters
    then some false else some true
  else none

/-! ## Drawing the random characters -/

/-- Is the byte a continuation byte of a UTF-8 sequence, `10xxxxxx`. -/
def isContinuationByte (b : Nat) : Bool := decide (128 ≤ b ∧ b < 192)

/-- The UTF-16 code units of a code point: the code point itself below U+10000, a surrogate
pair from there on. -/
def codeUnits (codePoint : Nat) : List Nat :=
  if codePoint < 65536 then [codePoint]
  else [55296 + (codePoint - 65536) / 1024, 56320 + (codePoint - 65536) % 1024]

/-- Modelled from the spec: the first UTF-8 sequence of the bytes, as the UTF-16 code units
of its code point and the bytes after it; `none` when the bytes do not start with a
well-formed sequence (a stray or missing continuation byte, an overlong form, a surrogate,
a code point above U+10FFFF). -/
def decodeSequence : List Nat → Option (List Nat × List Nat)
  | [] => none
  | b0 :: rest =>
    if b0 < 128 then some ([b0], rest)
    else if 194 ≤ b0 ∧ b0 < 224 then
      match rest with
      | b1 :: rest1 =>
        if isContinuationByte b1 then some ([(b0 - 192) * 64 + (b1 - 128)], rest1) else none
      | _ => none
    else if 224 ≤ b0 ∧ b0 < 240 then
      match rest with
      | b1 :: b2 :: rest2 =>
        let codePoint := (b0 - 224) * 4096 + (b1 - 128) * 64 + (b2 - 128)
        if isContinuationByte b1 ∧ isContinuationByte b2 ∧ 2048 ≤ codePoint
            ∧ ¬ (55296 ≤ codePoint ∧ codePoint < 57344) then
          some ([codePoint], rest2)
        else none
      | _ => none
    else if 240 ≤ b0 ∧ b0 < 245 then
      match rest with
      | b1 :: b2 :: b3 :: rest3 =>
        let codePoint :=
          (b0 - 240) * 262144 + (b1 - 128) * 4096 + (b2 - 128) * 64 + (b3 - 128)
        if isContinuationByte b1 ∧ isContinuationByte b2 ∧ isContinuationByte b3
            ∧ 65536 ≤ codePoint ∧ codePoint < 1114112 then
          some (codeUnits codePoint, rest3)
        else none
      | _ => none
    else none

/-- The decoding of bytes as UTF-8, sequence after sequence; every sequence has a byte at
least, so as many turns as there are bytes are enough. -/
def decodeUTF8Loop : (fuel : Nat) → List Nat → Option CFString
  | _, [] => some []
  | 0, _ :: _ => none
  | fuel + 1, b0 :: rest =>
    match decodeSequence (b0 :: rest) with
    | none => none
    | some (units, remaining) => (decodeUTF8Loop fuel remaining).map (fun s => units ++ s)

/-- Modelled from the spec: the candidate string made of the drawn characters,
`CFStringCreateWithBytes(kCFAllocatorDefault, bytes, n, kCFStringEncodingUTF8, false)` of
CoreFoundation, not among the sources: the bytes decoded as UTF-8. An ASCII byte is a code
unit of the string made, a sequence of two to four bytes gives one code point; the result
is `none` for `NULL`, which CoreFoundation returns when the bytes are not well-formed
UTF-8. -/
def CFStringCreateWithBytes (bytes : List Nat) : Option CFString :=
  decodeUTF8Loop bytes.length bytes

/-- The loop of `getPasswordRandomCharacters`,
`for (i = 0; i < *numberOfRandomCharacters; ++i)`; after `i--; continue;` the same index is
taken again. `randomCharacters` holds the entries `0 .. i-1` of the C array, which the loop
writes in this order. `prohibitedCharacters` is the disallowed string, when there is one. -/
def randomCharactersLoop (prohibitedCharacters : Option CFString)
    (numberOfRandomCharacters upperBound : Nat) (allowedCharacters : CFString) :
    (fuel : Nat) → (i : Nat) → (randomNumbers randomCharacters : List Nat) → RandomSource →
      Option (List Nat × RandomSource)
  | 0, i, _, randomCharacters, rng =>
    if i < numberOfRandomCharacters then none else some (randomCharacters, rng)
  | fuel + 1, i, randomNumbers, randomCharacters, rng =>
    if i < numberOfRandomCharacters then
      let randomChar := allowedCharacters.getD (randomNumbers.getD i 0) 0
      if prohibitedCharacters.any
          (fun prohibited => !passwordDoesNotContainCharacters [randomChar] prohibited) then
        match getUniformRandomNumbers numberOfRandomCharacters upperBound rng with
        | none => none
        | some (randomNumbers1, rng1) =>
          randomCharactersLoop prohibitedCharacters numberOfRandomCharacters upperBound
            allowedCharacters fuel i randomNumbers1 randomCharacters rng1
      else
        randomCharactersLoop prohibitedCharacters numberOfRandomCharacters upperBound
          allowedCharacters fuel (i + 1) randomNumbers (randomCharacters ++ [randomChar % 256]) rng
    else some (randomCharacters, rng)

/-- `getPasswordRandomCharacters`; `prohibitedCharacters` is the value of
`kSecPasswordDisallowedCharacters` in `requirements`. The two arrays must have a positive
size, the `uint8_t` upper bound is the length of `allowedCharacters` modulo 256, and a
disallowed value that is no string cannot be made a character set. Every turn of the loop
moves to the next index or takes an answer of the source, which bounds the fuel. The
string is `NULL` when the bytes stored are not well-formed UTF-8; the caller hands it to
CF calls that take no `NULL`, so this case has no result either. -/
def getPasswordRandomCharacters (prohibitedCharacters : CFTypeRef)
    (numberOfRandomCharacters : Int) (allowedCharacters : CFString) (rng : RandomSource) :
    Option (CFString × RandomSource) :=
  if numberOfRandomCharacters ≤ 0 then none
  else if prohibitedCharacters.isSome && !isString prohibitedCharacters then none
  else
    let n := numberOfRandomCharacters.toNat
    let upperBound := allowedCharacters.length % 256
    match getUniformRandomNumbers n upperBound rng with
    | none => none
    | some (randomNumbers, rng1) =>
      match randomCharactersLoop (asString prohibitedCharacters) n upperBound
          allowedCharacters (n + rng1.length + 1) 0 randomNumbers [] rng1 with
      | none => none
      | some (randomCharacters, rng2) =>
        match CFStringCreateWithBytes randomCharacters with
        | none => none
        | some returned => some (returned, rng2)

/-! ## The generation parameters -/

def defaultNumberOfRandomCharacters : Int := 20
def defaultPINLength : Int := 4
def defaultiCloudPasswordLength : Int := 24
def defaultWifiPasswordLength : Int := 12

def defaultWifiCharacters : CFString := CFSTR "abcdefghijklmnopqrstuvwxyz1234567890"
def defaultPINCharacters : CFString := CFSTR "0123456789"
def defaultiCloudCharacters : CFString := CFSTR "ABCDEFGHJKLMNPQRSTUVWXYZ23456789"
def defaultCharacters : CFString :=
  CFSTR "abcdefghijkmnopqrstuvwxyzABCDEFGHJKLMNPQRSTUVWXYZ123456789"

/-- `passwordGenerateDefaultParametersDictionary`. -/
def passwordGenerateDefaultParametersDictionary (type : SecPasswordType) : Parameters :=
  match type with
  | .kSecPasswordTypeiCloudRecovery =>
    { kSecUseDefaultPasswordFormatKey := true
      kSecNumberOfRequiredRandomCharactersKey := defaultiCloudPasswordLength
      kSecAllowedCharactersKey := defaultiCloudCharacters
      kSecRequiredCharacterSetsKey := some [.uppercaseLetter, .decimalDigit]
      kSecPasswordGroupSize := some (.number 4)
      kSecPasswordNumberOfGroups := some (.number 6) }
  | .kSecPasswordTypePIN =>
    { kSecUseDefaultPasswordFormatKey := true
      kSecNumberOfRequiredRandomCharactersKey := defaultPINLength
      kSecAllowedCharactersKey := defaultPINCharacters
      kSecRequiredCharacterSetsKey := some [.decimalDigit]
      kSecPasswordGroupSize := some (.number 4)
      kSecPasswordNumberOfGroups := some (.number 1) }
  | .kSecPasswordTypeWifi =>
    { kSecUseDefaultPasswordFormatKey := true
      kSecNumberOfRequiredRandomCharactersKey := defaultWifiPasswordLength
      kSecAllowedCharactersKey := defaultWifiCharacters
      kSecRequiredCharacterSetsKey := some [.lowercaseLetter, .decimalDigit]
      kSecPasswordGroupSize := some (.number 4)
      kSecPasswordNumberOfGroups := some (.number 3) }
  | _ =>
    { kSecUseDefaultPasswordFormatKey := true
      kSecNumberOfRequiredRandomCharactersKey := defaultNumberOfRandomCharacters
      kSecAllowedCharactersKey := defaultCharacters
      kSecRequiredCharacterSetsKey := some [.uppercaseLetter, .lowercaseLetter, .decimalDigit]
      kSecPasswordGroupSize := some (.number 4)
      kSecPasswordNumberOfGroups := some (.number 6) }

/-- The first part of `passwordGenerationParametersDictionary`: the values of
`numberOfRequiredRandomCharacters`, `allowedCharacters`, `requiredCharactersArray`,
`useDefaultPasswordFormat` and of the array `requiredCharacterSets` after the branch on the
type. The static handle `decimalDigitCharacterSet` is taken as assigned. -/
def lengthAndAlphabet (type : SecPasswordType) (requirements : Requirements)
    (minPasswordLength maxPasswordLength : Int) :
    Int × CFTypeRef × CFTypeRef × Bool × List CFCharacterSet :=
  if type = .kSecPasswordTypePIN then
    let numberOfRequiredRandomCharacters :=
      if maxPasswordLength ≠ 0 ∧ minPasswordLength ≠ 0 then maxPasswordLength
      else if ¬ maxPasswordLength ≠ 0 ∧ minPasswordLength ≠ 0 then minPasswordLength
      else if ¬ minPasswordLength ≠ 0 ∧ maxPasswordLength ≠ 0 then maxPasswordLength
      else defaultPINLength
    (numberOfRequiredRandomCharacters, some (.string (CFSTR "0123456789")),
      some (.array [.decimalDigit]), false, [.decimalDigit])
  else
    let s0 : Bool × Int := (true, defaultNumberOfRandomCharacters)
    let s1 : Bool × Int :=
      if minPasswordLength ≠ 0 ∧ minPasswordLength > defaultNumberOfRandomCharacters then
        (false, minPasswordLength) else s0
    let s2 : Bool × Int :=
      if maxPasswordLength ≠ 0 ∧ maxPasswordLength < defaultNumberOfRandomCharacters then
        (false, maxPasswordLength) else s1
    let s3 : Bool × Int :=
      if maxPasswordLength ≠ 0 ∧ minPasswordLength ≠ 0 ∧ maxPasswordLength = minPasswordLength
          ∧ maxPasswordLength ≠ defaultNumberOfRandomCharacters then
        (false, maxPasswordLength) else s2
    (s3.2, requirements.kSecPasswordAllowedCharactersKey,
      requirements.kSecPasswordRequiredCharactersKey, s3.1, [])

/-- `passwordGenerationParametersDictionary`. `CFNumberGetValue` needs `min` and `max` to be
numbers, and the CF calls on `allowedCharacters` and `requiredCharactersArray` need a string
and an array when the references are not `NULL`. -/
def passwordGenerationParametersDictionary (type : SecPasswordType)
    (requirements : Requirements) : Option Parameters :=
  match CFNumberGetValue requirements.kSecPasswordMinLengthKey,
      CFNumberGetValue requirements.kSecPasswordMaxLengthKey with
  | some minPasswordLength, some maxPasswordLength =>
    match lengthAndAlphabet type requirements minPasswordLength maxPasswordLength with
    | (numberOfRequiredRandomCharacters, allowedRef, requiredCharactersArray,
        useDefaultPasswordFormat0, requiredCharacterSets0) =>
      if allowedRef.isSome && !isString allowedRef then none
      else if requiredCharactersArray.isSome && !isArray requiredCharactersArray then none
      else
        let useDefaultPasswordFormat1 : Bool :=
          match asString allowedRef with
          | some allowedCharacters =>
            if allowedCharacters.contains 45 = false then false else useDefaultPasswordFormat0
          | none => useDefaultPasswordFormat0
        let allowedCharacters0 : CFString := (asString allowedRef).getD defaultCharacters
        let allowedCharacters : CFString :=
          if useDefaultPasswordFormat1 = false then
            allowedCharacters0.filter (fun c => c != 45)
          else allowedCharacters0
        let requiredCharacterSets1 : List CFCharacterSet :=
          match requiredCharactersArray with
          | some (.array sets) =>
            requiredCharacterSets0
              ++ sets.filter (fun set => CFStringFindCharacterFromSet allowedCharacters set)
          | _ =>
            requiredCharacterSets0 ++ [.uppercaseLetter, .lowercaseLetter, .decimalDigit]
        let requiredCharacterSets : Option (List CFCharacterSet) :=
          if (requiredCharacterSets1.length : Int) > numberOfRequiredRandomCharacters then none
          else some requiredCharacterSets1
        some
          { kSecUseDefaultPasswordFormatKey := useDefaultPasswordFormat1
            kSecNumberOfRequiredRandomCharactersKey := numberOfRequiredRandomCharacters
            kSecAllowedCharactersKey := allowedCharacters
            kSecRequiredCharacterSetsKey := requiredCharacterSets
            kSecPasswordDisallowedCharacters := requirements.kSecPasswordDisallowedCharacters
            kSecPasswordCantStartWithChars := requirements.kSecPasswordCantStartWithChars
            kSecPasswordCantEndWithChars := requirements.kSecPasswordCantEndWithChars
            kSecPasswordContainsNoMoreThanNSpecificCharacters :=
              requirements.kSecPasswordContainsNoMoreThanNSpecificCharacters
            kSecPasswordContainsAtLeastNSpecificCharacters :=
              requirements.kSecPasswordContainsAtLeastNSpecificCharacters
            kSecPasswordContainsNoMoreThanNConsecutiveIdenticalCharacters :=
              requirements.kSecPasswordContainsNoMoreThanNConsecutiveIdenticalCharacters
            kSecPasswordGroupSize := requirements.kSecPasswordGroupSize
            kSecPasswordNumberOfGroups := requirements.kSecPasswordNumberOfGroups
            kSecPasswordSeparator := requirements.kSecPasswordSeparator }
  | _, _ => none

/-! ## Validation of the requirements dictionary -/

/-- The errors `isDictionaryFormattedProperly` creates, all with the code `errSecBadReq`,
named after their descriptions. -/
inductive CFError where
  /-- Need a string of characters; password must only contain characters in this string -/
  | needAllowedCharacters
  /-- To generate a password, need a max length -/
  | needMaxLength
  /-- To generate a password, need a min length -/
  | needMinLength
  /-- Need an array of character sets, password must have at least 1 character from each set -/
  | needRequiredCharacterSets
  /-- The password's allowed characters must be a CFStringRef -/
  | allowedCharactersMustBeString
  /-- The password's max length must be a CFNumberRef -/
  | maxLengthMustBeNumber
  /-- The password's min length must be a CFNumberRef -/
  | minLengthMustBeNumber
  /-- The password's required characters must be an array of CFCharacterSetRefs -/
  | requiredCharactersMustBeArray
  /-- The password's length parameters make no sense ( is max < min ?) -/
  | lengthParametersMakeNoSense
  /-- Disallowed Characters dictionary parameter is either null or not a string -/
  | disallowedCharacters
  /-- The dictionary parameter 'EndWith' is either null or not a string -/
  | endWith
  /-- The dictionary parameter 'StartWith' is either null or not a string -/
  | startWith
  /-- The dictionary parameter 'groupsize' is either null or not a number -/
  | groupSize
  /-- The dictionary parameter 'number of groupds' is either null or not a number -/
  | numberOfGroups
  /-- The dictionary parameter 'password separator character' is either null or not a string -/
  | separator
  /-- The dictionary parameter 'At Most N Characters' is either null or not a string -/
  | atMostNCharacters
  /-- The dictionary parameter 'At Least N Characters' is either null or not a string -/
  | atLeastNCharacters
  /-- The dictionary parameter 'characters' is either null or not a number -/
  | characterCount
  /-- The dictionary parameter 'Characters' is either null or not a string -/
  | characters
  /-- The dictionary parameter 'Identical Consecutive Characters' is either null or not a number -/
  | identicalConsecutiveCharacters
  deriving DecidableEq, Repr

/-- What `isDictionaryFormattedProperly` returns: `proper` for true, `malformed error` for
false with `*error` set. -/
inductive Verdict where
  | proper
  | malformed (error : CFError)
  deriving DecidableEq, Repr

/-- `require_action_quiet(assertion, fail, tempError = error)` followed by `rest`. -/
def require_action_quiet (assertion : Bool) (error : CFError) (rest : Verdict) : Verdict :=
  if assertion then rest else .malformed error

/-- `if (CFDictionaryGetValueIfPresent(..., &ref)) { require not null; require test }`
followed by `rest`. -/
def checkIfPresent (ref : CFTypeRef) (test : CFTypeRef → Bool) (error : CFError)
    (rest : Verdict) : Verdict :=
  if ref.isSome then
    require_action_quiet (isNull ref != true) error <|
    require_action_quiet (test ref) error rest
  else rest

/-- `if (CFDictionaryGetValueIfPresent(..., &ref)) { require not null; require isNumber }`
with an error for each of the two, followed by `rest`. -/
def checkIfPresentTwo (ref : CFTypeRef) (nullError typeError : CFError) (rest : Verdict) :
    Verdict :=
  if ref.isSome then
    require_action_quiet (isNull ref != true) nullError <|
    require_action_quiet (isNumber ref) typeError rest
  else rest

/-- The value of `kSecPasswordCharacterCount` in a dictionary reference. -/
def characterCountOf : CFTypeRef → CFTypeRef
  | some (.dictionary characterCount _) => characterCount
  | _ => none

/-- The value of `kSecPasswordCharacters` in a dictionary reference. -/
def charactersOf : CFTypeRef → CFTypeRef
  | some (.dictionary _ characters) => characters
  | _ => none

/-- The checks of a `kSecPasswordContainsNoMoreThanNSpecificCharacters` or
`kSecPasswordContainsAtLeastNSpecificCharacters` value, followed by `rest`. -/
def checkSpecificCharacters (ref : CFTypeRef) (error : CFError) (rest : Verdict) : Verdict :=
  if ref.isSome then
    require_action_quiet (isNull ref != true) error <|
    require_action_quiet (isDictionary ref) error <|
    require_action_quiet ((characterCountOf ref).isSome) error <|
    require_action_quiet (isNull (characterCountOf ref) != true) .characterCount <|
    require_action_quiet (isNumber (characterCountOf ref)) .characterCount <|
    require_action_quiet ((charactersOf ref).isSome) error <|
    require_action_quiet (isNull (charactersOf ref) != true) .characters <|
    require_action_quiet (isString (charactersOf ref)) .characters rest
  else rest

/-- Is the value of `kSecPasswordDefaultForType` the string `true`. -/
def isDefaultForType (requirements : Requirements) : Bool :=
  requirements.kSecPasswordDefaultForType.isSome
    && isString requirements.kSecPasswordDefaultForType
    && decide (asString requirements.kSecPasswordDefaultForType = some (CFSTR "true"))

/-- The branch of `isDictionaryFormattedProperly` for `kSecPasswordTypePIN`. -/
def isDictionaryFormattedProperlyPIN (passwordRequirements : Requirements) : Verdict :=
  let maxTest := passwordRequirements.kSecPasswordMaxLengthKey
  let minTest := passwordRequirements.kSecPasswordMinLengthKey
  checkIfPresentTwo maxTest .needMaxLength .maxLengthMustBeNumber <|
  checkIfPresentTwo minTest .needMinLength .minLengthMustBeNumber <|
  let maxPasswordLength : Int := (CFNumberGetValue maxTest).getD 0
  let minPasswordLength : Int := (CFNumberGetValue minTest).getD 0
  require_action_quiet
    (decide (minPasswordLength ≠ 0) && decide (maxPasswordLength ≠ 0)
      && decide (minPasswordLength ≤ maxPasswordLength)) .lengthParametersMakeNoSense <|
  require_action_quiet
    ((decide (minPasswordLength ≠ 0) && decide (minPasswordLength ≥ 4))
      || (decide (maxPasswordLength ≠ 0) && decide (maxPasswordLength ≥ 4)))
    .lengthParametersMakeNoSense .proper

/-- The branch of `isDictionaryFormattedProperly` for the other types. -/
def isDictionaryFormattedProperlyOther (passwordRequirements : Requirements) : Verdict :=
  let allowedTest := passwordRequirements.kSecPasswordAllowedCharactersKey
  let maxTest := passwordRequirements.kSecPasswordMaxLengthKey
  let minTest := passwordRequirements.kSecPasswordMinLengthKey
  let requiredTest := passwordRequirements.kSecPasswordRequiredCharactersKey
  require_action_quiet allowedTest.isSome .needAllowedCharacters <|
  require_action_quiet maxTest.isSome .needMaxLength <|
  require_action_quiet minTest.isSome .needMinLength <|
  require_action_quiet requiredTest.isSome .needRequiredCharacterSets <|
  require_action_quiet (isNull allowedTest != true) .needAllowedCharacters <|
  require_action_quiet (isNull maxTest != true) .needMaxLength <|
  require_action_quiet (isNull minTest != true) .needMinLength <|
  require_action_quiet (isNull requiredTest != true) .needRequiredCharacterSets <|
  require_action_quiet (isString allowedTest) .allowedCharactersMustBeString <|
  require_action_quiet (isNumber maxTest) .maxLengthMustBeNumber <|
  require_action_quiet (isNumber minTest) .minLengthMustBeNumber <|
  require_action_quiet (isArray requiredTest) .requiredCharactersMustBeArray <|
  let minPasswordLength : Int := (CFNumberGetValue minTest).getD 0
  let maxPasswordLength : Int := (CFNumberGetValue maxTest).getD 0
  require_action_quiet (decide (minPasswordLength ≤ maxPasswordLength))
    .lengthParametersMakeNoSense <|
  require_action_quiet (((asString allowedTest).getD []).length != 0) .needAllowedCharacters <|
  require_action_quiet
    (match requiredTest with
      | some (.array sets) => sets.length != 0
      | _ => false) .needRequiredCharacterSets <|
  checkIfPresent passwordRequirements.kSecPasswordDisallowedCharacters isString
    .disallowedCharacters <|
  checkIfPresent passwordRequirements.kSecPasswordCantEndWithChars isString .endWith <|
  checkIfPresent passwordRequirements.kSecPasswordCantStartWithChars isString .startWith <|
  checkIfPresent passwordRequirements.kSecPasswordGroupSize isNumber .groupSize <|
  checkIfPresent passwordRequirements.kSecPasswordNumberOfGroups isNumber .numberOfGroups <|
  checkIfPresent passwordRequirements.kSecPasswordSeparator isString .separator <|
  checkSpecificCharacters passwordRequirements.kSecPasswordContainsNoMoreThanNSpecificCharacters
    .atMostNCharacters <|
  checkSpecificCharacters passwordRequirements.kSecPasswordContainsAtLeastNSpecificCharacters
    .atLeastNCharacters <|
  checkIfPresent
    passwordRequirements.kSecPasswordContainsNoMoreThanNConsecutiveIdenticalCharacters isNumber
    .identicalConsecutiveCharacters .proper

/-- `isDictionaryFormattedProperly`. -/
def isDictionaryFormattedProperly (type : SecPasswordType)
    (passwordRequirements : Option Requirements) : Verdict :=
  match passwordRequirements with
  | none => .proper
  | some requirements =>
    if isDefaultForType requirements then .proper
    else if type = .kSecPasswordTypePIN then isDictionaryFormattedProperlyPIN requirements
    else isDictionaryFormattedProperlyOther requirements

/-! ## The final check of a candidate -/

/-- One step of `doesFinalPasswordPass`: `if (!check) return false;` followed by `rest`. -/
def passThen (check : Option Bool) (rest : Option Bool) : Option Bool :=
  match check with
  | none => none
  | some false => some false
  | some true => rest

/-- The step `if(endWith != NULL){ if(!doesPasswordEndWith(password, endWith)) ... }`. -/
def endWithCheck (password : CFString) (endWith : CFTypeRef) : Option Bool :=
  match endWith with
  | none => some true
  | some _ => (asString endWith).bind (doesPasswordEndWith password)

/-- The step `if(startWith != NULL){ if(!doesPasswordStartWith(password, startWith)) ... }`. -/
def startWithCheck (password : CFString) (startWith : CFTypeRef) : Option Bool :=
  match startWith with
  | none => some true
  | some _ => (asString startWith).bind (doesPasswordStartWith password)

/-- The steps on `atLeastCharacters` and `atMostCharacters`: the count and the characters are
read from the dictionary and handed to `predicate`. -/
def specificCharactersCheck (predicate : CFString → CFString → Int → Bool)
    (password : CFString) (ref : CFTypeRef) : Option Bool :=
  match ref with
  | none => some true
  | some (.dictionary NRef characters) =>
    match CFNumberGetValue NRef, asString characters with
    | some N, some cs => some (predicate password cs N)
    | _, _ => none
  | some _ => none

/-- The step `if(identicalRef != NULL){ ... }`. -/
def identicalCheck (password : CFString) (identicalRef : CFTypeRef) : Option Bool :=
  match identicalRef with
  | none => some true
  | some _ =>
    (CFNumberGetValue identicalRef).map (passwordContainsLessThanNIdenticalCharacters password)

/-- The step on the required character sets; `CFArrayGetCount(NULL)` is undefined. -/
def requiredCheck (password : CFString) (requiredCharacterSet : Option (List CFCharacterSet)) :
    Option Bool :=
  requiredCharacterSet.map (passwordContainsRequiredCharacters password)

/-- `doesFinalPasswordPass`. -/
def doesFinalPasswordPass (password : CFString) (requirements : Parameters) : Option Bool :=
  if requirements.kSecPasswordContainsNoMoreThanNConsecutiveIdenticalCharacters.isSome
      && !isNumber requirements.kSecPasswordContainsNoMoreThanNConsecutiveIdenticalCharacters
  then none
  else
    passThen (endWithCheck password requirements.kSecPasswordCantEndWithChars) <|
    passThen (startWithCheck password requirements.kSecPasswordCantStartWithChars) <|
    passThen (specificCharactersCheck passwordContainsAtLeastNCharacters password
      requirements.kSecPasswordContainsAtLeastNSpecificCharacters) <|
    passThen (specificCharactersCheck passwordContainsLessThanNCharacters password
      requirements.kSecPasswordContainsNoMoreThanNSpecificCharacters) <|
    passThen (identicalCheck password
      requirements.kSecPasswordContainsNoMoreThanNConsecutiveIdenticalCharacters) <|
    passThen (requiredCheck password requirements.kSecRequiredCharacterSetsKey) <|
    some (!SecPasswordIsPasswordWeak password)

/-! ## SecPasswordGenerate -/

/-- Modelled from the spec: a chunk of the raw string,
`CFStringCreateWithSubstring(kCFAllocatorDefault, str, CFRangeMake(location, length))` of
CoreFoundation, not among the sources; the range must lie in the string. -/
def CFStringCreateWithSubstring (str : CFString) (location length : Int) : Option CFString :=
  if 0 ≤ location ∧ 0 ≤ length ∧ location + length ≤ str.length then
    some ((str.drop location.toNat).take length.toNat)
  else none

/-- The loop `while( i != requiredCharactersSize)` that builds `finalPassword` from the
groups of `randomCharacters`. -/
def groupLoop (randomCharacters separator : CFString) (groupSize requiredCharactersSize : Int) :
    (fuel : Nat) → (i : Int) → (finalPassword : CFString) → Option CFString
  | 0, i, finalPassword => if i ≠ requiredCharactersSize then none else some finalPassword
  | fuel + 1, i, finalPassword =>
    if i ≠ requiredCharactersSize then
      if i + groupSize < requiredCharactersSize then
        match CFStringCreateWithSubstring randomCharacters i groupSize with
        | none => none
        | some group =>
          groupLoop randomCharacters separator groupSize requiredCharactersSize fuel
            (i + groupSize) (finalPassword ++ group ++ separator)
      else if i + groupSize = requiredCharactersSize then
        match CFStringCreateWithSubstring randomCharacters i groupSize with
        | none => none
        | some group =>
          groupLoop randomCharacters separator groupSize requiredCharactersSize fuel
            (i + groupSize) (finalPassword ++ group)
      else
        match CFStringCreateWithSubstring randomCharacters i (requiredCharactersSize - i) with
        | none => none
        | some group =>
          groupLoop randomCharacters separator groupSize requiredCharactersSize fuel
            (i + (requiredCharactersSize - i)) (finalPassword ++ group)
    else some finalPassword

/-- The index `i` of the loop `while( i != requiredCharactersSize)` alone: the values `i`
has after each turn of the loop, in order; `none` when the loop has not ended after `fuel`
turns. -/
def groupLoopIndices (groupSize requiredCharactersSize : Int) :
    (fuel : Nat) → (i : Int) → Option (List Int)
  | 0, i => if i ≠ requiredCharactersSize then none else some []
  | fuel + 1, i =>
    if i ≠ requiredCharactersSize then
      if i + groupSize < requiredCharactersSize then
        (groupLoopIndices groupSize requiredCharactersSize fuel (i + groupSize)).map
          (fun rest => (i + groupSize) :: rest)
      else if i + groupSize = requiredCharactersSize then
        (groupLoopIndices groupSize requiredCharactersSize fuel (i + groupSize)).map
          (fun rest => (i + groupSize) :: rest)
      else
        (groupLoopIndices groupSize requiredCharactersSize fuel
          (i + (requiredCharactersSize - i))).map
            (fun rest => (i + (requiredCharactersSize - i)) :: rest)
    else some []

/-- The separator of the groups: `if(separator == NULL) separator = CFSTR("-");`. -/
def separatorOrDash (separator : CFTypeRef) : CFTypeRef :=
  match separator with
  | none => some (.string (CFSTR "-"))
  | some value => some value

/-- The formatting step in the loop of `SecPasswordGenerate`: with both
`numberOfGroupsRef` and `groupSizeRef` the groups joined by the separator, which is `-` when
the parameters have none, otherwise the random characters as they are. A turn of the group
loop with a positive group size moves `i` forward, so the loop that ends does so within
`requiredCharactersSize` turns, whatever the fuel beyond that. -/
def formatPassword (randomCharacters : CFString) (properlyFormattedRequirements : Parameters)
    (requiredCharactersSize : Int) (groupSize : Int) : Option CFString :=
  if properlyFormattedRequirements.kSecPasswordNumberOfGroups.isSome
      && properlyFormattedRequirements.kSecPasswordGroupSize.isSome then
    match asString (separatorOrDash properlyFormattedRequirements.kSecPasswordSeparator) with
    | none => none
    | some separator =>
      groupLoop randomCharacters separator groupSize requiredCharactersSize
        (requiredCharactersSize.toNat + 1) 0 []
  else some randomCharacters

/-- The loop `while (true)` of `SecPasswordGenerate`: the password returned and the rest
of the random source. -/
def generateLoop (properlyFormattedRequirements : Parameters) (requiredCharactersSize : Int)
    (groupSize : Int) : (fuel : Nat) → RandomSource → Option (CFString × RandomSource)
  | 0, _ => none
  | fuel + 1, rng =>
    match getPasswordRandomCharacters
        properlyFormattedRequirements.kSecPasswordDisallowedCharacters requiredCharactersSize
        properlyFormattedRequirements.kSecAllowedCharactersKey rng with
    | none => none
    | some (randomCharacters, rng1) =>
      match formatPassword randomCharacters properlyFormattedRequirements
          requiredCharactersSize groupSize with
      | none => none
      | some password =>
        match doesFinalPasswordPass password properlyFormattedRequirements with
        | none => none
        | some true => some (password, rng1)
        | some false =>
          generateLoop properlyFormattedRequirements requiredCharactersSize groupSize fuel rng1

/-- What `SecPasswordGenerate` returns: a password, or `NULL` with `*error` set. -/
inductive GenResult where
  | password (password : CFString)
  | error (error : CFError)
  deriving DecidableEq, Repr

/-- Are the default parameters of the type to be generated: the test
`passwordRequirements == NULL || (... kSecPasswordDefaultForType is the string true)`. -/
def useDefaultParameters (passwordRequirements : Option Requirements) : Bool :=
  match passwordRequirements with
  | none => true
  | some requirements => isDefaultForType requirements

/-- The parameters `SecPasswordGenerate` generates with, `properlyFormattedRequirements`. -/
def properlyFormattedRequirements (type : SecPasswordType)
    (passwordRequirements : Option Requirements) : Option Parameters :=
  match passwordRequirements with
  | none => some (passwordGenerateDefaultParametersDictionary type)
  | some requirements =>
    if isDefaultForType requirements then some (passwordGenerateDefaultParametersDictionary type)
    else passwordGenerationParametersDictionary type requirements

/-- The value `CFNumberGetValue` stores for `groupSize` and `numberOfGroups`: nothing is read
when the key is absent, and the variable is then not used. -/
def readGroupNumber (ref : CFTypeRef) : Option Int :=
  match ref with
  | none => some 0
  | some _ => CFNumberGetValue ref

/-- `SecPasswordGenerate`: the result and the rest of the random source. Every turn of the
loop draws the random characters, which takes an answer of the source, so one turn more than
the source has answers is all the fuel the loop can use. -/
def SecPasswordGenerate (type : SecPasswordType) (passwordRequirements : Option Requirements)
    (rng : RandomSource) : Option (GenResult × RandomSource) :=
  match isDictionaryFormattedProperly type passwordRequirements with
  | .malformed error => some (.error error, rng)
  | .proper =>
    match properlyFormattedRequirements type passwordRequirements with
    | none => none
    | some parameters =>
      let requiredCharactersSize := parameters.kSecNumberOfRequiredRandomCharactersKey
      match readGroupNumber parameters.kSecPasswordGroupSize,
          readGroupNumber parameters.kSecPasswordNumberOfGroups with
      | some groupSize, some _ =>
        match generateLoop parameters requiredCharactersSize groupSize (rng.length + 1) rng with
        | none => none
        | some (password, rng1) => some (.password password, rng1)
      | _, _ => none

/-! ## SecPasswordCopyDefaultPasswordLength -/

/-- What `SecPasswordCopyDefaultPasswordLength` returns: the dictionary with the values of
`kSecPasswordGroupSize` and `kSecPasswordNumberOfGroups`, or `NULL` with the error
`Password type does not exist.` -/
inductive PasswordLengthDefaults where
  | dictionary (kSecPasswordGroupSize kSecPasswordNumberOfGroups : Int)
  | passwordTypeDoesNotExist
  deriving DecidableEq, Repr

/-- `SecPasswordCopyDefaultPasswordLength`. -/
def SecPasswordCopyDefaultPasswordLength (type : SecPasswordType) : PasswordLengthDefaults :=
  match type with
  | .kSecPasswordTypeiCloudRecovery => .dictionary 4 6
  | .kSecPasswordTypePIN => .dictionary 4 1
  | .kSecPasswordTypeSafari => .dictionary 4 5
  | .kSecPasswordTypeWifi => .dictionary 4 3
  | .other => .passwordTypeDoesNotExist

/-! ## The constraints in the words of the specification -/

/-- The constraints the specification's validators put on a password, for given generation
parameters: a character of each required character set, no start and no end with the
restricted strings, the least and the greatest number of occurrences of the specific
characters, no run of more than the given number of identical consecutive characters, and
not weak. -/
structure SatisfiesConstraints (password : CFString) (parameters : Parameters) : Prop where
  required : ∀ sets, parameters.kSecRequiredCharacterSetsKey = some sets →
    ∀ set ∈ sets, ∃ c ∈ password, set.isMember c = true
  cannotStartWith : ∀ r, parameters.kSecPasswordCantStartWithChars = some (.string r) →
    ¬ r <+: password
  cannotEndWith : ∀ r, parameters.kSecPasswordCantEndWithChars = some (.string r) →
    ¬ r <:+ password
  atLeast : ∀ N cs, parameters.kSecPasswordContainsAtLeastNSpecificCharacters
      = some (.dictionary (some (.number N)) (some (.string cs))) →
    N ≤ (password.countP (fun c => decide (c ∈ cs)) : Int)
  atMost : ∀ N cs, parameters.kSecPasswordContainsNoMoreThanNSpecificCharacters
      = some (.dictionary (some (.number N)) (some (.string cs))) →
    (password.countP (fun c => decide (c ∈ cs)) : Int) ≤ N
  identical : ∀ N, parameters.kSecPasswordContainsNoMoreThanNConsecutiveIdenticalCharacters
      = some (.number N) →
    ∀ c k, List.replicate k c <:+: password → (k : Int) ≤ N
  notWeak : SecPasswordIsPasswordWeak password = false

/-- The indices the specification's sampler emits for a stream of bytes: every byte below
the limit, modulo the upper bound, in the order of the stream. -/
def emittedIndices (upperBound : Nat) (bytes : List Nat) : List Nat :=
  (bytes.filter (fun b => decide (b < limitAvoidingModuloBias upperBound))).map
    (fun b => b % upperBound)

/-- The bytes of the fills of the random source that succeeded, in the order of the stream;
a fill that failed gives none. -/
def filledBytes : RandomSource → List Nat
  | [] => []
  | none :: rest => filledBytes rest
  | some bytes :: rest => bytes.map (fun b => b % 256) ++ filledBytes rest

/-- Every fill that succeeded has as many bytes as `count` less the numbers accepted before
it; `accepted` is the number accepted before the first of the fills. -/
def requestsMatch (upperBound count : Nat) : (accepted : Nat) → RandomSource → Prop
  | _, [] => True
  | accepted, none :: rest => requestsMatch upperBound count accepted rest
  | accepted, some bytes :: rest =>
    bytes.length = count - accepted
      ∧ requestsMatch upperBound count
          (accepted + (emittedIndices upperBound (bytes.map (fun b => b % 256))).length) rest

/-- The groups of the specification's FORMAT step joined by the separator. -/
def joinWith (separator : CFString) : List CFString → CFString
  | [] => []
  | [group] => group
  | group :: rest => group ++ separator ++ joinWith separator rest

/-- The specification's slicing of the raw string into chunks of `groupSize` characters, the
last of which may be shorter; `fuel` bounds the number of chunks. -/
def groupsOf (groupSize : Nat) : (fuel : Nat) → CFString → List CFString
  | 0, _ => []
  | fuel + 1, raw =>
    if raw = [] then [] else raw.take groupSize :: groupsOf groupSize fuel (raw.drop groupSize)

/-! ## Requirements and random sources of the examples -/

/-- The requirements `{minLength: 10, maxLength: 2}`. -/
def requirementsMin10Max2 : Requirements :=
  { kSecPasswordMinLengthKey := some (.number 10), kSecPasswordMaxLengthKey := some (.number 2) }

/-- Requirements of eight characters over `abc123XYZ` with every optional constraint of the
final check. -/
def requirementsAllConstraints : Requirements :=
  { kSecPasswordMinLengthKey := some (.number 8)
    kSecPasswordMaxLengthKey := some (.number 8)
    kSecPasswordAllowedCharactersKey := some (.string (CFSTR "abc123XYZ"))
    kSecPasswordRequiredCharactersKey :=
      some (.array [.uppercaseLetter, .lowercaseLetter, .decimalDigit])
    kSecPasswordCantStartWithChars := some (.string (CFSTR "a"))
    kSecPasswordCantEndWithChars := some (.string (CFSTR "Z"))
    kSecPasswordContainsAtLeastNSpecificCharacters :=
      some (.dictionary (some (.number 1)) (some (.string (CFSTR "1"))))
    kSecPasswordContainsNoMoreThanNSpecificCharacters :=
      some (.dictionary (some (.number 3)) (some (.string (CFSTR "a"))))
    kSecPasswordContainsNoMoreThanNConsecutiveIdenticalCharacters := some (.number 2) }

/-- The generation parameters of `requirementsAllConstraints` for a Safari password. -/
def parametersAllConstraints : Parameters :=
  { kSecUseDefaultPasswordFormatKey := false
    kSecNumberOfRequiredRandomCharactersKey := 8
    kSecAllowedCharactersKey := CFSTR "abc123XYZ"
    kSecRequiredCharacterSetsKey := some [.uppercaseLetter, .lowercaseLetter, .decimalDigit]
    kSecPasswordCantStartWithChars := some (.string (CFSTR "a"))
    kSecPasswordCantEndWithChars := some (.string (CFSTR "Z"))
    kSecPasswordContainsAtLeastNSpecificCharacters :=
      some (.dictionary (some (.number 1)) (some (.string (CFSTR "1"))))
    kSecPasswordContainsNoMoreThanNSpecificCharacters :=
      some (.dictionary (some (.number 3)) (some (.string (CFSTR "a"))))
    kSecPasswordContainsNoMoreThanNConsecutiveIdenticalCharacters := some (.number 2) }

/-- Requirements of 24 characters over the default alphabet, in groups of 4 joined by `-`. -/
def requirementsGrouped24 : Requirements :=
  { kSecPasswordMinLengthKey := some (.number 24)
    kSecPasswordMaxLengthKey := some (.number 24)
    kSecPasswordAllowedCharactersKey := some (.string defaultCharacters)
    kSecPasswordRequiredCharactersKey :=
      some (.array [.uppercaseLetter, .lowercaseLetter, .decimalDigit])
    kSecPasswordGroupSize := some (.number 4)
    kSecPasswordNumberOfGroups := some (.number 6)
    kSecPasswordSeparator := some (.string (CFSTR "-")) }

/-- The requirements `{groupSize: 4, numberOfGroups: 6, separator: "-"}`. -/
def requirementsGroupingOnly : Requirements :=
  { kSecPasswordGroupSize := some (.number 4)
    kSecPasswordNumberOfGroups := some (.number 6)
    kSecPasswordSeparator := some (.string (CFSTR "-")) }

/-- Requirements of a PIN of 8 digits in groups of 4. -/
def requirementsPIN8 : Requirements :=
  { kSecPasswordMinLengthKey := some (.number 8)
    kSecPasswordMaxLengthKey := some (.number 8)
    kSecPasswordGroupSize := some (.number 4)
    kSecPasswordNumberOfGroups := some (.number 2) }

/-- The generation parameters of `requirementsPIN8` for a PIN. -/
def parametersPIN8 : Parameters :=
  { kSecUseDefaultPasswordFormatKey := false
    kSecNumberOfRequiredRandomCharactersKey := 8
    kSecAllowedCharactersKey := CFSTR "0123456789"
    kSecRequiredCharacterSetsKey := some [.decimalDigit, .decimalDigit]
    kSecPasswordGroupSize := some (.number 4)
    kSecPasswordNumberOfGroups := some (.number 2) }

/-- The random source of the examples for a default Safari password: one answer of twenty
bytes. -/
def rngSafari : RandomSource := [some ((List.range 20).map (fun i => i * 12))]

/-- The random source of the examples for `requirementsGrouped24`: one answer of 24 bytes. -/
def rngGrouped24 : RandomSource := [some ((List.range 24).map (fun i => i * 9))]

/-- Does the requirements dictionary carry none of the optional refinement fields. -/
def carriesNoRefinement (requirements : Requirements) : Bool :=
  requirements.kSecPasswordDisallowedCharacters.isNone
    && requirements.kSecPasswordCantStartWithChars.isNone
    && requirements.kSecPasswordCantEndWithChars.isNone
    && requirements.kSecPasswordContainsNoMoreThanNSpecificCharacters.isNone
    && requirements.kSecPasswordContainsAtLeastNSpecificCharacters.isNone
    && requirements.kSecPasswordContainsNoMoreThanNConsecutiveIdenticalCharacters.isNone
    && requirements.kSecPasswordGroupSize.isNone
    && requirements.kSecPasswordNumberOfGroups.isNone
    && requirements.kSecPasswordSeparator.isNone

/-- Requirements with the four mandatory fields only: 10 to 30 characters over `abc123XYZ`. -/
def requirementsMandatoryOnly : Requirements :=
  { kSecPasswordMinLengthKey := some (.number 10)
    kSecPasswordMaxLengthKey := some (.number 30)
    kSecPasswordAllowedCharactersKey := some (.string (CFSTR "abc123XYZ"))
    kSecPasswordRequiredCharactersKey := some (.array [.uppercaseLetter, .decimalDigit]) }

/-- Requirements flagged as the default for the type, the other fields malformed. -/
def requirementsDefaultFlagged : Requirements :=
  { kSecPasswordDefaultForType := some (.string (CFSTR "true"))
    kSecPasswordMinLengthKey := some .null
    kSecPasswordMaxLengthKey := some (.string (CFSTR "ten"))
    kSecPasswordGroupSize := some (.array []) }

/-- Requirements of 3 characters over `abc123XYZ`. -/
def requirementsMin3Max3 : Requirements :=
  { kSecPasswordMinLengthKey := some (.number 3)
    kSecPasswordMaxLengthKey := some (.number 3)
    kSecPasswordAllowedCharactersKey := some (.string (CFSTR "abc123XYZ"))
    kSecPasswordRequiredCharactersKey := some (.array [.uppercaseLetter, .decimalDigit]) }

/-- Requirements of 10 to 30 characters over the alphabet `ab-`. -/
def requirementsDashAlphabet : Requirements :=
  { kSecPasswordMinLengthKey := some (.number 10)
    kSecPasswordMaxLengthKey := some (.number 30)
    kSecPasswordAllowedCharactersKey := some (.string (CFSTR "ab-"))
    kSecPasswordRequiredCharactersKey := some (.array [.lowercaseLetter]) }

/-- Requirements of 8 characters over the alphabet `-`. -/
def requirementsDashOnly : Requirements :=
  { kSecPasswordMinLengthKey := some (.number 8)
    kSecPasswordMaxLengthKey := some (.number 8)
    kSecPasswordAllowedCharactersKey := some (.string (CFSTR "-"))
    kSecPasswordRequiredCharactersKey := some (.array [.decimalDigit]) }

/-- Requirements of 8 characters over an alphabet of 256 characters, `a` to `z` and `0` to `9`
again and again. -/
def requirements256Characters : Requirements :=
  { kSecPasswordMinLengthKey := some (.number 8)
    kSecPasswordMaxLengthKey := some (.number 8)
    kSecPasswordAllowedCharactersKey :=
      some (.string ((List.range 256).map (fun i => (defaultWifiCharacters.getD (i % 36) 0))))
    kSecPasswordRequiredCharactersKey := some (.array [.decimalDigit]) }

/-- Requirements of 8 characters over the alphabet of U+00C3, U+00A9 and `ab12XY`. -/
def requirementsLatin1 : Requirements :=
  { kSecPasswordMinLengthKey := some (.number 8)
    kSecPasswordMaxLengthKey := some (.number 8)
    kSecPasswordAllowedCharactersKey := some (.string ([195, 169] ++ CFSTR "ab12XY"))
    kSecPasswordRequiredCharactersKey := some (.array [.lowercaseLetter]) }

/-- The characters the formatting step inserts between the groups: those of the separator
when the parameters have a group size and a number of groups, none otherwise. -/
def separatorCharacters (parameters : Parameters) : CFString :=
  if parameters.kSecPasswordNumberOfGroups.isSome && parameters.kSecPasswordGroupSize.isSome
  then (asString (separatorOrDash parameters.kSecPasswordSeparator)).getD []
  else []

/-- The number of groups a default password of the type is laid out in. -/
def defaultGroupCount (type : SecPasswordType) : Nat :=
  match type with
  | .kSecPasswordTypeiCloudRecovery => 6
  | .kSecPasswordTypePIN => 1
  | .kSecPasswordTypeWifi => 3
  | _ => 5

/-! ## The weak-password heuristic -/

theorem all_decimalDigit_iff (s : CFString) :
    s.all CFCharacterSet.decimalDigit.isMember = true ↔ ∀ c ∈ s, isDecimalDigit c = true := by
  simp [List.all_eq_true, CFCharacterSet.isMember]

theorem isDecimalDigit_iff (c : Nat) : isDecimalDigit c = true ↔ 48 ≤ c ∧ c ≤ 57 := by
  simp [isDecimalDigit]

theorem pinLoop_iff (rel : Nat → Nat → Bool) (l : List Nat) :
    pinLoop rel l = true ↔
      l ≠ [] ∧ ∀ i, i + 1 < l.length → rel (l.getD i 0) (l.getD (i + 1) 0) = true := by
  induction l with
  | nil => simp [pinLoop]
  | cons a t ih =>
    cases t with
    | nil => simp [pinLoop]
    | cons b rest =>
      simp only [pinLoop]
      constructor
      · intro h
        split at h
        · rename_i hab
          have h2 := (ih.mp h).2
          refine ⟨by simp, ?_⟩
          intro i hi
          cases i with
          | zero => simpa using hab
          | succ j =>
            have := h2 j (by simpa using hi)
            simpa using this
        · simp at h
      · rintro ⟨-, h⟩
        have hab : rel a b = true := by simpa using h 0 (by simp)
        rw [if_pos hab]
        apply ih.mpr
        refine ⟨by simp, ?_⟩
        intro i hi
        have := h (i + 1) (by simpa using hi)
        simpa using this

theorem adjacent_eq_iff (s : List Nat) :
    (∀ i, i + 1 < s.length → s.getD i 0 = s.getD (i + 1) 0) ↔ ∀ c ∈ s, ∀ d ∈ s, c = d := by
  constructor
  · intro h
    have key : ∀ i, i < s.length → s.getD i 0 = s.getD 0 0 := by
      intro i
      induction i with
      | zero => intro _; rfl
      | succ j ih =>
        intro hj
        rw [← h j hj]
        exact ih (by omega)
    intro c hc d hd
    obtain ⟨i, hi, rfl⟩ := List.getElem_of_mem hc
    obtain ⟨j, hj, rfl⟩ := List.getElem_of_mem hd
    have h1 := key i hi
    have h2 := key j hj
    rw [List.getD_eq_getElem _ _ hi] at h1
    rw [List.getD_eq_getElem _ _ hj] at h2
    rw [h1, h2]
  · intro h i hi
    rw [List.getD_eq_getElem _ _ (by omega : i < s.length), List.getD_eq_getElem _ _ hi]
    exact h _ (List.getElem_mem _) _ (List.getElem_mem _)

theorem wordlist_entries_found :
    ∀ w ∈ wordlist, w ≠ [] → (in_word_set w 4).isSome = true := by
  decide!

theorem getD_mem_of_ne {α : Type} (l : List α) (i : Nat) (d : α) (h : l.getD i d ≠ d) :
    l.getD i d ∈ l := by
  by_cases hi : i < l.length
  · rw [List.getD_eq_getElem _ _ hi]; exact List.getElem_mem _
  · rw [List.getD_eq_default _ _ (by omega)] at h; exact absurd rfl h

theorem in_word_set_isSome_iff (s : CFString) (h0 : s.getD 0 0 ≠ 0) :
    (in_word_set s 4).isSome = true ↔ s ∈ wordlist ∧ s ≠ [] := by
  constructor
  · intro h
    unfold in_word_set at h
    simp only [MAX_WORD_LENGTH, MIN_WORD_LENGTH, MAX_HASH_VALUE] at h
    split at h
    · split at h
      · split at h
        · rename_i hw
          obtain ⟨hw0, hw1⟩ := hw
          cases s with
          | nil => simp at h0
          | cons a t =>
            have hne : wordlist.getD (pinhash (a :: t) 4) [] ≠ [] := by
              intro he
              rw [he] at hw0
              simp at hw0
              simp [hw0] at h0
            have hmem := getD_mem_of_ne _ _ _ hne
            have heq : wordlist.getD (pinhash (a :: t) 4) [] = a :: t := by
              cases hw : wordlist.getD (pinhash (a :: t) 4) [] with
              | nil => exact absurd hw hne
              | cons w0 wt =>
                rw [hw] at hw0 hw1
                simp at hw0 hw1
                rw [hw0, hw1]
            rw [heq] at hmem
            exact ⟨hmem, by simp⟩
        · simp at h
      · simp at h
    · simp at h
  · rintro ⟨hm, hne⟩
    exact wordlist_entries_found s hm hne

theorem mem_blacklist_iff (s : CFString) :
    blacklist.any (fun blackCode => blackCode == s) = true ↔ s ∈ blacklist := by
  simp only [List.any_eq_true, beq_iff_eq]
  constructor
  · rintro ⟨x, hx, rfl⟩; exact hx
  · intro h; exact ⟨s, h, rfl⟩

/-- C2: a string of exactly four decimal digits is weak exactly when it is one of the seven
entries of the blacklist, or one of the 100 filled entries of the PIN word list, or its four
digits are identical, or it has the pattern AABB, or it has the pattern ABAB. -/
theorem weak_four_digits_iff (s : CFString) (hlen : s.length = 4)
    (hdigits : ∀ c ∈ s, isDecimalDigit c = true) :
    (SecPasswordIsPasswordWeak s = true ↔
      (s ∈ blacklist
        ∨ s ∈ wordlist.filter (fun w => !w.isEmpty)
        ∨ (∀ c ∈ s, ∀ d ∈ s, c = d)
        ∨ (s.getD 0 0 = s.getD 1 0 ∧ s.getD 2 0 = s.getD 3 0)
        ∨ (s.getD 0 0 = s.getD 2 0 ∧ s.getD 1 0 = s.getD 3 0)))
      ∧ blacklist.length = 7
      ∧ (wordlist.filter (fun w => !w.isEmpty)).length = TOTAL_KEYWORDS := by
  refine ⟨?_, by decide!, by decide!⟩
  have hnum : s.all CFCharacterSet.decimalDigit.isMember = true :=
    (all_decimalDigit_iff s).mpr hdigits
  match s, hlen with
  | [a, b, c, d], _ =>
    have ha := (isDecimalDigit_iff a).mp (hdigits a (by simp))
    have hb := (isDecimalDigit_iff b).mp (hdigits b (by simp))
    have hc := (isDecimalDigit_iff c).mp (hdigits c (by simp))
    have hd := (isDecimalDigit_iff d).mp (hdigits d (by simp))
    have hword := in_word_set_isSome_iff [a, b, c, d]
      (by simp only [List.getD_cons_zero]; omega)
    have hchain : chainedEquality [a, b, c, d] = false := by
      simp only [chainedEquality, List.getD_cons_zero, List.getD_cons_succ,
        decide_eq_false_iff_not]
      intro h
      split at h <;> split at h <;> omega
    have hsame : (∀ x ∈ [a, b, c, d], ∀ y ∈ [a, b, c, d], x = y) ↔ (a = b ∧ b = c ∧ c = d) := by
      constructor
      · intro h
        exact ⟨h a (by simp) b (by simp), h b (by simp) c (by simp), h c (by simp) d (by simp)⟩
      · rintro ⟨rfl, rfl, rfl⟩ x hx y hy
        simp at hx hy
        rw [hx, hy]
    unfold SecPasswordIsPasswordWeak
    rw [hsame]
    simp only [hnum, CFStringToCString, hchain, mem_blacklist_iff, List.mem_filter]
    simp only [List.length_cons, List.length_nil, List.getD_cons_zero, List.getD_cons_succ]
    by_cases hw : (in_word_set [a, b, c, d] 4).isSome = true
    · have := hword.mp hw
      simp [hw, this.1]
    · have hw2 : [a, b, c, d] ∉ wordlist := fun hm => hw (hword.mpr ⟨hm, by simp⟩)
      simp only [hw, hw2, false_and, false_or]
      by_cases hbl : [a, b, c, d] ∈ blacklist
      · simp [hbl]
      · simp [hbl]
        rintro h1 - h3
        exact Or.inl ⟨h1, h3⟩

/-- C2, witness: the string `2580`. -/
theorem weak_four_digits_iff_witness :
    (CFSTR "2580").length = 4 ∧ (∀ c ∈ CFSTR "2580", isDecimalDigit c = true)
      ∧ ((SecPasswordIsPasswordWeak (CFSTR "2580") = true ↔
        (CFSTR "2580" ∈ blacklist
          ∨ CFSTR "2580" ∈ wordlist.filter (fun w => !w.isEmpty)
          ∨ (∀ c ∈ CFSTR "2580", ∀ d ∈ CFSTR "2580", c = d)
          ∨ ((CFSTR "2580").getD 0 0 = (CFSTR "2580").getD 1 0
              ∧ (CFSTR "2580").getD 2 0 = (CFSTR "2580").getD 3 0)
          ∨ ((CFSTR "2580").getD 0 0 = (CFSTR "2580").getD 2 0
              ∧ (CFSTR "2580").getD 1 0 = (CFSTR "2580").getD 3 0)))
        ∧ blacklist.length = 7
        ∧ (wordlist.filter (fun w => !w.isEmpty)).length = TOTAL_KEYWORDS) :=
  ⟨by decide, by decide, weak_four_digits_iff (CFSTR "2580") (by decide) (by decide)⟩

/-- C3: a string of decimal digits whose length is at least 4 and not 4 is weak exactly when
all its digits are identical, or every digit is its predecessor plus one, or every digit is
its predecessor minus one. -/
theorem weak_digits_iff (s : CFString) (hdigits : ∀ c ∈ s, isDecimalDigit c = true)
    (hlen : 4 ≤ s.length) (hne : s.length ≠ 4) :
    SecPasswordIsPasswordWeak s = true ↔
      ((∀ c ∈ s, ∀ d ∈ s, c = d)
        ∨ (∀ i, i + 1 < s.length → s.getD (i + 1) 0 = s.getD i 0 + 1)
        ∨ (∀ i, i + 1 < s.length → s.getD (i + 1) 0 + 1 = s.getD i 0)) := by
  have hnum : s.all CFCharacterSet.decimalDigit.isMember = true :=
    (all_decimalDigit_iff s).mpr hdigits
  have hnil : s ≠ [] := by
    intro h; simp [h] at hlen
  have h4 : ¬ s.length < 4 := by omega
  unfold SecPasswordIsPasswordWeak
  simp only [h4, if_false, hnum, Bool.true_and, beq_iff_eq, hne, CFStringToCString,
    if_true]
  rw [← adjacent_eq_iff]
  have e1 := pinLoop_iff (fun a b => a == b) s
  have e2 := pinLoop_iff (fun a b => a + 1 == b) s
  have e3 := pinLoop_iff (fun a b => a == b + 1) s
  simp only [beq_iff_eq, ne_eq, hnil, not_false_eq_true, true_and] at e1 e2 e3
  have r2 : (∀ i, i + 1 < s.length → s.getD i 0 + 1 = s.getD (i + 1) 0) ↔
      (∀ i, i + 1 < s.length → s.getD (i + 1) 0 = s.getD i 0 + 1) :=
    forall_congr' fun i => imp_congr_right fun _ => eq_comm
  have r3 : (∀ i, i + 1 < s.length → s.getD i 0 = s.getD (i + 1) 0 + 1) ↔
      (∀ i, i + 1 < s.length → s.getD (i + 1) 0 + 1 = s.getD i 0) :=
    forall_congr' fun i => imp_congr_right fun _ => eq_comm
  rw [← e1, ← r2, ← e2, ← r3, ← e3]
  by_cases h1 : pinLoop (fun a b => a == b) s = true <;>
    by_cases h2 : pinLoop (fun a b => a + 1 == b) s = true <;>
    by_cases h3 : pinLoop (fun a b => a == b + 1) s = true <;>
    simp [h1, h2, h3]

/-- C3, witness: the descending run `98765`. -/
theorem weak_digits_iff_witness :
    (∀ c ∈ CFSTR "98765", isDecimalDigit c = true) ∧ 4 ≤ (CFSTR "98765").length
      ∧ (CFSTR "98765").length ≠ 4
      ∧ (SecPasswordIsPasswordWeak (CFSTR "98765") = true ↔
        ((∀ c ∈ CFSTR "98765", ∀ d ∈ CFSTR "98765", c = d)
          ∨ (∀ i, i + 1 < (CFSTR "98765").length →
              (CFSTR "98765").getD (i + 1) 0 = (CFSTR "98765").getD i 0 + 1)
          ∨ (∀ i, i + 1 < (CFSTR "98765").length →
              (CFSTR "98765").getD (i + 1) 0 + 1 = (CFSTR "98765").getD i 0))) :=
  ⟨by decide, by decide, by decide,
    weak_digits_iff (CFSTR "98765") (by decide) (by decide) (by decide)⟩

theorem isPunctuation_cases (c : Nat) (h : isPunctuation c = true) :
    c ∈ [33, 34, 35, 37, 38, 39, 40, 41, 42, 44, 45, 46, 47, 58, 59, 63, 64, 91, 92, 93, 95,
      123, 125] := by
  simpa [isPunctuation] using h

theorem categories_disjoint (c : Nat) :
    (isLowercaseLetter c = true → isUppercaseLetter c = false)
      ∧ (isDecimalDigit c = true → isUppercaseLetter c = false ∧ isLowercaseLetter c = false)
      ∧ (isPunctuation c = true →
          isUppercaseLetter c = false ∧ isLowercaseLetter c = false ∧ isDecimalDigit c = false) := by
  refine ⟨?_, ?_, ?_⟩
  · intro h
    simp only [isLowercaseLetter, Bool.and_eq_true, decide_eq_true_eq] at h
    simp only [isUppercaseLetter, Bool.and_eq_false_iff, decide_eq_false_iff_not]
    omega
  · intro h
    simp only [isDecimalDigit, Bool.and_eq_true, decide_eq_true_eq] at h
    simp only [isUppercaseLetter, isLowercaseLetter, Bool.and_eq_false_iff,
      decide_eq_false_iff_not]
    omega
  · intro h
    have := isPunctuation_cases c h
    simp only [List.mem_cons, List.mem_singleton, List.not_mem_nil, or_false] at this
    simp only [isLowercaseLetter, isUppercaseLetter, isDecimalDigit, Bool.and_eq_false_iff,
      decide_eq_false_iff_not]
    omega

theorem countCategories_pos (s : CFString) :
    ((countCategories s).1 > 0 ↔ s.any isUppercaseLetter = true)
      ∧ ((countCategories s).2.1 > 0 ↔ s.any isLowercaseLetter = true)
      ∧ ((countCategories s).2.2.1 > 0 ↔ s.any isDecimalDigit = true)
      ∧ ((countCategories s).2.2.2 > 0 ↔ s.any isPunctuation = true) := by
  induction s with
  | nil => simp [countCategories]
  | cons c t ih =>
    obtain ⟨ih1, ih2, ih3, ih4⟩ := ih
    obtain ⟨d1, d2, d3⟩ := categories_disjoint c
    simp only [countCategories, List.any_cons, Bool.or_eq_true]
    by_cases hu : isUppercaseLetter c = true
    · have hl : isLowercaseLetter c = false := by
        by_contra h; simp at h; simp [d1 h] at hu
      have hd : isDecimalDigit c = false := by
        by_contra h; simp at h; simp [(d2 h).1] at hu
      have hp : isPunctuation c = false := by
        by_contra h; simp at h; simp [(d3 h).1] at hu
      simp only [hu, hl, hd, hp, if_true, true_or, false_or, iff_true, Bool.false_eq_true]
      exact ⟨by omega, ih2, ih3, ih4⟩
    · simp only [Bool.not_eq_true] at hu
      by_cases hl : isLowercaseLetter c = true
      · have hd : isDecimalDigit c = false := by
          by_contra h; simp at h; simp [(d2 h).2] at hl
        have hp : isPunctuation c = false := by
          by_contra h; simp at h; simp [(d3 h).2.1] at hl
        simp only [hu, hl, hd, hp, if_true, true_or, false_or, iff_true, Bool.false_eq_true,
          if_false]
        exact ⟨ih1, by omega, ih3, ih4⟩
      · simp only [Bool.not_eq_true] at hl
        by_cases hd : isDecimalDigit c = true
        · have hp : isPunctuation c = false := by
            by_contra h; simp at h; simp [(d3 h).2.2] at hd
          simp only [hu, hl, hd, hp, if_true, true_or, false_or, iff_true, Bool.false_eq_true,
            if_false]
          exact ⟨ih1, ih2, by omega, ih4⟩
        · simp only [Bool.not_eq_true] at hd
          by_cases hp : isPunctuation c = true
          · simp only [hu, hl, hd, hp, if_true, true_or, false_or, iff_true,
              Bool.false_eq_true, if_false]
            exact ⟨ih1, ih2, ih3, by omega⟩
          · simp only [Bool.not_eq_true] at hp
            simp only [hu, hl, hd, hp, false_or, Bool.false_eq_true, if_false]
            exact ⟨ih1, ih2, ih3, ih4⟩

theorem characterSetSize_eq (s : CFString) :
    characterSetSize (countCategories s) = alphabetSizeEstimate s := by
  obtain ⟨h1, h2, h3, h4⟩ := countCategories_pos s
  unfold characterSetSize alphabetSizeEstimate
  simp only [h1, h2, h3, h4, alphabetSetSize, decimalSetSize, punctuationSetSize]

/-- C4: a string of at least 4 characters with a character that is no decimal digit is weak
exactly when its length times the base-2 logarithm of the alphabet-size estimate `S` is
below 35; for `S ≥ 1` this is `S ^ length < 2 ^ 35`, and a string with `S = 0` is weak. -/
theorem weak_mixed_iff (s : CFString) (hlen : 4 ≤ s.length)
    (hmixed : ∃ c ∈ s, isDecimalDigit c = false) :
    (alphabetSizeEstimate s ≠ 0 →
        (SecPasswordIsPasswordWeak s = true ↔
          (s.length : ℝ) * Real.logb 2 (alphabetSizeEstimate s : ℝ) < 35))
      ∧ (1 ≤ alphabetSizeEstimate s →
        (SecPasswordIsPasswordWeak s = true ↔ alphabetSizeEstimate s ^ s.length < 2 ^ 35))
      ∧ (alphabetSizeEstimate s = 0 → SecPasswordIsPasswordWeak s = true) := by
  have hnum : s.all CFCharacterSet.decimalDigit.isMember = false := by
    by_contra h
    simp only [Bool.not_eq_false] at h
    obtain ⟨c, hc, hcd⟩ := hmixed
    have := (all_decimalDigit_iff s).mp h c hc
    simp [hcd] at this
  have h4 : ¬ s.length < 4 := by omega
  have hweak : SecPasswordIsPasswordWeak s = true ↔
      strengthBelowThreshold s.length (alphabetSizeEstimate s) := by
    unfold SecPasswordIsPasswordWeak
    simp [h4, hnum, characterSetSize_eq]
  refine ⟨?_, ?_, ?_⟩
  · intro hS
    rw [hweak]
    unfold strengthBelowThreshold
    simp [hS, entropyStrengthThreshold]
  · intro hS
    rw [hweak, strengthBelowThreshold_iff]
    have : alphabetSizeEstimate s ≠ 0 := by omega
    simp [this, entropyStrengthThreshold]
  · intro hS
    rw [hweak]
    unfold strengthBelowThreshold
    simp only [hS, if_true]
    omega

/-- C4, witness: the string `abc-1234`. -/
theorem weak_mixed_iff_witness :
    4 ≤ (CFSTR "abc-1234").length ∧ (∃ c ∈ CFSTR "abc-1234", isDecimalDigit c = false)
      ∧ ((alphabetSizeEstimate (CFSTR "abc-1234") ≠ 0 →
          (SecPasswordIsPasswordWeak (CFSTR "abc-1234") = true ↔
            ((CFSTR "abc-1234").length : ℝ)
              * Real.logb 2 (alphabetSizeEstimate (CFSTR "abc-1234") : ℝ) < 35))
        ∧ (1 ≤ alphabetSizeEstimate (CFSTR "abc-1234") →
          (SecPasswordIsPasswordWeak (CFSTR "abc-1234") = true ↔
            alphabetSizeEstimate (CFSTR "abc-1234") ^ (CFSTR "abc-1234").length < 2 ^ 35))
        ∧ (alphabetSizeEstimate (CFSTR "abc-1234") = 0 →
          SecPasswordIsPasswordWeak (CFSTR "abc-1234") = true)) :=
  ⟨by decide, by decide, weak_mixed_iff (CFSTR "abc-1234") (by decide) (by decide)⟩

/-! ## Validation of the requirements -/

theorem require_action_quiet_proper (assertion : Bool) (error : CFError) (rest : Verdict) :
    require_action_quiet assertion error rest = .proper ↔ assertion = true ∧ rest = .proper := by
  unfold require_action_quiet
  cases assertion <;> simp

theorem checkIfPresentTwo_proper (ref : CFTypeRef) (e1 e2 : CFError) (rest : Verdict) :
    checkIfPresentTwo ref e1 e2 rest = .proper → rest = .proper := by
  unfold checkIfPresentTwo
  split
  · simp only [require_action_quiet_proper]
    intro h; exact h.2.2
  · exact id

theorem verdict_cases (v : Verdict) (h : v ≠ .proper) : ∃ error, v = .malformed error := by
  cases v with
  | proper => exact absurd rfl h
  | malformed e => exact ⟨e, rfl⟩

theorem pin_proper_lengths (requirements : Requirements) (a b : Int)
    (hmin : requirements.kSecPasswordMinLengthKey = some (.number a))
    (hmax : requirements.kSecPasswordMaxLengthKey = some (.number b))
    (h : isDictionaryFormattedProperlyPIN requirements = .proper) :
    a ≠ 0 ∧ b ≠ 0 ∧ a ≤ b ∧ (4 ≤ a ∨ 4 ≤ b) := by
  unfold isDictionaryFormattedProperlyPIN at h
  simp only [hmin, hmax] at h
  have h1 := checkIfPresentTwo_proper _ _ _ _ (checkIfPresentTwo_proper _ _ _ _ h)
  simp only [require_action_quiet_proper, CFNumberGetValue, Option.getD_some, Bool.and_eq_true,
    Bool.or_eq_true, decide_eq_true_eq] at h1
  obtain ⟨⟨⟨h1, h2⟩, h3⟩, h4, -⟩ := h1
  refine ⟨h1, h2, h3, ?_⟩
  rcases h4 with h | h
  · exact Or.inl h.2
  · exact Or.inr h.2

theorem other_proper_lengths (requirements : Requirements) (a b : Int)
    (hmin : requirements.kSecPasswordMinLengthKey = some (.number a))
    (hmax : requirements.kSecPasswordMaxLengthKey = some (.number b))
    (h : isDictionaryFormattedProperlyOther requirements = .proper) : a ≤ b := by
  unfold isDictionaryFormattedProperlyOther at h
  simp only [hmin, hmax, require_action_quiet_proper, CFNumberGetValue, Option.getD_some,
    decide_eq_true_eq] at h
  exact h.2.2.2.2.2.2.2.2.2.2.2.2.1

/-- C5: for every password type and every supplied requirements dictionary that is not flagged
as the default for the type and whose minimum length is a number greater than its maximum
length, `SecPasswordGenerate` returns no password but an error of the validation, and takes
nothing from the random source. -/
theorem generate_fails_when_min_exceeds_max (type : SecPasswordType)
    (requirements : Requirements) (rng : RandomSource) (minLength maxLength : Int)
    (hflag : isDefaultForType requirements = false)
    (hmin : requirements.kSecPasswordMinLengthKey = some (.number minLength))
    (hmax : requirements.kSecPasswordMaxLengthKey = some (.number maxLength))
    (hgt : minLength > maxLength) :
    ∃ error, SecPasswordGenerate type (some requirements) rng = some (.error error, rng) := by
  have hv : isDictionaryFormattedProperly type (some requirements) ≠ .proper := by
    unfold isDictionaryFormattedProperly
    simp only [hflag, Bool.false_eq_true, if_false]
    split
    · intro h
      have := (pin_proper_lengths requirements _ _ hmin hmax h).2.2.1
      omega
    · intro h
      have := other_proper_lengths requirements _ _ hmin hmax h
      omega
  obtain ⟨error, he⟩ := verdict_cases _ hv
  exact ⟨error, by simp [SecPasswordGenerate, he]⟩

/-- C5, witness: a PIN with the requirements `{minLength: 10, maxLength: 2}`. -/
theorem generate_fails_when_min_exceeds_max_witness :
    isDefaultForType requirementsMin10Max2 = false
      ∧ requirementsMin10Max2.kSecPasswordMinLengthKey = some (.number 10)
      ∧ requirementsMin10Max2.kSecPasswordMaxLengthKey = some (.number 2)
      ∧ (10 : Int) > 2
      ∧ ∃ error, SecPasswordGenerate .kSecPasswordTypePIN (some requirementsMin10Max2) []
          = some (.error error, []) :=
  ⟨by decide, rfl, rfl, by decide,
    generate_fails_when_min_exceeds_max .kSecPasswordTypePIN requirementsMin10Max2 [] 10 2
      (by decide) rfl rfl (by decide)⟩

/-! ## The predicate on identical consecutive characters -/

theorem identicalInnerLoop_head (C : Nat) (N : Int) (a : Nat) (l : CFString) (r r1 : Int)
    (h : identicalInnerLoop C N (a :: l) r = some r1) : r ≤ N := by
  unfold identicalInnerLoop at h
  by_contra hn
  simp [hn] at h

theorem identicalInnerLoop_nonneg (C : Nat) (N : Int) (l : CFString) :
    ∀ (r r1 : Int), 0 ≤ r → identicalInnerLoop C N l r = some r1 → 0 ≤ r1 := by
  induction l with
  | nil =>
    intro r r1 hr h
    simp only [identicalInnerLoop, Option.some.injEq] at h
    omega
  | cons a t ih =>
    intro r r1 hr h
    unfold identicalInnerLoop at h
    split at h
    · split at h
      · exact ih (r + 1) r1 (by omega) h
      · simp only [Option.some.injEq] at h; omega
    · simp at h

theorem identicalInnerLoop_run (C : Nat) (N : Int) (c : Nat) (hc : c % 256 = C) (l : CFString) :
    ∀ (k : Nat) (r r1 : Int),
      identicalInnerLoop C N (List.replicate k c ++ l) r = some r1 →
        identicalInnerLoop C N l (r + k) = some r1 ∧ (1 ≤ k → r + k - 1 ≤ N) := by
  intro k
  induction k with
  | zero =>
    intro r r1 h
    simp only [List.replicate_zero, List.nil_append] at h
    simp [h]
  | succ j ih =>
    intro r r1 h
    simp only [List.replicate_succ, List.cons_append] at h
    have hr := identicalInnerLoop_head _ _ _ _ _ _ h
    unfold identicalInnerLoop at h
    simp only [hr, if_true, hc] at h
    obtain ⟨h1, h2⟩ := ih (r + 1) r1 h
    refine ⟨?_, ?_⟩
    · have e : r + ((j + 1 : Nat) : Int) = r + 1 + (j : Int) := by push_cast; ring
      rw [e]; exact h1
    · intro _
      by_cases hj : 1 ≤ j
      · have := h2 hj
        push_cast; omega
      · have : j = 0 := by omega
        subst this
        simpa using hr

theorem identicalOuterLoop_cons (N : Int) (a : Nat) (rest : CFString) (r : Int)
    (h : identicalOuterLoop N (a :: rest) r = true) :
    ∃ r1, identicalInnerLoop (a % 256) N (a :: rest) r = some r1
      ∧ identicalOuterLoop N rest r1 = true := by
  unfold identicalOuterLoop at h
  split at h
  · simp at h
  · rename_i r1 hr1
    exact ⟨r1, hr1, h⟩

theorem replicate_prefix_cons (k : Nat) (c a : Nat) (rest : CFString)
    (h : List.replicate (k + 1) c <+: a :: rest) :
    c = a ∧ ∃ l, rest = List.replicate k c ++ l := by
  obtain ⟨l, hl⟩ := h
  simp only [List.replicate_succ, List.cons_append, List.cons.injEq] at hl
  exact ⟨hl.1, l, hl.2.symm⟩

theorem identicalOuterLoop_sound (N : Int) (l : CFString) :
    ∀ (r : Int), 0 ≤ r → identicalOuterLoop N l r = true → (2 ≤ l.length ∨ 1 ≤ N) →
      ∀ (c k : Nat), List.replicate k c <:+: l → (k : Int) ≤ N := by
  induction l with
  | nil =>
    intro r _ _ hN c k hk
    have : k = 0 := by
      have := hk.length_le
      simpa using this
    subst this
    simp at hN
    omega
  | cons a rest ih =>
    intro r hr h hN c k hk
    obtain ⟨r1, hin, hout⟩ := identicalOuterLoop_cons N a rest r h
    have hrN := identicalInnerLoop_head _ _ _ _ _ _ hin
    have hr1 := identicalInnerLoop_nonneg _ _ _ _ _ hr hin
    -- with a second character the bound is at least 1
    have hN1 : rest ≠ [] → 1 ≤ N := by
      intro hne
      cases rest with
      | nil => exact absurd rfl hne
      | cons d t =>
        have h1 := identicalInnerLoop_run (a % 256) N a rfl (d :: t) 1 r r1
          (by simpa using hin)
        have := identicalInnerLoop_head _ _ _ _ _ _ h1.1
        push_cast at this
        omega
    rcases List.infix_cons_iff.mp hk with hp | hi
    · cases k with
      | zero => simp; omega
      | succ j =>
        obtain ⟨rfl, l', hl'⟩ := replicate_prefix_cons j c a rest hp
        have hrun := identicalInnerLoop_run (c % 256) N c rfl l' (j + 1) r r1
          (by rw [hl'] at hin; simpa [List.replicate_succ] using hin)
        cases l' with
        | cons d t =>
          have := identicalInnerLoop_head _ _ _ _ _ _ hrun.1
          omega
        | nil =>
          simp only [List.append_nil] at hl'
          have hr1eq : r1 = r + ((j + 1 : Nat) : Int) := by
            have := hrun.1
            simp only [identicalInnerLoop, Option.some.injEq] at this
            exact this.symm
          cases j with
          | zero =>
            subst hl'
            simp at hN
            simpa using hN
          | succ i =>
            rw [hl', List.replicate_succ] at hout
            obtain ⟨r2, hin2, -⟩ := identicalOuterLoop_cons N c _ r1 hout
            have := identicalInnerLoop_head _ _ _ _ _ _ hin2
            omega
    · by_cases hne : rest = []
      · subst hne
        have : k = 0 := by
          have := hi.length_le
          simpa using this
        subst this
        simp; omega
      · exact ih r1 hr1 hout (Or.inr (hN1 hne)) c k hi

/-! ## The final check -/

theorem passThen_eq_true (check rest : Option Bool) :
    passThen check rest = some true ↔ check = some true ∧ rest = some true := by
  unfold passThen
  rcases check with _ | _ | _ <;> simp

theorem passwordContainsRequiredCharacters_iff (password : CFString)
    (sets : List CFCharacterSet) :
    passwordContainsRequiredCharacters password sets = true ↔
      ∀ set ∈ sets, ∃ c ∈ password, set.isMember c = true := by
  simp [passwordContainsRequiredCharacters, CFStringFindCharacterFromSet, List.all_eq_true,
    List.any_eq_true]

theorem countCharacters_eq (password characters : CFString) :
    countCharacters password characters
      = password.countP (fun c => decide (c ∈ characters)) := by
  unfold countCharacters
  congr 1
  funext c
  simp [CFCharacterSet.isMember]

theorem weak_of_short (password : CFString) (h : SecPasswordIsPasswordWeak password = false) :
    4 ≤ password.length := by
  by_contra hn
  have : password.length < 4 := by omega
  simp [SecPasswordIsPasswordWeak, this] at h

theorem doesPasswordEndWith_true (password r : CFString)
    (h : doesPasswordEndWith password r = some true) : ¬ r <:+ password := by
  intro hs
  unfold doesPasswordEndWith at h
  have hlen := hs.length_le
  rw [if_pos hlen] at h
  have := List.suffix_iff_eq_drop.mp hs
  rw [if_pos this.symm] at h
  simp at h

theorem doesPasswordStartWith_true (password r : CFString)
    (h : doesPasswordStartWith password r = some true) : ¬ r <+: password := by
  intro hs
  unfold doesPasswordStartWith at h
  have hlen := hs.length_le
  rw [if_pos hlen] at h
  have := List.prefix_iff_eq_take.mp hs
  rw [if_pos this.symm] at h
  simp at h

theorem doesFinalPasswordPass_sound (password : CFString) (parameters : Parameters)
    (h : doesFinalPasswordPass password parameters = some true) :
    SatisfiesConstraints password parameters := by
  unfold doesFinalPasswordPass at h
  split at h
  · simp at h
  · simp only [passThen_eq_true] at h
    obtain ⟨hend, hstart, hleast, hmost, hident, hreq, hweak⟩ := h
    have hnotweak : SecPasswordIsPasswordWeak password = false := by
      simpa using hweak
    have hlen := weak_of_short password hnotweak
    refine ⟨?_, ?_, ?_, ?_, ?_, ?_, hnotweak⟩
    · intro sets hs set hset
      rw [hs] at hreq
      simp only [requiredCheck, Option.map_some', Option.some.injEq] at hreq
      exact (passwordContainsRequiredCharacters_iff password sets).mp hreq set hset
    · intro r hr
      rw [hr] at hstart
      simp only [startWithCheck, asString, Option.some_bind] at hstart
      exact doesPasswordStartWith_true password r hstart
    · intro r hr
      rw [hr] at hend
      simp only [endWithCheck, asString, Option.some_bind] at hend
      exact doesPasswordEndWith_true password r hend
    · intro N cs hd
      rw [hd] at hleast
      simp only [specificCharactersCheck, CFNumberGetValue, asString, Option.some.injEq,
        passwordContainsAtLeastNCharacters, countCharacters_eq] at hleast
      by_contra hn
      have : (password.countP (fun c => decide (c ∈ cs)) : Int) < N := by omega
      simp [this] at hleast
    · intro N cs hd
      rw [hd] at hmost
      simp only [specificCharactersCheck, CFNumberGetValue, asString, Option.some.injEq,
        passwordContainsLessThanNCharacters, countCharacters_eq] at hmost
      by_contra hn
      have : (password.countP (fun c => decide (c ∈ cs)) : Int) > N := by omega
      simp [this] at hmost
    · intro N hN c k hk
      rw [hN] at hident
      simp only [identicalCheck, CFNumberGetValue, Option.map_some', Option.some.injEq,
        passwordContainsLessThanNIdenticalCharacters] at hident
      exact identicalOuterLoop_sound N password 0 (le_refl 0) hident (Or.inl (by omega)) c k hk

/-! ## The loop of SecPasswordGenerate -/

theorem generateLoop_returns (parameters : Parameters) (n groupSize : Int) :
    ∀ (fuel : Nat) (rng : RandomSource) (password : CFString) (rng' : RandomSource),
      generateLoop parameters n groupSize fuel rng = some (password, rng') →
      ∃ raw rng0 rng1,
        getPasswordRandomCharacters parameters.kSecPasswordDisallowedCharacters n
            parameters.kSecAllowedCharactersKey rng0 = some (raw, rng1)
          ∧ formatPassword raw parameters n groupSize = some password
          ∧ doesFinalPasswordPass password parameters = some true := by
  intro fuel
  induction fuel with
  | zero => intro rng password rng' h; simp [generateLoop] at h
  | succ f ih =>
    intro rng password rng' h
    unfold generateLoop at h
    split at h
    · simp at h
    · rename_i raw rng1 hraw
      split at h
      · simp at h
      · rename_i pw hfmt
        split at h
        · simp at h
        · rename_i hpass
          simp only [Option.some.injEq, Prod.mk.injEq] at h
          obtain ⟨rfl, rfl⟩ := h
          exact ⟨raw, rng, rng1, hraw, hfmt, hpass⟩
        · exact ih rng1 password rng' h

theorem SecPasswordGenerate_returns (type : SecPasswordType)
    (passwordRequirements : Option Requirements) (rng rng' : RandomSource)
    (password : CFString)
    (h : SecPasswordGenerate type passwordRequirements rng = some (.password password, rng')) :
    ∃ parameters groupSize,
      isDictionaryFormattedProperly type passwordRequirements = .proper
        ∧ properlyFormattedRequirements type passwordRequirements = some parameters
        ∧ readGroupNumber parameters.kSecPasswordGroupSize = some groupSize
        ∧ generateLoop parameters parameters.kSecNumberOfRequiredRandomCharactersKey groupSize
            (rng.length + 1) rng = some (password, rng') := by
  unfold SecPasswordGenerate at h
  split at h
  · simp at h
  · rename_i hv
    split at h
    · simp at h
    · rename_i parameters hp
      split at h
      · rename_i g ng hg hng
        dsimp only at h
        split at h
        · simp at h
        · rename_i pw r1 hloop
          simp only [Option.some.injEq, Prod.mk.injEq, GenResult.password.injEq] at h
          obtain ⟨rfl, rfl⟩ := h
          exact ⟨parameters, g, hv, hp, hg, hloop⟩
      · simp at h

/-! ## The uniform random numbers -/

theorem take_succ_set (l : List Nat) (n v : Nat) (h : n < l.length) :
    (l.set n v).take (n + 1) = l.take n ++ [v] := by
  rw [List.take_succ, List.set_take, List.set_eq_of_length_le (by simp)]
  simp [h]

theorem acceptLoop_spec (limit U : Nat) :
    ∀ (steps : Nat) (buffer : List Nat) (i acc : Nat), acc ≤ i → i + steps = buffer.length →
      (acceptLoop limit U steps buffer i acc).1.length = buffer.length
        ∧ (acceptLoop limit U steps buffer i acc).2
            = acc + ((buffer.drop i).filter (fun b => decide (b < limit))).length
        ∧ (acceptLoop limit U steps buffer i acc).1.take (acceptLoop limit U steps buffer i acc).2
            = buffer.take acc
              ++ ((buffer.drop i).filter (fun b => decide (b < limit))).map (fun b => b % U) := by
  intro steps
  induction steps with
  | zero =>
    intro buffer i acc _ hlen
    have : buffer.drop i = [] := List.drop_eq_nil_of_le (by omega)
    simp [acceptLoop, this]
  | succ s ih =>
    intro buffer i acc hacc hlen
    have hi : i < buffer.length := by omega
    have hdrop : buffer.drop i = buffer[i] :: buffer.drop (i + 1) := List.drop_eq_getElem_cons hi
    have hget : buffer.getD i 0 = buffer[i] := List.getD_eq_getElem _ _ hi
    unfold acceptLoop
    rw [hget, hdrop]
    by_cases hb : buffer[i] < limit
    · simp only [hb, if_true, List.filter_cons_of_pos, decide_True, List.length_cons,
        List.map_cons]
      obtain ⟨h1, h2, h3⟩ := ih (buffer.set acc (buffer[i] % U)) (i + 1) (acc + 1) (by omega)
        (by simp; omega)
      rw [List.drop_set_of_lt _ _ (by omega : acc < i + 1)] at h2 h3
      rw [take_succ_set _ _ _ (by omega)] at h3
      refine ⟨by simpa using h1, by rw [h2]; omega, ?_⟩
      rw [h3]; simp
    · simp only [hb, if_false, decide_False, Bool.false_eq_true, not_false_eq_true,
        List.filter_cons_of_neg]
      exact ih buffer (i + 1) acc (by omega) (by omega)

theorem getUniformRandomNumbersLoop_spec (limit U D : Nat) (hU : 0 < U) :
    ∀ (fuel : Nat) (buffer : List Nat) (acc : Nat) (rng : RandomSource) (out : List Nat)
      (rng' : RandomSource),
      buffer.length = D → acc ≤ D → (∀ x ∈ buffer.take acc, x < U) →
      getUniformRandomNumbersLoop limit U D fuel buffer acc rng = some (out, rng') →
        out.length = D ∧ ∀ x ∈ out, x < U := by
  intro fuel
  induction fuel with
  | zero =>
    intro buffer acc rng out rng' hlen hacc hall h
    unfold getUniformRandomNumbersLoop at h
    split at h
    · simp at h
    · simp only [Option.some.injEq, Prod.mk.injEq] at h
      obtain ⟨rfl, -⟩ := h
      have : acc = buffer.length := by omega
      rw [this, List.take_length] at hall
      exact ⟨hlen, hall⟩
  | succ f ih =>
    intro buffer acc rng out rng' hlen hacc hall h
    unfold getUniformRandomNumbersLoop at h
    split at h
    · rename_i hlt
      split at h
      · simp at h
      · exact ih buffer acc _ out rng' hlen hacc hall h
      · rename_i bytes rng1 hcopy
        have hbytes : bytes.length = D - acc := by
          unfold SecRandomCopyBytes at hcopy
          split at hcopy
          · simp at hcopy
          · simp at hcopy
          · split at hcopy
            · rename_i hl
              simp only [Option.some.injEq, Prod.mk.injEq] at hcopy
              rw [← hcopy.1]; simpa using hl
            · simp at hcopy
        have hfl : (buffer.take acc ++ bytes).length = D := by
          simp [hbytes, List.length_take]; omega
        obtain ⟨h1, h2, h3⟩ := acceptLoop_spec limit U (D - acc) (buffer.take acc ++ bytes) acc acc
          (le_refl _) (by rw [hfl]; omega)
        refine ih _ _ rng1 out rng' (by rw [h1, hfl]) ?_ ?_ h
        · rw [h2]
          have := List.length_filter_le (fun b => decide (b < limit))
            ((buffer.take acc ++ bytes).drop acc)
          simp only [List.length_drop, hfl] at this
          omega
        · rw [h3]
          intro x hx
          rw [List.mem_append] at hx
          rcases hx with hx | hx
          · apply hall
            have e : (buffer.take acc ++ bytes).take acc = buffer.take acc := by
              rw [List.take_append_of_le_length (by simp [List.length_take]; omega)]
              simp
            rwa [e] at hx
          · obtain ⟨b, -, rfl⟩ := List.mem_map.mp hx
            exact Nat.mod_lt _ hU
    · simp only [Option.some.injEq, Prod.mk.injEq] at h
      obtain ⟨rfl, -⟩ := h
      have : acc = buffer.length := by omega
      rw [this, List.take_length] at hall
      exact ⟨hlen, hall⟩

theorem getUniformRandomNumbers_spec (D U : Nat) (rng rng' : RandomSource) (out : List Nat)
    (h : getUniformRandomNumbers D U rng = some (out, rng')) :
    out.length = D ∧ ∀ x ∈ out, x < U := by
  unfold getUniformRandomNumbers at h
  split at h
  · simp at h
  · rename_i hU
    exact getUniformRandomNumbersLoop_spec _ U D (by omega) _ _ 0 rng out rng' (by simp)
      (by omega) (by simp) h

/-! ## The random characters -/

theorem randomCharactersLoop_spec (prohibited : Option CFString) (n U : Nat)
    (allowed : CFString) (hU : U ≤ allowed.length) :
    ∀ (fuel i : Nat) (randomNumbers chars : List Nat) (rng : RandomSource) (out : List Nat)
      (rng' : RandomSource),
      i ≤ n → chars.length = i → randomNumbers.length = n → (∀ x ∈ randomNumbers, x < U) →
      (∀ c ∈ chars, ∃ a ∈ allowed, c = a % 256 ∧ ∀ p, prohibited = some p → a ∉ p) →
      randomCharactersLoop prohibited n U allowed fuel i randomNumbers chars rng
          = some (out, rng') →
        out.length = n
          ∧ ∀ c ∈ out, ∃ a ∈ allowed, c = a % 256 ∧ ∀ p, prohibited = some p → a ∉ p := by
  intro fuel
  induction fuel with
  | zero =>
    intro i randomNumbers chars rng out rng' hi hlen _ _ hchars h
    unfold randomCharactersLoop at h
    split at h
    · simp at h
    · simp only [Option.some.injEq, Prod.mk.injEq] at h
      obtain ⟨rfl, -⟩ := h
      exact ⟨by omega, hchars⟩
  | succ f ih =>
    intro i randomNumbers chars rng out rng' hi hlen hnum hbound hchars h
    unfold randomCharactersLoop at h
    split at h
    · rename_i hlt
      dsimp only at h
      split at h
      · split at h
        · simp at h
        · rename_i randomNumbers1 rng1 hagain
          obtain ⟨hl1, hb1⟩ := getUniformRandomNumbers_spec n U rng rng1 randomNumbers1 hagain
          exact ih i randomNumbers1 chars rng1 out rng' hi hlen hl1 hb1 hchars h
      · rename_i hclean
        refine ih (i + 1) randomNumbers _ rng out rng' (by omega) (by simp [hlen]) hnum hbound
          ?_ h
        intro c hc
        rw [List.mem_append] at hc
        rcases hc with hc | hc
        · exact hchars c hc
        · simp only [List.mem_singleton] at hc
          have hidx : randomNumbers.getD i 0 < allowed.length := by
            rw [List.getD_eq_getElem _ _ (by omega : i < randomNumbers.length)]
            exact lt_of_lt_of_le (hbound _ (List.getElem_mem _)) hU
          refine ⟨allowed.getD (randomNumbers.getD i 0) 0, ?_, hc, ?_⟩
          · rw [List.getD_eq_getElem _ _ hidx]; exact List.getElem_mem _
          · intro p hp
            subst hp
            simpa [passwordDoesNotContainCharacters, CFStringFindCharacterFromSet,
              CFCharacterSet.isMember] using hclean
    · simp only [Option.some.injEq, Prod.mk.injEq] at h
      obtain ⟨rfl, -⟩ := h
      exact ⟨by omega, hchars⟩

theorem codeUnits_length (codePoint : Nat) :
    1 ≤ (codeUnits codePoint).length ∧ (codeUnits codePoint).length ≤ 2 := by
  unfold codeUnits
  split <;> simp

theorem decodeSequence_spec (bytes units remaining : List Nat)
    (h : decodeSequence bytes = some (units, remaining)) :
    units.length + remaining.length ≤ bytes.length ∧ remaining.length < bytes.length := by
  unfold decodeSequence at h
  split at h
  · simp at h
  · rename_i b0 rest
    split at h
    · simp only [Option.some.injEq, Prod.mk.injEq] at h
      obtain ⟨rfl, rfl⟩ := h
      simp only [List.length_cons, List.length_nil]
      omega
    · split at h
      · split at h
        · split at h
          · simp only [Option.some.injEq, Prod.mk.injEq] at h
            obtain ⟨rfl, rfl⟩ := h
            simp only [List.length_cons, List.length_nil]
            omega
          · simp at h
        · simp at h
      · split at h
        · split at h
          · dsimp only at h
            split at h
            · simp only [Option.some.injEq, Prod.mk.injEq] at h
              obtain ⟨rfl, rfl⟩ := h
              simp only [List.length_cons, List.length_nil]
              omega
            · simp at h
          · simp at h
        · split at h
          · split at h
            · rename_i b1 b2 b3 rest3
              dsimp only at h
              split at h
              · simp only [Option.some.injEq, Prod.mk.injEq] at h
                obtain ⟨rfl, rfl⟩ := h
                have := codeUnits_length ((b0 - 240) * 262144 + (b1 - 128) * 4096
                  + (b2 - 128) * 64 + (b3 - 128))
                simp only [List.length_cons]
                omega
              · simp at h
            · simp at h
          · simp at h

theorem decodeUTF8Loop_length :
    ∀ (fuel : Nat) (bytes s : List Nat), decodeUTF8Loop fuel bytes = some s →
      s.length ≤ bytes.length := by
  intro fuel
  induction fuel with
  | zero =>
    intro bytes s h
    cases bytes with
    | nil => simp [decodeUTF8Loop] at h; subst h; simp
    | cons b rest => simp [decodeUTF8Loop] at h
  | succ f ih =>
    intro bytes s h
    cases bytes with
    | nil => simp [decodeUTF8Loop] at h; subst h; simp
    | cons b rest =>
      rw [decodeUTF8Loop] at h
      split at h
      · simp at h
      · rename_i units remaining hseq
        obtain ⟨t, ht, rfl⟩ := Option.map_eq_some'.mp h
        have h1 := ih remaining t ht
        have h2 := (decodeSequence_spec _ _ _ hseq).1
        simp only [List.length_append]
        omega

theorem decodeUTF8Loop_ascii :
    ∀ (fuel : Nat) (bytes : List Nat), bytes.length ≤ fuel → (∀ b ∈ bytes, b < 128) →
      decodeUTF8Loop fuel bytes = some bytes := by
  intro fuel
  induction fuel with
  | zero =>
    intro bytes hlen _
    have : bytes = [] := List.eq_nil_of_length_eq_zero (by omega)
    subst this
    rfl
  | succ f ih =>
    intro bytes hlen h
    cases bytes with
    | nil => rfl
    | cons b rest =>
      have hb : b < 128 := h b (by simp)
      have hseq : decodeSequence (b :: rest) = some ([b], rest) := by
        simp [decodeSequence, hb]
      rw [decodeUTF8Loop, hseq]
      dsimp only
      rw [ih rest (by simp at hlen; omega) (fun x hx => h x (List.mem_cons_of_mem _ hx))]
      rfl

theorem CFStringCreateWithBytes_ascii (bytes : List Nat) (h : ∀ b ∈ bytes, b < 128) :
    CFStringCreateWithBytes bytes = some bytes :=
  decodeUTF8Loop_ascii bytes.length bytes (le_refl _) h

theorem CFStringCreateWithBytes_length (bytes : List Nat) (s : CFString)
    (h : CFStringCreateWithBytes bytes = some s) : s.length ≤ bytes.length :=
  decodeUTF8Loop_length bytes.length bytes s h

theorem getPasswordRandomCharacters_bytes (prohibited : CFTypeRef) (n : Int)
    (allowed : CFString) (rng rng' : RandomSource) (raw : CFString)
    (h : getPasswordRandomCharacters prohibited n allowed rng = some (raw, rng')) :
    0 < n ∧ ∃ bytes : List Nat, (bytes.length : Int) = n
      ∧ (∀ b ∈ bytes, ∃ a ∈ allowed, b = a % 256
          ∧ ∀ p, prohibited = some (.string p) → a ∉ p)
      ∧ CFStringCreateWithBytes bytes = some raw := by
  unfold getPasswordRandomCharacters at h
  split at h
  · simp at h
  · rename_i hn
    split at h
    · simp at h
    · dsimp only at h
      split at h
      · simp at h
      · rename_i randomNumbers rng1 hnums
        obtain ⟨hl, hb⟩ := getUniformRandomNumbers_spec _ _ _ _ _ hnums
        split at h
        · simp at h
        · rename_i chars rng2 hloop
          split at h
          · simp at h
          · rename_i returned hcreate
            simp only [Option.some.injEq, Prod.mk.injEq] at h
            obtain ⟨rfl, -⟩ := h
            obtain ⟨hlen, hmem⟩ := randomCharactersLoop_spec (asString prohibited) n.toNat
              (allowed.length % 256) allowed (Nat.mod_le _ _) _ 0 randomNumbers [] rng1 _ rng2
              (by omega) rfl hl hb (by simp) hloop
            refine ⟨by omega, chars, by rw [hlen]; omega, ?_, hcreate⟩
            intro c hc
            obtain ⟨a, ha, hca, hp⟩ := hmem c hc
            exact ⟨a, ha, hca, fun p hpp => hp p (by rw [hpp]; rfl)⟩

theorem getPasswordRandomCharacters_spec (prohibited : CFTypeRef) (n : Int)
    (allowed : CFString) (rng rng' : RandomSource) (raw : CFString)
    (h : getPasswordRandomCharacters prohibited n allowed rng = some (raw, rng')) :
    0 < n ∧ (raw.length : Int) ≤ n
      ∧ ((∀ a ∈ allowed, a < 128) →
          (raw.length : Int) = n
            ∧ ∀ c ∈ raw, c < 128
              ∧ ∃ a ∈ allowed, c = a % 256 ∧ ∀ p, prohibited = some (.string p) → a ∉ p) := by
  obtain ⟨hn, bytes, hlen, hmem, hcreate⟩ :=
    getPasswordRandomCharacters_bytes prohibited n allowed rng rng' raw h
  refine ⟨hn, ?_, ?_⟩
  · have := CFStringCreateWithBytes_length bytes raw hcreate
    omega
  · intro hascii
    have hb : ∀ b ∈ bytes, b < 128 := by
      intro b hbm
      obtain ⟨a, ha, rfl, -⟩ := hmem b hbm
      have := hascii a ha
      omega
    rw [CFStringCreateWithBytes_ascii bytes hb] at hcreate
    simp only [Option.some.injEq] at hcreate
    subst hcreate
    exact ⟨hlen, fun c hc => ⟨hb c hc, hmem c hc⟩⟩

/-! ## The grouping -/

theorem CFStringCreateWithSubstring_nat (str : CFString) (k m : Nat) (h : k + m ≤ str.length) :
    CFStringCreateWithSubstring str (k : Int) (m : Int) = some ((str.drop k).take m) := by
  unfold CFStringCreateWithSubstring
  rw [if_pos ⟨by omega, by omega, by omega⟩]
  simp

theorem groupLoop_stuck (raw separator : CFString) (n : Int) (hn : 0 < n) :
    ∀ (fuel : Nat) (acc : CFString), groupLoop raw separator 0 n fuel 0 acc = none := by
  intro fuel
  induction fuel with
  | zero => intro acc; simp [groupLoop]; omega
  | succ f ih =>
    intro acc
    unfold groupLoop
    have h1 : (0 : Int) ≠ n := by omega
    simp only [h1, ne_eq, not_false_eq_true, if_true, add_zero, hn]
    cases hsub : CFStringCreateWithSubstring raw 0 0 with
    | none => rfl
    | some group => exact ih _

theorem groupLoop_groupSize_pos (raw separator : CFString) (g n : Int) (hn : 0 < n)
    (fuel : Nat) (acc p : CFString)
    (h : groupLoop raw separator g n fuel 0 acc = some p) : 1 ≤ g := by
  by_contra hg
  rcases lt_or_eq_of_le (by omega : g ≤ 0) with hneg | hzero
  · cases fuel with
    | zero => simp [groupLoop] at h; omega
    | succ f =>
      unfold groupLoop at h
      have h1 : (0 : Int) ≠ n := by omega
      have h2 : 0 + g < n := by omega
      simp only [h1, ne_eq, not_false_eq_true, if_true, h2] at h
      have : CFStringCreateWithSubstring raw 0 g = none := by
        unfold CFStringCreateWithSubstring
        rw [if_neg]; omega
      simp [this] at h
  · subst hzero
    rw [groupLoop_stuck raw separator n hn] at h
    simp at h

theorem groupLoop_correct (raw separator : CFString) (G : Nat) :
    ∀ (fuel k : Nat) (acc p : CFString), k ≤ raw.length →
      groupLoop raw separator (G : Int) (raw.length : Int) fuel (k : Int) acc = some p →
        p = acc ++ joinWith separator (groupsOf G fuel (raw.drop k)) := by
  intro fuel
  induction fuel with
  | zero =>
    intro k acc p hk h
    unfold groupLoop at h
    split at h
    · simp at h
    · simp only [Option.some.injEq] at h
      simp [groupsOf, joinWith, h]
  | succ f ih =>
    intro k acc p hk h
    unfold groupLoop at h
    split at h
    · rename_i hne
      have hklt : k < raw.length := by
        have : (k : Int) ≠ raw.length := hne
        omega
      have hdne : raw.drop k ≠ [] := by
        intro hd
        have := congrArg List.length hd
        simp at this
        omega
      simp only [groupsOf, hdne, if_false]
      split at h
      · rename_i hlt
        have hlt2 : k + G < raw.length := by omega
        rw [CFStringCreateWithSubstring_nat raw k G (by omega)] at h
        dsimp only at h
        have e : (k : Int) + (G : Int) = ((k + G : Nat) : Int) := by push_cast; ring
        rw [e] at h
        have hf : f ≠ 0 := by
          intro hf0
          subst hf0
          unfold groupLoop at h
          have hne2 : ((k + G : Nat) : Int) ≠ (raw.length : Int) := by omega
          rw [if_pos hne2] at h
          simp at h
        obtain ⟨f', rfl⟩ := Nat.exists_eq_succ_of_ne_zero hf
        have := ih (k + G) _ p (by omega) h
        rw [this, List.drop_drop]
        have hd2 : raw.drop (G + k) ≠ [] := by
          intro hd
          have := congrArg List.length hd
          simp at this
          omega
        rw [Nat.add_comm k G]
        simp only [groupsOf, hd2, if_false, joinWith, List.append_assoc]
      · split at h
        · rename_i heq
          have heq2 : k + G = raw.length := by omega
          rw [CFStringCreateWithSubstring_nat raw k G (by omega)] at h
          dsimp only at h
          have e : (k : Int) + (G : Int) = ((k + G : Nat) : Int) := by push_cast; ring
          rw [e] at h
          have := ih (k + G) _ p (by omega) h
          rw [this, List.drop_drop]
          have hd2 : raw.drop (G + k) = [] := List.drop_eq_nil_of_le (by omega)
          rw [Nat.add_comm k G, hd2]
          cases f <;> simp [groupsOf, joinWith]
        · rename_i hgt
          have hgt2 : raw.length < k + G := by omega
          have e1 : (raw.length : Int) - (k : Int) = ((raw.length - k : Nat) : Int) := by omega
          rw [e1, CFStringCreateWithSubstring_nat raw k (raw.length - k) (by omega)] at h
          dsimp only at h
          have e : (k : Int) + ((raw.length - k : Nat) : Int) = ((raw.length : Nat) : Int) := by
            omega
          rw [e] at h
          have := ih raw.length _ p (le_refl _) h
          rw [this, List.drop_drop]
          have hd2 : raw.drop (G + k) = [] := List.drop_eq_nil_of_le (by omega)
          have hd3 : raw.drop raw.length = [] := List.drop_eq_nil_of_le (le_refl _)
          have ht : (raw.drop k).take (raw.length - k) = (raw.drop k).take G := by
            rw [List.take_of_length_le (by simp), List.take_of_length_le (by simp; omega)]
          rw [Nat.add_comm k G, hd2, hd3, ht]
          cases f <;> simp [groupsOf, joinWith]
    · rename_i heq
      simp only [ne_eq, not_not] at heq
      have hkeq : k = raw.length := by omega
      simp only [Option.some.injEq] at h
      subst h
      have : raw.drop k = [] := List.drop_eq_nil_of_le (by omega)
      simp [groupsOf, this, joinWith]

theorem CFStringCreateWithSubstring_some (str s : CFString) (location length : Int)
    (h : CFStringCreateWithSubstring str location length = some s) :
    location + length ≤ str.length := by
  unfold CFStringCreateWithSubstring at h
  split at h
  · rename_i hrange
    exact hrange.2.2
  · simp at h

theorem groupLoop_length (raw separator : CFString) (g n : Int) :
    ∀ (fuel : Nat) (i : Int) (acc p : CFString), i ≠ n →
      groupLoop raw separator g n fuel i acc = some p → n ≤ raw.length := by
  intro fuel
  induction fuel with
  | zero =>
    intro i acc p hi h
    simp [groupLoop, hi] at h
  | succ f ih =>
    intro i acc p hi h
    rw [groupLoop, if_pos hi] at h
    split at h
    · rename_i h1
      split at h
      · simp at h
      · exact ih _ _ p (by omega) h
    · split at h
      · rename_i h2
        split at h
        · simp at h
        · rename_i group hsub
          have := CFStringCreateWithSubstring_some raw group i g hsub
          omega
      · split at h
        · simp at h
        · rename_i group hsub
          have := CFStringCreateWithSubstring_some raw group i (n - i) hsub
          omega

theorem formatPassword_length (raw : CFString) (parameters : Parameters) (n g : Int)
    (p : CFString) (hn : 0 < n)
    (hgroups : (parameters.kSecPasswordNumberOfGroups.isSome
      && parameters.kSecPasswordGroupSize.isSome) = true)
    (h : formatPassword raw parameters n g = some p) : n ≤ raw.length := by
  unfold formatPassword at h
  rw [if_pos hgroups] at h
  split at h
  · simp at h
  · exact groupLoop_length raw _ g n _ 0 [] p (by omega) h

theorem formatPassword_spec (raw : CFString) (parameters : Parameters) (n g : Int)
    (p : CFString) (hlen : (raw.length : Int) = n) (hn : 0 < n)
    (h : formatPassword raw parameters n g = some p) :
    ((parameters.kSecPasswordNumberOfGroups.isSome && parameters.kSecPasswordGroupSize.isSome)
          = false ∧ p = raw)
      ∨ ((parameters.kSecPasswordNumberOfGroups.isSome && parameters.kSecPasswordGroupSize.isSome)
          = true
        ∧ ∃ separator, asString (separatorOrDash parameters.kSecPasswordSeparator) = some separator
          ∧ 1 ≤ g ∧ p = joinWith separator (groupsOf g.toNat (raw.length + 1) raw)) := by
  unfold formatPassword at h
  split at h
  · rename_i hgrp
    right
    refine ⟨hgrp, ?_⟩
    split at h
    · simp at h
    · rename_i separator hsep
      have hg : 1 ≤ g := groupLoop_groupSize_pos raw separator g n hn _ _ p h
      refine ⟨separator, hsep, hg, ?_⟩
      have e1 : g = ((g.toNat : Nat) : Int) := by omega
      subst hlen
      rw [e1, Int.toNat_ofNat] at h
      have := groupLoop_correct raw separator g.toNat (raw.length + 1) 0 [] p (by omega)
        (by simpa using h)
      simpa using this
  · rename_i hgrp
    left
    simp only [Option.some.injEq] at h
    exact ⟨by simpa using hgrp, h.symm⟩

theorem joinWith_cons_cons (separator group next : CFString) (rest : List CFString) :
    joinWith separator (group :: next :: rest)
      = group ++ separator ++ joinWith separator (next :: rest) := by
  simp [joinWith]

theorem joinWith_mem (separator : CFString) (groups : List CFString) (c : Nat)
    (h : c ∈ joinWith separator groups) : c ∈ separator ∨ ∃ group ∈ groups, c ∈ group := by
  induction groups with
  | nil => simp [joinWith] at h
  | cons group rest ih =>
    cases rest with
    | nil =>
      simp only [joinWith] at h
      exact Or.inr ⟨group, by simp, h⟩
    | cons next rest' =>
      rw [joinWith_cons_cons] at h
      simp only [List.mem_append] at h
      rcases h with (h | h) | h
      · exact Or.inr ⟨group, by simp, h⟩
      · exact Or.inl h
      · rcases ih h with h | ⟨grp, hg, hc⟩
        · exact Or.inl h
        · exact Or.inr ⟨grp, List.mem_cons_of_mem _ hg, hc⟩

theorem groupsOf_mem (G : Nat) :
    ∀ (fuel : Nat) (raw group : CFString), group ∈ groupsOf G fuel raw → ∀ c ∈ group, c ∈ raw := by
  intro fuel
  induction fuel with
  | zero => intro raw group h; simp [groupsOf] at h
  | succ f ih =>
    intro raw group h c hc
    unfold groupsOf at h
    split at h
    · simp at h
    · simp only [List.mem_cons] at h
      rcases h with rfl | h
      · exact List.mem_of_mem_take hc
      · exact List.mem_of_mem_drop (ih _ _ h c hc)

theorem groupsOf_exact (G : Nat) (hG : 1 ≤ G) :
    ∀ (m fuel : Nat) (raw : CFString), raw.length = G * m → m ≤ fuel →
      (groupsOf G fuel raw).length = m ∧ (∀ group ∈ groupsOf G fuel raw, group.length = G)
        ∧ (groupsOf G fuel raw).flatten = raw := by
  intro m
  induction m with
  | zero =>
    intro fuel raw hlen _
    have : raw = [] := List.eq_nil_of_length_eq_zero (by simpa using hlen)
    subst this
    cases fuel <;> simp [groupsOf]
  | succ j ih =>
    intro fuel raw hlen hf
    obtain ⟨f, rfl⟩ := Nat.exists_eq_succ_of_ne_zero (by omega : fuel ≠ 0)
    have hlen2 : raw.length = G * j + G := by rw [hlen, Nat.mul_succ]
    have hne : raw ≠ [] := by
      intro h; rw [h] at hlen2; simp at hlen2; omega
    simp only [groupsOf, hne, if_false]
    obtain ⟨h1, h2, h3⟩ := ih f (raw.drop G) (by simp [hlen2]) (by omega)
    refine ⟨by simp [h1], ?_, ?_⟩
    · intro group hg
      simp only [List.mem_cons] at hg
      rcases hg with rfl | hg
      · simp [List.length_take]; omega
      · exact h2 group hg
    · simp [h3]

theorem joinWith_length (separator : CFString) (G : Nat) (groups : List CFString)
    (hgroups : ∀ group ∈ groups, group.length = G) :
    (joinWith separator groups).length
      = groups.length * G + (groups.length - 1) * separator.length := by
  induction groups with
  | nil => simp [joinWith]
  | cons group rest ih =>
    cases rest with
    | nil => simp [joinWith, hgroups group (by simp)]
    | cons next rest' =>
      rw [joinWith_cons_cons]
      have := ih (fun grp hg => hgroups grp (List.mem_cons_of_mem _ hg))
      simp only [List.length_append, this, hgroups group (by simp), List.length_cons]
      simp only [Nat.add_sub_cancel]
      ring

theorem joinWith_separator_at (s G : Nat) (groups : List CFString)
    (hgroups : ∀ group ∈ groups, group.length = G) :
    ∀ j, j + 1 < groups.length → (joinWith [s] groups).getD (j * (G + 1) + G) 0 = s := by
  induction groups with
  | nil => intro j hj; simp at hj
  | cons group rest ih =>
    intro j hj
    cases rest with
    | nil => simp at hj
    | cons next rest' =>
      rw [joinWith_cons_cons]
      have hlen : (group ++ [s]).length = G + 1 := by simp [hgroups group (by simp)]
      cases j with
      | zero =>
        have hg : group.length = G := hgroups group (by simp)
        simp only [Nat.zero_mul, Nat.zero_add, List.append_assoc]
        rw [List.getD_append_right _ _ _ _ (by omega)]
        simp [hg]
      | succ i =>
        rw [List.getD_append_right _ _ _ _ (by rw [hlen]; nlinarith)]
        have e : (i + 1) * (G + 1) + G - (group ++ [s]).length = i * (G + 1) + G := by
          rw [hlen]
          have : (i + 1) * (G + 1) = i * (G + 1) + (G + 1) := by ring
          omega
        rw [e]
        exact ih (fun grp hg => hgroups grp (List.mem_cons_of_mem _ hg)) i
          (by simp at hj ⊢; omega)

/-! ## The passwords SecPasswordGenerate returns -/

theorem SecPasswordGenerate_passes (type : SecPasswordType)
    (passwordRequirements : Option Requirements) (rng rng' : RandomSource)
    (password : CFString) (parameters : Parameters)
    (hparameters : properlyFormattedRequirements type passwordRequirements = some parameters)
    (h : SecPasswordGenerate type passwordRequirements rng = some (.password password, rng')) :
    ∃ raw rng0 rng1,
      getPasswordRandomCharacters parameters.kSecPasswordDisallowedCharacters
          parameters.kSecNumberOfRequiredRandomCharactersKey
          parameters.kSecAllowedCharactersKey rng0 = some (raw, rng1)
        ∧ (∃ groupSize, formatPassword raw parameters
            parameters.kSecNumberOfRequiredRandomCharactersKey groupSize = some password
            ∧ readGroupNumber parameters.kSecPasswordGroupSize = some groupSize)
        ∧ doesFinalPasswordPass password parameters = some true := by
  obtain ⟨parameters', g, -, hp, hg, hloop⟩ := SecPasswordGenerate_returns _ _ _ _ _ h
  rw [hparameters] at hp
  simp only [Option.some.injEq] at hp
  subst hp
  obtain ⟨raw, rng0, rng1, hraw, hfmt, hpass⟩ := generateLoop_returns _ _ _ _ _ _ _ hloop
  exact ⟨raw, rng0, rng1, hraw, ⟨g, hfmt, hg⟩, hpass⟩

/-- C1: every password `SecPasswordGenerate` returns passes every validator of the generation
parameters it was generated with: it has a character of each required character set, does
not start or end with the restricted strings, keeps the bounds on the occurrences of the
specific characters and on identical consecutive characters, and is not weak. -/
theorem generated_password_passes_validators (type : SecPasswordType)
    (passwordRequirements : Option Requirements) (rng rng' : RandomSource)
    (password : CFString) (parameters : Parameters)
    (hparameters : properlyFormattedRequirements type passwordRequirements = some parameters)
    (hreturned : SecPasswordGenerate type passwordRequirements rng
      = some (.password password, rng')) :
    SatisfiesConstraints password parameters := by
  obtain ⟨_, _, _, _, _, hpass⟩ :=
    SecPasswordGenerate_passes type passwordRequirements rng rng' password parameters
      hparameters hreturned
  exact doesFinalPasswordPass_sound password parameters hpass

/-- C1, witness: the password `bX1c2aYb` returned for `requirementsAllConstraints`. -/
theorem generated_password_passes_validators_witness :
    properlyFormattedRequirements .kSecPasswordTypeSafari (some requirementsAllConstraints)
        = some parametersAllConstraints
      ∧ SecPasswordGenerate .kSecPasswordTypeSafari (some requirementsAllConstraints)
          [some [1, 6, 3, 2, 4, 0, 7, 1]] = some (.password (CFSTR "bX1c2aYb"), [])
      ∧ SatisfiesConstraints (CFSTR "bX1c2aYb") parametersAllConstraints :=
  ⟨rfl, by decide!,
    generated_password_passes_validators .kSecPasswordTypeSafari
      (some requirementsAllConstraints) [some [1, 6, 3, 2, 4, 0, 7, 1]] [] (CFSTR "bX1c2aYb")
      parametersAllConstraints rfl (by decide!)⟩

/-- C6: every password `SecPasswordGenerate` returns has a character of each required
character set of the generation parameters, and `passwordContainsRequiredCharacters` is true
exactly when every set of the list has a member in the password. -/
theorem generated_password_contains_required_sets (type : SecPasswordType)
    (passwordRequirements : Option Requirements) (rng rng' : RandomSource)
    (password : CFString) (parameters : Parameters) (sets : List CFCharacterSet)
    (hparameters : properlyFormattedRequirements type passwordRequirements = some parameters)
    (hsets : parameters.kSecRequiredCharacterSetsKey = some sets)
    (hreturned : SecPasswordGenerate type passwordRequirements rng
      = some (.password password, rng')) :
    (∀ set ∈ sets, ∃ c ∈ password, set.isMember c = true)
      ∧ ∀ (candidate : CFString) (list : List CFCharacterSet),
          passwordContainsRequiredCharacters candidate list = true ↔
            ∀ set ∈ list, ∃ c ∈ candidate, set.isMember c = true := by
  obtain ⟨_, _, _, _, _, hpass⟩ :=
    SecPasswordGenerate_passes type passwordRequirements rng rng' password parameters
      hparameters hreturned
  exact ⟨(doesFinalPasswordPass_sound password parameters hpass).required sets hsets,
    passwordContainsRequiredCharacters_iff⟩

/-- C6, witness: the PIN `1234-5678` returned for `requirementsPIN8`. -/
theorem generated_password_contains_required_sets_witness :
    properlyFormattedRequirements .kSecPasswordTypePIN (some requirementsPIN8)
        = some parametersPIN8
      ∧ parametersPIN8.kSecRequiredCharacterSetsKey = some [.decimalDigit, .decimalDigit]
      ∧ SecPasswordGenerate .kSecPasswordTypePIN (some requirementsPIN8)
          [some [1, 2, 3, 4, 5, 6, 7, 8]] = some (.password (CFSTR "1234-5678"), [])
      ∧ ((∀ set ∈ [CFCharacterSet.decimalDigit, CFCharacterSet.decimalDigit],
            ∃ c ∈ CFSTR "1234-5678", set.isMember c = true)
        ∧ ∀ (candidate : CFString) (list : List CFCharacterSet),
            passwordContainsRequiredCharacters candidate list = true ↔
              ∀ set ∈ list, ∃ c ∈ candidate, set.isMember c = true) :=
  ⟨rfl, rfl, by decide!,
    generated_password_contains_required_sets .kSecPasswordTypePIN (some requirementsPIN8)
      [some [1, 2, 3, 4, 5, 6, 7, 8]] [] (CFSTR "1234-5678") parametersPIN8
      [.decimalDigit, .decimalDigit] rfl rfl (by decide!)⟩

theorem generated_raw_and_format (type : SecPasswordType)
    (passwordRequirements : Option Requirements) (rng rng' : RandomSource)
    (password : CFString) (parameters : Parameters)
    (hparameters : properlyFormattedRequirements type passwordRequirements = some parameters)
    (h : SecPasswordGenerate type passwordRequirements rng = some (.password password, rng')) :
    ∃ raw : CFString,
      (raw.length : Int) ≤ parameters.kSecNumberOfRequiredRandomCharactersKey
        ∧ ((∀ a ∈ parameters.kSecAllowedCharactersKey, a < 128) →
            (raw.length : Int) = parameters.kSecNumberOfRequiredRandomCharactersKey
              ∧ ∀ c ∈ raw, c < 128 ∧ ∃ a ∈ parameters.kSecAllowedCharactersKey, c = a % 256)
        ∧ doesFinalPasswordPass password parameters = some true
        ∧ (((parameters.kSecPasswordNumberOfGroups.isSome
              && parameters.kSecPasswordGroupSize.isSome) = false ∧ password = raw)
          ∨ ((parameters.kSecPasswordNumberOfGroups.isSome
              && parameters.kSecPasswordGroupSize.isSome) = true
            ∧ (raw.length : Int) = parameters.kSecNumberOfRequiredRandomCharactersKey
            ∧ ∃ separator groupSize,
              asString (separatorOrDash parameters.kSecPasswordSeparator) = some separator
                ∧ parameters.kSecPasswordGroupSize = some (.number groupSize)
                ∧ 1 ≤ groupSize
                ∧ password
                  = joinWith separator (groupsOf groupSize.toNat (raw.length + 1) raw))) := by
  obtain ⟨raw, rng0, rng1, hraw, ⟨g, hfmt, hg⟩, hpass⟩ :=
    SecPasswordGenerate_passes type passwordRequirements rng rng' password parameters
      hparameters h
  obtain ⟨hn, hle, hascii⟩ := getPasswordRandomCharacters_spec _ _ _ _ _ _ hraw
  refine ⟨raw, hle, fun h7 => ?_, hpass, ?_⟩
  · obtain ⟨hlen, hmem⟩ := hascii h7
    refine ⟨hlen, fun c hc => ?_⟩
    obtain ⟨h1, a, ha, hca, -⟩ := hmem c hc
    exact ⟨h1, a, ha, hca⟩
  · by_cases hgroups : (parameters.kSecPasswordNumberOfGroups.isSome
        && parameters.kSecPasswordGroupSize.isSome) = true
    · have hge := formatPassword_length raw parameters _ g password hn hgroups hfmt
      have hlen : (raw.length : Int) = parameters.kSecNumberOfRequiredRandomCharactersKey := by
        omega
      rcases formatPassword_spec raw parameters _ g password hlen hn hfmt with
        h1 | ⟨h1, sep, hsep, hg1, hp⟩
      · rw [hgroups] at h1; simp at h1
      · refine Or.inr ⟨h1, hlen, sep, g, hsep, ?_, hg1, hp⟩
        simp only [Bool.and_eq_true] at h1
        cases hgs : parameters.kSecPasswordGroupSize with
        | none => rw [hgs] at h1; simp at h1
        | some v =>
          rw [hgs] at hg
          cases v <;> simp [readGroupNumber, CFNumberGetValue] at hg
          rw [hg]
    · have hno : (parameters.kSecPasswordNumberOfGroups.isSome
          && parameters.kSecPasswordGroupSize.isSome) = false := by
        simpa using hgroups
      refine Or.inl ⟨hno, ?_⟩
      unfold formatPassword at hfmt
      rw [if_neg hgroups] at hfmt
      simpa using hfmt.symm

/-- C7 (as amended): when the alphabet of the generation parameters is made of ASCII
characters, every character of a password `SecPasswordGenerate` returns is a character of
the alphabet or a character of the separator the formatting step inserts between the
groups; without the two grouping keys every character is a character of the alphabet. -/
theorem generated_password_characters (type : SecPasswordType)
    (passwordRequirements : Option Requirements) (rng rng' : RandomSource)
    (password : CFString) (parameters : Parameters)
    (hparameters : properlyFormattedRequirements type passwordRequirements = some parameters)
    (hascii : ∀ a ∈ parameters.kSecAllowedCharactersKey, a < 128)
    (hreturned : SecPasswordGenerate type passwordRequirements rng
      = some (.password password, rng')) :
    (∀ c ∈ password, c ∈ separatorCharacters parameters
        ∨ c ∈ parameters.kSecAllowedCharactersKey)
      ∧ ((parameters.kSecPasswordNumberOfGroups.isSome
            && parameters.kSecPasswordGroupSize.isSome) = false →
          ∀ c ∈ password, c ∈ parameters.kSecAllowedCharactersKey) := by
  obtain ⟨raw, -, hasc, -, hfmt⟩ :=
    generated_raw_and_format type passwordRequirements rng rng' password parameters
      hparameters hreturned
  obtain ⟨-, hmem⟩ := hasc hascii
  have hraw : ∀ c ∈ raw, c ∈ parameters.kSecAllowedCharactersKey := by
    intro c hc
    obtain ⟨-, a, ha, hca⟩ := hmem c hc
    rw [Nat.mod_eq_of_lt (by have := hascii a ha; omega)] at hca
    rw [hca]
    exact ha
  refine ⟨fun c hc => ?_, fun hno c hc => ?_⟩
  · rcases hfmt with ⟨-, rfl⟩ | ⟨hgrp, -, sep, g, hsep, -, -, rfl⟩
    · exact Or.inr (hraw c hc)
    · rcases joinWith_mem sep _ c hc with h | ⟨grp, hg, hcg⟩
      · left
        simp [separatorCharacters, hgrp, hsep, h]
      · exact Or.inr (hraw c (groupsOf_mem _ _ _ _ hg c hcg))
  · rcases hfmt with ⟨-, rfl⟩ | ⟨hgrp, -⟩
    · exact hraw c hc
    · rw [hno] at hgrp
      simp at hgrp

/-- C7, witness: the PIN `1234-5678` returned for `requirementsPIN8`. -/
theorem generated_password_characters_witness :
    properlyFormattedRequirements .kSecPasswordTypePIN (some requirementsPIN8)
        = some parametersPIN8
      ∧ (∀ a ∈ parametersPIN8.kSecAllowedCharactersKey, a < 128)
      ∧ SecPasswordGenerate .kSecPasswordTypePIN (some requirementsPIN8)
          [some [1, 2, 3, 4, 5, 6, 7, 8]] = some (.password (CFSTR "1234-5678"), [])
      ∧ ((∀ c ∈ CFSTR "1234-5678", c ∈ separatorCharacters parametersPIN8
            ∨ c ∈ parametersPIN8.kSecAllowedCharactersKey)
        ∧ ((parametersPIN8.kSecPasswordNumberOfGroups.isSome
              && parametersPIN8.kSecPasswordGroupSize.isSome) = false →
            ∀ c ∈ CFSTR "1234-5678", c ∈ parametersPIN8.kSecAllowedCharactersKey)) :=
  ⟨rfl, by decide!, by decide!,
    generated_password_characters .kSecPasswordTypePIN (some requirementsPIN8)
      [some [1, 2, 3, 4, 5, 6, 7, 8]] [] (CFSTR "1234-5678") parametersPIN8 rfl (by decide!)
      (by decide!)⟩

/-- C7, counterexample: the password returned for a Safari password with no requirements
holds the character `-`, which is no member of the alphabet of its generation parameters;
and the password returned for `requirementsLatin1`, without grouping, has 7 characters, the
first of which, U+00E9, is no member of the alphabet: the bytes C3 and A9 stored for the
characters U+00C3 and U+00A9 are read as one UTF-8 sequence. -/
theorem generated_password_characters_counterexample :
    SecPasswordGenerate .kSecPasswordTypeSafari none rngSafari
        = some (.password (CFSTR "anzM-ZcpB-P2er-DR4g-tFT6"), [])
      ∧ properlyFormattedRequirements .kSecPasswordTypeSafari none
        = some (passwordGenerateDefaultParametersDictionary .kSecPasswordTypeSafari)
      ∧ 45 ∈ CFSTR "anzM-ZcpB-P2er-DR4g-tFT6"
      ∧ 45 ∉ (passwordGenerateDefaultParametersDictionary
          .kSecPasswordTypeSafari).kSecAllowedCharactersKey
      ∧ isDictionaryFormattedProperly .kSecPasswordTypeSafari (some requirementsLatin1)
          = .proper
      ∧ SecPasswordGenerate .kSecPasswordTypeSafari (some requirementsLatin1)
          [some [0, 1, 2, 3, 4, 5, 6, 7]] = some (.password (233 :: CFSTR "ab12XY"), [])
      ∧ (∃ parameters,
          properlyFormattedRequirements .kSecPasswordTypeSafari (some requirementsLatin1)
              = some parameters
            ∧ parameters.kSecAllowedCharactersKey = [195, 169] ++ CFSTR "ab12XY"
            ∧ (∀ a ∈ parameters.kSecAllowedCharactersKey, a < 256)
            ∧ 233 ∉ parameters.kSecAllowedCharactersKey
            ∧ separatorCharacters parameters = []) :=
  ⟨by decide!, rfl, by decide!, by decide!, by decide!, by decide!,
    ⟨_, rfl, by decide!, by decide!, by decide!, by decide!⟩⟩

theorem default_alphabet_ascii (type : SecPasswordType) :
    ∀ a ∈ (passwordGenerateDefaultParametersDictionary type).kSecAllowedCharactersKey,
      a < 128 := by
  cases type <;> decide!

theorem default_length (type : SecPasswordType) :
    (passwordGenerateDefaultParametersDictionary type).kSecNumberOfRequiredRandomCharactersKey
      = ((4 * defaultGroupCount type : Nat) : Int) := by
  cases type <;> rfl

/-- C8 (as amended): for every password type with no requirements, every string
`SecPasswordGenerate` returns is made of the default number of alphabet characters of the
type (Safari and any other type 20, PIN 4, Wi-Fi 12, iCloud recovery 24) laid out in groups
of the default group size 4 joined by `-`: 5 groups for Safari, 1 for PIN, 3 for Wi-Fi and
6 for iCloud recovery. -/
theorem default_password_layout (type : SecPasswordType) (rng rng' : RandomSource)
    (password : CFString)
    (hreturned : SecPasswordGenerate type none rng = some (.password password, rng')) :
    ∃ groups : List CFString,
      password = joinWith (CFSTR "-") groups
        ∧ groups.length = defaultGroupCount type
        ∧ (∀ group ∈ groups, group.length = 4
            ∧ ∀ c ∈ group,
              c ∈ (passwordGenerateDefaultParametersDictionary type).kSecAllowedCharactersKey)
        ∧ ((groups.flatten.length : Int)
            = (passwordGenerateDefaultParametersDictionary
                type).kSecNumberOfRequiredRandomCharactersKey)
        ∧ (passwordGenerateDefaultParametersDictionary
            type).kSecNumberOfRequiredRandomCharactersKey
          = (match type with
            | .kSecPasswordTypeiCloudRecovery => 24
            | .kSecPasswordTypePIN => 4
            | .kSecPasswordTypeWifi => 12
            | _ => 20) := by
  obtain ⟨raw, -, hasc, -, hfmt⟩ :=
    generated_raw_and_format type none rng rng' password
      (passwordGenerateDefaultParametersDictionary type) rfl hreturned
  obtain ⟨hlen, hmem⟩ := hasc (default_alphabet_ascii type)
  have hgrp : ((passwordGenerateDefaultParametersDictionary type).kSecPasswordNumberOfGroups.isSome
      && (passwordGenerateDefaultParametersDictionary type).kSecPasswordGroupSize.isSome)
        = true := by
    cases type <;> rfl
  have hsepd : asString (separatorOrDash
      (passwordGenerateDefaultParametersDictionary type).kSecPasswordSeparator)
        = some (CFSTR "-") := by
    cases type <;> rfl
  have hgs : (passwordGenerateDefaultParametersDictionary type).kSecPasswordGroupSize
      = some (.number 4) := by
    cases type <;> rfl
  rcases hfmt with ⟨hno, -⟩ | ⟨-, -, sep, g, hsep, hg, -, hp⟩
  · rw [hgrp] at hno; simp at hno
  · rw [hsepd] at hsep
    rw [hgs] at hg
    simp only [Option.some.injEq, CFType.number.injEq] at hsep hg
    subst hsep hg
    rw [default_length] at hlen
    have hlen' : raw.length = 4 * defaultGroupCount type := by exact_mod_cast hlen
    obtain ⟨h1, h2, h3⟩ := groupsOf_exact 4 (by decide) (defaultGroupCount type)
      (raw.length + 1) raw hlen' (by omega)
    refine ⟨groupsOf 4 (raw.length + 1) raw, hp, h1, ?_, ?_, ?_⟩
    · intro group hg
      refine ⟨h2 group hg, fun c hc => ?_⟩
      obtain ⟨-, a, ha, hca⟩ := hmem c (groupsOf_mem _ _ _ _ hg c hc)
      have := default_alphabet_ascii type a ha
      rw [Nat.mod_eq_of_lt (by omega)] at hca
      rw [hca]; exact ha
    · rw [h3, default_length]; exact_mod_cast hlen'
    · cases type <;> rfl

/-- C8, witness: the Wi-Fi password `a1b2-c3d4-e5f6` returned with no requirements. -/
theorem default_password_layout_witness :
    SecPasswordGenerate .kSecPasswordTypeWifi none [some [0, 26, 1, 27, 2, 28, 3, 29, 4, 30, 5, 31]]
        = some (.password (CFSTR "a1b2-c3d4-e5f6"), [])
      ∧ ∃ groups : List CFString,
        CFSTR "a1b2-c3d4-e5f6" = joinWith (CFSTR "-") groups
          ∧ groups.length = defaultGroupCount .kSecPasswordTypeWifi
          ∧ (∀ group ∈ groups, group.length = 4
              ∧ ∀ c ∈ group,
                c ∈ (passwordGenerateDefaultParametersDictionary
                  .kSecPasswordTypeWifi).kSecAllowedCharactersKey)
          ∧ ((groups.flatten.length : Int)
              = (passwordGenerateDefaultParametersDictionary
                  .kSecPasswordTypeWifi).kSecNumberOfRequiredRandomCharactersKey)
          ∧ (passwordGenerateDefaultParametersDictionary
              .kSecPasswordTypeWifi).kSecNumberOfRequiredRandomCharactersKey
            = (match SecPasswordType.kSecPasswordTypeWifi with
              | .kSecPasswordTypeiCloudRecovery => 24
              | .kSecPasswordTypePIN => 4
              | .kSecPasswordTypeWifi => 12
              | _ => 20) :=
  ⟨by decide!,
    default_password_layout .kSecPasswordTypeWifi
      [some [0, 26, 1, 27, 2, 28, 3, 29, 4, 30, 5, 31]] [] (CFSTR "a1b2-c3d4-e5f6") (by decide!)⟩

/-- C8, counterexample: the default parameters of a Safari password carry 6 as number of
groups, and the password returned with no requirements has 20 alphabet characters in 5
groups of 4: 24 characters, 4 of them `-`, not the 29 characters of 6 groups. -/
theorem default_password_layout_counterexample :
    SecPasswordGenerate .kSecPasswordTypeSafari none rngSafari
        = some (.password (CFSTR "anzM-ZcpB-P2er-DR4g-tFT6"), [])
      ∧ (passwordGenerateDefaultParametersDictionary
          .kSecPasswordTypeSafari).kSecPasswordNumberOfGroups = some (.number 6)
      ∧ (passwordGenerateDefaultParametersDictionary
          .kSecPasswordTypeSafari).kSecPasswordGroupSize = some (.number 4)
      ∧ (CFSTR "anzM-ZcpB-P2er-DR4g-tFT6").length = 24
      ∧ (CFSTR "anzM-ZcpB-P2er-DR4g-tFT6").count 45 = 4
      ∧ ¬ ∃ groups : List CFString, groups.length = 6 ∧ (∀ group ∈ groups, group.length = 4)
          ∧ CFSTR "anzM-ZcpB-P2er-DR4g-tFT6" = joinWith (CFSTR "-") groups :=
  ⟨by decide!, rfl, rfl, by decide!, by decide!, by
    rintro ⟨groups, hlen, hgroups, hp⟩
    have := joinWith_length (CFSTR "-") 4 groups hgroups
    rw [← hp, hlen] at this
    exact absurd this (by decide)⟩

theorem passwordGenerationParametersDictionary_fields (type : SecPasswordType)
    (requirements : Requirements) (parameters : Parameters)
    (h : passwordGenerationParametersDictionary type requirements = some parameters) :
    ∃ minPasswordLength maxPasswordLength,
      CFNumberGetValue requirements.kSecPasswordMinLengthKey = some minPasswordLength
        ∧ CFNumberGetValue requirements.kSecPasswordMaxLengthKey = some maxPasswordLength
        ∧ parameters.kSecNumberOfRequiredRandomCharactersKey
          = (lengthAndAlphabet type requirements minPasswordLength maxPasswordLength).1
        ∧ parameters.kSecPasswordDisallowedCharacters
          = requirements.kSecPasswordDisallowedCharacters
        ∧ parameters.kSecPasswordCantStartWithChars = requirements.kSecPasswordCantStartWithChars
        ∧ parameters.kSecPasswordCantEndWithChars = requirements.kSecPasswordCantEndWithChars
        ∧ parameters.kSecPasswordContainsNoMoreThanNSpecificCharacters
          = requirements.kSecPasswordContainsNoMoreThanNSpecificCharacters
        ∧ parameters.kSecPasswordContainsAtLeastNSpecificCharacters
          = requirements.kSecPasswordContainsAtLeastNSpecificCharacters
        ∧ parameters.kSecPasswordContainsNoMoreThanNConsecutiveIdenticalCharacters
          = requirements.kSecPasswordContainsNoMoreThanNConsecutiveIdenticalCharacters
        ∧ parameters.kSecPasswordGroupSize = requirements.kSecPasswordGroupSize
        ∧ parameters.kSecPasswordNumberOfGroups = requirements.kSecPasswordNumberOfGroups
        ∧ parameters.kSecPasswordSeparator = requirements.kSecPasswordSeparator := by
  unfold passwordGenerationParametersDictionary at h
  split at h
  · rename_i mn mx hmin hmax
    refine ⟨mn, mx, hmin, hmax, ?_⟩
    split at h
    rename_i n allowedRef requiredArray fmt sets0 hla
    split at h
    · simp at h
    · split at h
      · simp at h
      · simp only [Option.some.injEq] at h
        subst h
        simp [hla]
  · simp at h

theorem lengthAndAlphabet_exact (type : SecPasswordType) (requirements : Requirements)
    (n : Int) (hn : n ≠ 0) : (lengthAndAlphabet type requirements n n).1 = n := by
  unfold lengthAndAlphabet
  split
  · simp [hn]
  · by_cases h20 : n = defaultNumberOfRandomCharacters
    · subst h20
      simp [defaultNumberOfRandomCharacters]
    · simp [hn, h20]

/-- C9 (as amended): `SecPasswordGenerate` for a Safari password with the requirements
`{groupSize: 4, numberOfGroups: 6, separator: "-"}` returns no password but the error that
the allowed characters are missing; when the requirements also carry what the validation
asks for, with the minimum and maximum length 24, every string returned has exactly
29 characters with `-` at the 0-indexed positions 4, 9, 14, 19 and 24. -/
theorem grouped_password_layout :
    (∀ rng : RandomSource,
        SecPasswordGenerate .kSecPasswordTypeSafari (some requirementsGroupingOnly) rng
          = some (.error .needAllowedCharacters, rng))
      ∧ ∀ (type : SecPasswordType) (requirements : Requirements) (rng rng' : RandomSource)
          (password : CFString) (numberOfGroups : CFType),
          isDefaultForType requirements = false →
          requirements.kSecPasswordMinLengthKey = some (.number 24) →
          requirements.kSecPasswordMaxLengthKey = some (.number 24) →
          requirements.kSecPasswordGroupSize = some (.number 4) →
          requirements.kSecPasswordNumberOfGroups = some numberOfGroups →
          requirements.kSecPasswordSeparator = some (.string (CFSTR "-")) →
          SecPasswordGenerate type (some requirements) rng = some (.password password, rng') →
            password.length = 29
              ∧ ∀ position ∈ [4, 9, 14, 19, 24], password.getD position 0 = 45 := by
  refine ⟨fun rng => rfl, ?_⟩
  intro type requirements rng rng' password ng hflag hmin hmax hgs hng hsep hret
  obtain ⟨parameters, _, -, hp, -, -⟩ := SecPasswordGenerate_returns _ _ _ _ _ hret
  have hp' : passwordGenerationParametersDictionary type requirements = some parameters := by
    simpa [properlyFormattedRequirements, hflag] using hp
  obtain ⟨mn, mx, h1, h2, hn, -, -, -, -, -, -, hg, hg2, hs⟩ :=
    passwordGenerationParametersDictionary_fields type requirements parameters hp'
  rw [hmin] at h1
  rw [hmax] at h2
  simp only [CFNumberGetValue, Option.some.injEq] at h1 h2
  subst h1 h2
  rw [lengthAndAlphabet_exact _ _ 24 (by decide)] at hn
  obtain ⟨raw, -, -, -, hfmt⟩ :=
    generated_raw_and_format type (some requirements) rng rng' password parameters hp hret
  rcases hfmt with ⟨hno, -⟩ | ⟨-, hlen, sep, g, hsep', hg', -, hpw⟩
  · rw [hg, hg2, hgs, hng] at hno; simp at hno
  · rw [hn] at hlen
    have hlen' : raw.length = 4 * 6 := by exact_mod_cast hlen
    rw [hs, hsep] at hsep'
    rw [hg, hgs] at hg'
    simp only [separatorOrDash, asString, Option.some.injEq, CFType.number.injEq] at hsep' hg'
    subst hsep' hg'
    obtain ⟨e1, e2, -⟩ := groupsOf_exact 4 (by decide) 6 (raw.length + 1) raw hlen' (by omega)
    have e3 : (4 : Int).toNat = 4 := rfl
    rw [e3] at hpw
    refine ⟨?_, ?_⟩
    · rw [hpw, joinWith_length _ 4 _ e2, e1]; rfl
    · have hat := joinWith_separator_at 45 4 _ e2
      rw [e1] at hat
      have e4 : CFSTR "-" = [45] := rfl
      rw [e4] at hpw
      intro position hpos
      simp only [List.mem_cons, List.mem_singleton, List.not_mem_nil, or_false] at hpos
      rcases hpos with rfl | rfl | rfl | rfl | rfl
      · rw [hpw]; exact hat 0 (by decide)
      · rw [hpw]; exact hat 1 (by decide)
      · rw [hpw]; exact hat 2 (by decide)
      · rw [hpw]; exact hat 3 (by decide)
      · rw [hpw]; exact hat 4 (by decide)

/-- C9, witness: the password returned for `requirementsGrouped24`. -/
theorem grouped_password_layout_witness :
    isDefaultForType requirementsGrouped24 = false
      ∧ SecPasswordGenerate .kSecPasswordTypeSafari (some requirementsGrouped24) rngGrouped24
        = some (.password (CFSTR "ajtC-MW6f-pyHS-2bku-DNX7-gqzJ"), [])
      ∧ (CFSTR "ajtC-MW6f-pyHS-2bku-DNX7-gqzJ").length = 29
      ∧ ∀ position ∈ [4, 9, 14, 19, 24],
          (CFSTR "ajtC-MW6f-pyHS-2bku-DNX7-gqzJ").getD position 0 = 45 :=
  ⟨by decide!, by decide!,
    grouped_password_layout.2 .kSecPasswordTypeSafari requirementsGrouped24 rngGrouped24 []
      (CFSTR "ajtC-MW6f-pyHS-2bku-DNX7-gqzJ") (.number 6) (by decide!) rfl rfl rfl rfl rfl
      (by decide!)⟩

/-- C9, counterexample: for a Safari password with the requirements
`{groupSize: 4, numberOfGroups: 6, separator: "-"}` alone, `SecPasswordGenerate` returns an
error and no string of 29 characters, and leaves the random source as it is. -/
theorem grouped_password_layout_counterexample :
    SecPasswordGenerate .kSecPasswordTypeSafari (some requirementsGroupingOnly) rngGrouped24
        = some (.error .needAllowedCharacters, rngGrouped24)
      ∧ ¬ ∃ password rng', password.length = 29
          ∧ SecPasswordGenerate .kSecPasswordTypeSafari (some requirementsGroupingOnly)
              rngGrouped24 = some (.password password, rng') :=
  ⟨rfl, by
    rintro ⟨password, rng', -, h⟩
    have e : SecPasswordGenerate .kSecPasswordTypeSafari (some requirementsGroupingOnly)
        rngGrouped24 = some (.error .needAllowedCharacters, rngGrouped24) := rfl
    rw [e] at h
    simp at h⟩

theorem groupsOf_flatten (G : Nat) (hG : 1 ≤ G) :
    ∀ (fuel : Nat) (raw : CFString), raw.length ≤ fuel → (groupsOf G fuel raw).flatten = raw := by
  intro fuel
  induction fuel with
  | zero =>
    intro raw h
    have : raw = [] := List.eq_nil_of_length_eq_zero (by omega)
    simp [groupsOf, this]
  | succ f ih =>
    intro raw h
    unfold groupsOf
    split
    · rename_i h0; simp [h0]
    · rename_i hne
      have hpos : 0 < raw.length := List.length_pos.mpr hne
      rw [List.flatten_cons, ih (raw.drop G) (by simp; omega), List.take_append_drop]

theorem flatten_sublist_joinWith (separator : CFString) (groups : List CFString) :
    List.Sublist groups.flatten (joinWith separator groups) := by
  induction groups with
  | nil => simp [joinWith]
  | cons group rest ih =>
    cases rest with
    | nil => simp [joinWith]
    | cons next rest' =>
      rw [joinWith_cons_cons, List.flatten_cons, List.append_assoc]
      exact List.Sublist.append (List.Sublist.refl _)
        (ih.trans (List.sublist_append_right _ _))

/-- C10 (as amended): a password `SecPasswordGenerate` returns for parameters with grouping
is the raw candidate cut into groups that the separator joins; the constraints of the
parameters hold of the returned string itself, the separators included, and of the raw
candidate, which the removal of the inserted separators gives back, the bound on the
greatest number of occurrences of the specific characters holds. -/
theorem grouped_password_constraints (type : SecPasswordType)
    (passwordRequirements : Option Requirements) (rng rng' : RandomSource)
    (password : CFString) (parameters : Parameters)
    (hparameters : properlyFormattedRequirements type passwordRequirements = some parameters)
    (hgrouping : (parameters.kSecPasswordNumberOfGroups.isSome
      && parameters.kSecPasswordGroupSize.isSome) = true)
    (hreturned : SecPasswordGenerate type passwordRequirements rng
      = some (.password password, rng')) :
    ∃ (raw separator : CFString) (groups : List CFString),
      asString (separatorOrDash parameters.kSecPasswordSeparator) = some separator
        ∧ (raw.length : Int) = parameters.kSecNumberOfRequiredRandomCharactersKey
        ∧ groups.flatten = raw
        ∧ password = joinWith separator groups
        ∧ SatisfiesConstraints password parameters
        ∧ ∀ N cs, parameters.kSecPasswordContainsNoMoreThanNSpecificCharacters
            = some (.dictionary (some (.number N)) (some (.string cs))) →
          (raw.countP (fun c => decide (c ∈ cs)) : Int) ≤ N := by
  obtain ⟨raw, -, -, hpass, hfmt⟩ :=
    generated_raw_and_format type passwordRequirements rng rng' password parameters
      hparameters hreturned
  have hsat := doesFinalPasswordPass_sound password parameters hpass
  rcases hfmt with ⟨hno, -⟩ | ⟨-, hlen, sep, g, hsep, -, hg1, hpw⟩
  · rw [hgrouping] at hno; simp at hno
  · have hflat := groupsOf_flatten g.toNat (by omega) (raw.length + 1) raw (by omega)
    refine ⟨raw, sep, groupsOf g.toNat (raw.length + 1) raw, hsep, hlen, hflat, hpw, hsat, ?_⟩
    intro N cs hd
    have h1 := hsat.atMost N cs hd
    have hsub : List.Sublist raw password := by
      rw [hpw]
      have := flatten_sublist_joinWith sep (groupsOf g.toNat (raw.length + 1) raw)
      rwa [hflat] at this
    have h2 := hsub.countP_le (fun c => decide (c ∈ cs))
    omega

/-- C10, witness: the PIN `1234-5678` returned for `requirementsPIN8`. -/
theorem grouped_password_constraints_witness :
    properlyFormattedRequirements .kSecPasswordTypePIN (some requirementsPIN8)
        = some parametersPIN8
      ∧ (parametersPIN8.kSecPasswordNumberOfGroups.isSome
          && parametersPIN8.kSecPasswordGroupSize.isSome) = true
      ∧ SecPasswordGenerate .kSecPasswordTypePIN (some requirementsPIN8)
          [some [1, 2, 3, 4, 5, 6, 7, 8]] = some (.password (CFSTR "1234-5678"), [])
      ∧ ∃ (raw separator : CFString) (groups : List CFString),
        asString (separatorOrDash parametersPIN8.kSecPasswordSeparator) = some separator
          ∧ (raw.length : Int) = parametersPIN8.kSecNumberOfRequiredRandomCharactersKey
          ∧ groups.flatten = raw
          ∧ CFSTR "1234-5678" = joinWith separator groups
          ∧ SatisfiesConstraints (CFSTR "1234-5678") parametersPIN8
          ∧ ∀ N cs, parametersPIN8.kSecPasswordContainsNoMoreThanNSpecificCharacters
              = some (.dictionary (some (.number N)) (some (.string cs))) →
            (raw.countP (fun c => decide (c ∈ cs)) : Int) ≤ N :=
  ⟨rfl, rfl, by decide!,
    grouped_password_constraints .kSecPasswordTypePIN (some requirementsPIN8)
      [some [1, 2, 3, 4, 5, 6, 7, 8]] [] (CFSTR "1234-5678") parametersPIN8 rfl rfl
      (by decide!)⟩

/-- C10, counterexample: for a PIN of 8 digits in groups of 4 `SecPasswordGenerate` returns
`1234-5678`, which is not weak, while the string `12345678` that the removal of the
separator gives is weak. -/
theorem grouped_password_constraints_counterexample :
    SecPasswordGenerate .kSecPasswordTypePIN (some requirementsPIN8)
        [some [1, 2, 3, 4, 5, 6, 7, 8]] = some (.password (CFSTR "1234-5678"), [])
      ∧ CFSTR "1234-5678" = joinWith (CFSTR "-") [CFSTR "1234", CFSTR "5678"]
      ∧ [CFSTR "1234", CFSTR "5678"].flatten = CFSTR "12345678"
      ∧ SecPasswordIsPasswordWeak (CFSTR "1234-5678") = false
      ∧ SecPasswordIsPasswordWeak (CFSTR "12345678") = true :=
  ⟨by decide!, by decide!, by decide!, by decide!, by decide!⟩

/-! ## The weak-password heuristic on examples and short strings -/

/-- C11: `1234` is weak, `0000` is weak and `1357` is not weak. -/
theorem weak_examples :
    SecPasswordIsPasswordWeak (CFSTR "1234") = true
      ∧ SecPasswordIsPasswordWeak (CFSTR "0000") = true
      ∧ SecPasswordIsPasswordWeak (CFSTR "1357") = false :=
  ⟨by decide!, by decide!, by decide!⟩

/-- C12: every string with fewer than 4 characters, the empty string included, is weak. -/
theorem weak_of_length_lt_four (s : CFString) (h : s.length < 4) :
    SecPasswordIsPasswordWeak s = true := by
  unfold SecPasswordIsPasswordWeak
  rw [if_pos h]

/-- C12, witness: the string `aB3` and the empty string. -/
theorem weak_of_length_lt_four_witness :
    (CFSTR "aB3").length < 4 ∧ SecPasswordIsPasswordWeak (CFSTR "aB3") = true
      ∧ SecPasswordIsPasswordWeak [] = true :=
  ⟨by decide, weak_of_length_lt_four (CFSTR "aB3") (by decide),
    weak_of_length_lt_four [] (by decide)⟩

/-! ## Validation of the requirements, both branches -/

theorem checkIfPresentTwo_number (n : Int) (e1 e2 : CFError) (rest : Verdict) :
    checkIfPresentTwo (some (.number n)) e1 e2 rest = rest := by
  simp [checkIfPresentTwo, require_action_quiet, isNull, isNumber]

theorem pin_verdict (requirements : Requirements) (a b : Int)
    (hmin : requirements.kSecPasswordMinLengthKey = some (.number a))
    (hmax : requirements.kSecPasswordMaxLengthKey = some (.number b)) :
    isDictionaryFormattedProperlyPIN requirements
      = if a ≠ 0 ∧ b ≠ 0 ∧ a ≤ b ∧ (4 ≤ a ∨ 4 ≤ b) then .proper
        else .malformed .lengthParametersMakeNoSense := by
  unfold isDictionaryFormattedProperlyPIN
  simp only [hmin, hmax, checkIfPresentTwo_number, CFNumberGetValue, Option.getD_some,
    require_action_quiet]
  by_cases ha : a = 0 <;> by_cases hb : b = 0 <;> by_cases hab : a ≤ b <;>
    by_cases h4a : 4 ≤ a <;> by_cases h4b : 4 ≤ b <;> simp [ha, hb, hab, h4a, h4b]

/-- C13: for a PIN and requirements not flagged as the default for the type, with the minimum
and the maximum length given as positive numbers, the validation fails exactly when the
minimum is greater than the maximum or the greater of the two is below 4. -/
theorem pin_validation_fails_iff (requirements : Requirements) (minLength maxLength : Int)
    (hflag : isDefaultForType requirements = false)
    (hmin : requirements.kSecPasswordMinLengthKey = some (.number minLength))
    (hmax : requirements.kSecPasswordMaxLengthKey = some (.number maxLength))
    (hminpos : 0 < minLength) (hmaxpos : 0 < maxLength) :
    (∃ error, isDictionaryFormattedProperly .kSecPasswordTypePIN (some requirements)
        = .malformed error)
      ↔ (minLength > maxLength ∨ max minLength maxLength < 4) := by
  have hv : isDictionaryFormattedProperly .kSecPasswordTypePIN (some requirements)
      = isDictionaryFormattedProperlyPIN requirements := by
    simp [isDictionaryFormattedProperly, hflag]
  rw [hv, pin_verdict requirements minLength maxLength hmin hmax]
  by_cases h : minLength ≠ 0 ∧ maxLength ≠ 0 ∧ minLength ≤ maxLength
      ∧ (4 ≤ minLength ∨ 4 ≤ maxLength)
  · rw [if_pos h]
    constructor
    · rintro ⟨e, he⟩; cases he
    · intro h2
      exfalso
      rcases h2 with h2 | h2
      · omega
      · have := max_lt_iff.mp h2
        omega
  · rw [if_neg h]
    constructor
    · intro _
      by_contra hn
      apply h
      simp only [not_or, not_lt, gt_iff_lt] at hn
      obtain ⟨h1, h2⟩ := hn
      have h3 := le_max_iff.mp h2
      exact ⟨by omega, by omega, h1, h3⟩
    · intro _
      exact ⟨_, rfl⟩

/-- C13, witness: a PIN with the requirements `{minLength: 10, maxLength: 2}`. -/
theorem pin_validation_fails_iff_witness :
    isDefaultForType requirementsMin10Max2 = false
      ∧ (0 : Int) < 10 ∧ (0 : Int) < 2
      ∧ ((∃ error, isDictionaryFormattedProperly .kSecPasswordTypePIN
            (some requirementsMin10Max2) = .malformed error)
        ↔ ((10 : Int) > 2 ∨ max (10 : Int) 2 < 4)) :=
  ⟨by decide, by decide, by decide,
    pin_validation_fails_iff requirementsMin10Max2 10 2 (by decide) rfl rfl (by decide)
      (by decide)⟩

theorem checkIfPresent_none (test : CFTypeRef → Bool) (error : CFError) (rest : Verdict) :
    checkIfPresent none test error rest = rest := by
  simp [checkIfPresent]

theorem checkSpecificCharacters_none (error : CFError) (rest : Verdict) :
    checkSpecificCharacters none error rest = rest := by
  simp [checkSpecificCharacters]

theorem isString_iff (ref : CFTypeRef) : isString ref = true ↔ ∃ s, ref = some (.string s) := by
  rcases ref with _ | v
  · simp [isString]
  · cases v <;> simp [isString]

theorem isNumber_iff (ref : CFTypeRef) : isNumber ref = true ↔ ∃ n, ref = some (.number n) := by
  rcases ref with _ | v
  · simp [isNumber]
  · cases v <;> simp [isNumber]

theorem isArray_iff (ref : CFTypeRef) : isArray ref = true ↔ ∃ sets, ref = some (.array sets) := by
  rcases ref with _ | v
  · simp [isArray]
  · cases v <;> simp [isArray]

theorem other_mandatory_iff (requirements : Requirements)
    (hnone : carriesNoRefinement requirements = true) :
    isDictionaryFormattedProperlyOther requirements = .proper ↔
      ∃ (allowed : CFString) (minLength maxLength : Int) (sets : List CFCharacterSet),
        requirements.kSecPasswordAllowedCharactersKey = some (.string allowed) ∧ allowed ≠ []
          ∧ requirements.kSecPasswordMinLengthKey = some (.number minLength)
          ∧ requirements.kSecPasswordMaxLengthKey = some (.number maxLength)
          ∧ minLength ≤ maxLength
          ∧ requirements.kSecPasswordRequiredCharactersKey = some (.array sets)
          ∧ sets ≠ [] := by
  simp only [carriesNoRefinement, Bool.and_eq_true, Option.isNone_iff_eq_none] at hnone
  obtain ⟨⟨⟨⟨⟨⟨⟨⟨h1, h2⟩, h3⟩, h4⟩, h5⟩, h6⟩, h7⟩, h8⟩, h9⟩ := hnone
  unfold isDictionaryFormattedProperlyOther
  simp only [h1, h2, h3, h4, h5, h6, h7, h8, h9, checkIfPresent_none,
    checkSpecificCharacters_none, require_action_quiet_proper, and_true]
  constructor
  · rintro ⟨-, -, -, -, -, -, -, -, hs, hmx, hmn, har, hle, hlen, hcount⟩
    obtain ⟨allowed, ha⟩ := (isString_iff _).mp hs
    obtain ⟨mx, hmx'⟩ := (isNumber_iff _).mp hmx
    obtain ⟨mn, hmn'⟩ := (isNumber_iff _).mp hmn
    obtain ⟨sets, hsets⟩ := (isArray_iff _).mp har
    rw [ha] at hlen
    rw [hmx', hmn'] at hle
    rw [hsets] at hcount
    refine ⟨allowed, mn, mx, sets, ha, ?_, hmn', hmx', ?_, hsets, ?_⟩
    · intro h; simp [asString, h] at hlen
    · simpa [CFNumberGetValue] using hle
    · intro h; simp [h] at hcount
  · rintro ⟨allowed, mn, mx, sets, ha, hane, hmn, hmx, hle, hsets, hsne⟩
    simp [ha, hmn, hmx, hsets, isNull, isString, isNumber, isArray, asString, CFNumberGetValue,
      hle, hane, hsne]

/-- C14: for a type other than PIN and supplied requirements that are not flagged as the
default for the type and carry no optional refinement field, the validation succeeds exactly
when the allowed characters are a non-empty string, the minimum and maximum length are
numbers with minimum at most maximum, and the required character sets are a non-empty
array; otherwise it fails with an error. -/
theorem mandatory_fields_validation_iff (type : SecPasswordType) (requirements : Requirements)
    (htype : type ≠ .kSecPasswordTypePIN)
    (hflag : isDefaultForType requirements = false)
    (hnone : carriesNoRefinement requirements = true) :
    (isDictionaryFormattedProperly type (some requirements) = .proper ↔
        ∃ (allowed : CFString) (minLength maxLength : Int) (sets : List CFCharacterSet),
          requirements.kSecPasswordAllowedCharactersKey = some (.string allowed) ∧ allowed ≠ []
            ∧ requirements.kSecPasswordMinLengthKey = some (.number minLength)
            ∧ requirements.kSecPasswordMaxLengthKey = some (.number maxLength)
            ∧ minLength ≤ maxLength
            ∧ requirements.kSecPasswordRequiredCharactersKey = some (.array sets)
            ∧ sets ≠ [])
      ∧ (isDictionaryFormattedProperly type (some requirements) ≠ .proper →
          ∃ error, isDictionaryFormattedProperly type (some requirements)
            = .malformed error) := by
  have hv : isDictionaryFormattedProperly type (some requirements)
      = isDictionaryFormattedProperlyOther requirements := by
    simp [isDictionaryFormattedProperly, hflag, htype]
  rw [hv]
  exact ⟨other_mandatory_iff requirements hnone, verdict_cases _⟩

/-- C14, witness: a Wi-Fi password with `requirementsMandatoryOnly`, which is valid. -/
theorem mandatory_fields_validation_iff_witness :
    SecPasswordType.kSecPasswordTypeWifi ≠ .kSecPasswordTypePIN
      ∧ isDefaultForType requirementsMandatoryOnly = false
      ∧ carriesNoRefinement requirementsMandatoryOnly = true
      ∧ isDictionaryFormattedProperly .kSecPasswordTypeWifi (some requirementsMandatoryOnly)
        = .proper
      ∧ ((isDictionaryFormattedProperly .kSecPasswordTypeWifi (some requirementsMandatoryOnly)
            = .proper ↔
          ∃ (allowed : CFString) (minLength maxLength : Int) (sets : List CFCharacterSet),
            requirementsMandatoryOnly.kSecPasswordAllowedCharactersKey = some (.string allowed)
              ∧ allowed ≠ []
              ∧ requirementsMandatoryOnly.kSecPasswordMinLengthKey = some (.number minLength)
              ∧ requirementsMandatoryOnly.kSecPasswordMaxLengthKey = some (.number maxLength)
              ∧ minLength ≤ maxLength
              ∧ requirementsMandatoryOnly.kSecPasswordRequiredCharactersKey
                = some (.array sets)
              ∧ sets ≠ [])
        ∧ (isDictionaryFormattedProperly .kSecPasswordTypeWifi (some requirementsMandatoryOnly)
            ≠ .proper →
          ∃ error, isDictionaryFormattedProperly .kSecPasswordTypeWifi
            (some requirementsMandatoryOnly) = .malformed error)) :=
  ⟨by decide, by decide, by decide, by decide,
    mandatory_fields_validation_iff .kSecPasswordTypeWifi requirementsMandatoryOnly (by decide)
      (by decide) (by decide)⟩

/-! ## Failure of the validation, and the flag for the defaults -/

/-- C15: when the validation of the requirements fails, `SecPasswordGenerate` returns the
error of the validation and no password, and the random source is as it was: nothing has been
taken from it. An error is returned in no other case. -/
theorem validation_failure_draws_nothing (type : SecPasswordType)
    (passwordRequirements : Option Requirements) (rng : RandomSource) (error : CFError) :
    (isDictionaryFormattedProperly type passwordRequirements = .malformed error →
        SecPasswordGenerate type passwordRequirements rng = some (.error error, rng))
      ∧ ∀ rng', SecPasswordGenerate type passwordRequirements rng = some (.error error, rng') →
          isDictionaryFormattedProperly type passwordRequirements = .malformed error
            ∧ rng' = rng := by
  constructor
  · intro h
    simp [SecPasswordGenerate, h]
  · intro rng' h
    unfold SecPasswordGenerate at h
    split at h
    · rename_i e he
      simp only [Option.some.injEq, Prod.mk.injEq, GenResult.error.injEq] at h
      obtain ⟨rfl, rfl⟩ := h
      exact ⟨he, rfl⟩
    · split at h
      · simp at h
      · dsimp only at h
        split at h
        · split at h <;> simp at h
        · simp at h

/-- C15, witness: a Safari password with `requirementsGroupingOnly`. -/
theorem validation_failure_draws_nothing_witness :
    isDictionaryFormattedProperly .kSecPasswordTypeSafari (some requirementsGroupingOnly)
        = .malformed .needAllowedCharacters
      ∧ SecPasswordGenerate .kSecPasswordTypeSafari (some requirementsGroupingOnly) rngGrouped24
        = some (.error .needAllowedCharacters, rngGrouped24) :=
  ⟨by decide,
    (validation_failure_draws_nothing .kSecPasswordTypeSafari (some requirementsGroupingOnly)
      rngGrouped24 .needAllowedCharacters).1 (by decide)⟩

/-- C16: for every password type and every requirements dictionary flagged as the default for
the type, whatever its other fields hold, the validation succeeds, the generation parameters
are those of the type with no requirements, and so is all that `SecPasswordGenerate` does. -/
theorem default_flag_gives_default_parameters (type : SecPasswordType)
    (requirements : Requirements) (hflag : isDefaultForType requirements = true) :
    isDictionaryFormattedProperly type (some requirements) = .proper
      ∧ properlyFormattedRequirements type (some requirements)
        = some (passwordGenerateDefaultParametersDictionary type)
      ∧ properlyFormattedRequirements type (some requirements)
        = properlyFormattedRequirements type none
      ∧ ∀ rng, SecPasswordGenerate type (some requirements) rng
          = SecPasswordGenerate type none rng := by
  have h1 : isDictionaryFormattedProperly type (some requirements) = .proper := by
    simp [isDictionaryFormattedProperly, hflag]
  have h2 : properlyFormattedRequirements type (some requirements)
      = some (passwordGenerateDefaultParametersDictionary type) := by
    simp [properlyFormattedRequirements, hflag]
  refine ⟨h1, h2, by rw [h2]; rfl, fun rng => ?_⟩
  have h3 : isDictionaryFormattedProperly type none = .proper := rfl
  have h4 : properlyFormattedRequirements type none
      = some (passwordGenerateDefaultParametersDictionary type) := rfl
  simp only [SecPasswordGenerate, h1, h2, h3, h4]

/-- C16, witness: `requirementsDefaultFlagged`, whose lengths are no numbers, for a Wi-Fi
password. -/
theorem default_flag_gives_default_parameters_witness :
    isDefaultForType requirementsDefaultFlagged = true
      ∧ isDictionaryFormattedProperly .kSecPasswordTypeWifi (some requirementsDefaultFlagged)
        = .proper
      ∧ properlyFormattedRequirements .kSecPasswordTypeWifi (some requirementsDefaultFlagged)
        = some (passwordGenerateDefaultParametersDictionary .kSecPasswordTypeWifi)
      ∧ properlyFormattedRequirements .kSecPasswordTypeWifi (some requirementsDefaultFlagged)
        = properlyFormattedRequirements .kSecPasswordTypeWifi none
      ∧ ∀ rng, SecPasswordGenerate .kSecPasswordTypeWifi (some requirementsDefaultFlagged) rng
          = SecPasswordGenerate .kSecPasswordTypeWifi none rng :=
  ⟨by decide,
    default_flag_gives_default_parameters .kSecPasswordTypeWifi requirementsDefaultFlagged
      (by decide)⟩

/-! ## The default grouping -/

/-- C17, the code at the failing input: for a Safari password
`SecPasswordCopyDefaultPasswordLength` returns 5 as number of groups, while the default
generation parameters of the type carry 6; the group sizes agree, and so do both numbers for
the types iCloud recovery, PIN and Wi-Fi. -/
theorem default_grouping_mismatch :
    SecPasswordCopyDefaultPasswordLength .kSecPasswordTypeSafari = .dictionary 4 5
      ∧ (passwordGenerateDefaultParametersDictionary
          .kSecPasswordTypeSafari).kSecPasswordGroupSize = some (.number 4)
      ∧ (passwordGenerateDefaultParametersDictionary
          .kSecPasswordTypeSafari).kSecPasswordNumberOfGroups = some (.number 6)
      ∧ (passwordGenerateDefaultParametersDictionary
          .kSecPasswordTypeSafari).kSecNumberOfRequiredRandomCharactersKey = 4 * 5
      ∧ ∀ type groupSize numberOfGroups,
          type ≠ .kSecPasswordTypeSafari →
          SecPasswordCopyDefaultPasswordLength type = .dictionary groupSize numberOfGroups →
            (passwordGenerateDefaultParametersDictionary type).kSecPasswordGroupSize
                = some (.number groupSize)
              ∧ (passwordGenerateDefaultParametersDictionary type).kSecPasswordNumberOfGroups
                = some (.number numberOfGroups) := by
  refine ⟨rfl, rfl, rfl, rfl, ?_⟩
  intro type g n htype h
  cases type <;> simp [SecPasswordCopyDefaultPasswordLength] at h htype ⊢ <;>
    obtain ⟨rfl, rfl⟩ := h <;> exact ⟨rfl, rfl⟩

/-! ## The effective length -/

theorem other_proper_mandatory (requirements : Requirements)
    (h : isDictionaryFormattedProperlyOther requirements = .proper) :
    ∃ (allowed : CFString) (minLength maxLength : Int) (sets : List CFCharacterSet),
      requirements.kSecPasswordAllowedCharactersKey = some (.string allowed) ∧ allowed ≠ []
        ∧ requirements.kSecPasswordMinLengthKey = some (.number minLength)
        ∧ requirements.kSecPasswordMaxLengthKey = some (.number maxLength)
        ∧ minLength ≤ maxLength
        ∧ requirements.kSecPasswordRequiredCharactersKey = some (.array sets)
        ∧ sets ≠ [] := by
  unfold isDictionaryFormattedProperlyOther at h
  simp only [require_action_quiet_proper] at h
  obtain ⟨-, -, -, -, -, -, -, -, hs, hmx, hmn, har, hle, hlen, hcount, -⟩ := h
  obtain ⟨allowed, ha⟩ := (isString_iff _).mp hs
  obtain ⟨mx, hmx'⟩ := (isNumber_iff _).mp hmx
  obtain ⟨mn, hmn'⟩ := (isNumber_iff _).mp hmn
  obtain ⟨sets, hsets⟩ := (isArray_iff _).mp har
  rw [ha] at hlen
  rw [hmx', hmn'] at hle
  rw [hsets] at hcount
  refine ⟨allowed, mn, mx, sets, ha, ?_, hmn', hmx', ?_, hsets, ?_⟩
  · intro h; simp [asString, h] at hlen
  · simpa [CFNumberGetValue] using hle
  · intro h; simp [h] at hcount

theorem checkIfPresentTwo_proper_number (ref : CFTypeRef) (e1 e2 : CFError) (rest : Verdict)
    (h : checkIfPresentTwo ref e1 e2 rest = .proper) :
    rest = .proper ∧ (ref = none ∨ ∃ n, ref = some (.number n)) := by
  unfold checkIfPresentTwo at h
  split at h
  · simp only [require_action_quiet_proper] at h
    exact ⟨h.2.2, Or.inr ((isNumber_iff _).mp h.2.1)⟩
  · rename_i hn
    refine ⟨h, Or.inl ?_⟩
    cases ref <;> simp at hn ⊢

theorem pin_proper_numbers (requirements : Requirements)
    (h : isDictionaryFormattedProperlyPIN requirements = .proper) :
    ∃ minLength maxLength : Int,
      requirements.kSecPasswordMinLengthKey = some (.number minLength)
        ∧ requirements.kSecPasswordMaxLengthKey = some (.number maxLength)
        ∧ minLength ≠ 0 ∧ maxLength ≠ 0 ∧ minLength ≤ maxLength
        ∧ (4 ≤ minLength ∨ 4 ≤ maxLength) := by
  unfold isDictionaryFormattedProperlyPIN at h
  obtain ⟨h1, hmax⟩ := checkIfPresentTwo_proper_number _ _ _ _ h
  obtain ⟨h2, hmin⟩ := checkIfPresentTwo_proper_number _ _ _ _ h1
  simp only [require_action_quiet_proper, Bool.and_eq_true, Bool.or_eq_true,
    decide_eq_true_eq] at h2
  obtain ⟨⟨⟨hn0, hx0⟩, hle⟩, h4, -⟩ := h2
  rcases hmin with hmin | ⟨a, hmin⟩
  · rw [hmin] at hn0; simp [CFNumberGetValue] at hn0
  rcases hmax with hmax | ⟨b, hmax⟩
  · rw [hmax] at hx0; simp [CFNumberGetValue] at hx0
  rw [hmin] at hn0 hle h4
  rw [hmax] at hx0 hle h4
  simp only [CFNumberGetValue, Option.getD_some] at hn0 hx0 hle h4
  refine ⟨a, b, hmin, hmax, hn0, hx0, hle, ?_⟩
  rcases h4 with h | h
  · exact Or.inl h.2
  · exact Or.inr h.2

theorem validated_lengths (type : SecPasswordType) (requirements : Requirements)
    (hflag : isDefaultForType requirements = false)
    (hvalid : isDictionaryFormattedProperly type (some requirements) = .proper) :
    ∃ minLength maxLength : Int,
      requirements.kSecPasswordMinLengthKey = some (.number minLength)
        ∧ requirements.kSecPasswordMaxLengthKey = some (.number maxLength)
        ∧ minLength ≤ maxLength
        ∧ (type = .kSecPasswordTypePIN → minLength ≠ 0 ∧ maxLength ≠ 0 ∧ 4 ≤ maxLength)
        ∧ (type ≠ .kSecPasswordTypePIN →
            ∃ allowed sets,
              requirements.kSecPasswordAllowedCharactersKey = some (.string allowed)
                ∧ allowed ≠ []
                ∧ requirements.kSecPasswordRequiredCharactersKey = some (.array sets)
                ∧ sets ≠ []) := by
  unfold isDictionaryFormattedProperly at hvalid
  simp only [hflag, Bool.false_eq_true, if_false] at hvalid
  split at hvalid
  · rename_i hpin
    obtain ⟨a, b, h1, h2, h3, h4, h5, h6⟩ := pin_proper_numbers requirements hvalid
    exact ⟨a, b, h1, h2, h5, fun _ => ⟨h3, h4, by omega⟩, fun h => absurd hpin h⟩
  · rename_i hpin
    obtain ⟨allowed, a, b, sets, h1, h2, h3, h4, h5, h6, h7⟩ :=
      other_proper_mandatory requirements hvalid
    exact ⟨a, b, h3, h4, h5, fun h => absurd h hpin, fun _ => ⟨allowed, sets, h1, h2, h6, h7⟩⟩

theorem validated_parameters (type : SecPasswordType) (requirements : Requirements)
    (hflag : isDefaultForType requirements = false)
    (hvalid : isDictionaryFormattedProperly type (some requirements) = .proper) :
    ∃ (parameters : Parameters) (minLength maxLength : Int),
      properlyFormattedRequirements type (some requirements) = some parameters
        ∧ passwordGenerationParametersDictionary type requirements = some parameters
        ∧ requirements.kSecPasswordMinLengthKey = some (.number minLength)
        ∧ requirements.kSecPasswordMaxLengthKey = some (.number maxLength)
        ∧ parameters.kSecNumberOfRequiredRandomCharactersKey
          = (lengthAndAlphabet type requirements minLength maxLength).1 := by
  obtain ⟨a, b, hmin, hmax, -, -, hother⟩ := validated_lengths type requirements hflag hvalid
  have hdef : ∃ parameters, passwordGenerationParametersDictionary type requirements
      = some parameters := by
    unfold passwordGenerationParametersDictionary
    simp only [hmin, hmax, CFNumberGetValue]
    by_cases hpin : type = .kSecPasswordTypePIN
    · subst hpin
      simp [lengthAndAlphabet, isString, isArray]
    · obtain ⟨allowed, sets, h1, -, h3, -⟩ := hother hpin
      simp [lengthAndAlphabet, hpin, h1, h3, isString, isArray]
  obtain ⟨parameters, hp⟩ := hdef
  obtain ⟨mn, mx, h1, h2, hn, -⟩ :=
    passwordGenerationParametersDictionary_fields type requirements parameters hp
  rw [hmin] at h1
  rw [hmax] at h2
  simp only [CFNumberGetValue, Option.some.injEq] at h1 h2
  subst h1 h2
  exact ⟨parameters, a, b, by simp [properlyFormattedRequirements, hflag, hp], hp, hmin, hmax, hn⟩

/-- C19: for every upper bound, every count and every random source on which
`getUniformRandomNumbers` returns, the output has exactly `count` values and every value is
at least 0 and below the upper bound; the sampler returns for no upper bound but those from
1 on, of which a `uint8_t` holds those up to 255. -/
theorem sampler_output_in_range (count upperBound : Nat) (rng rng' : RandomSource)
    (output : List Nat)
    (hreturned : getUniformRandomNumbers count upperBound rng = some (output, rng')) :
    1 ≤ upperBound ∧ output.length = count
      ∧ ∀ value ∈ output, 0 ≤ value ∧ value < upperBound := by
  obtain ⟨h1, h2⟩ := getUniformRandomNumbers_spec count upperBound rng rng' output hreturned
  refine ⟨?_, h1, fun value hv => ⟨Nat.zero_le _, h2 value hv⟩⟩
  by_contra h0
  have : upperBound = 0 := by omega
  simp [getUniformRandomNumbers, this] at hreturned

/-- C19, witness: three numbers below 55 from a source that discards the byte 230, fails once
and then gives the byte 100. -/
theorem sampler_output_in_range_witness :
    getUniformRandomNumbers 3 55 [some [1, 230, 60], none, some [100]]
        = some ([1, 5, 45], [])
      ∧ (1 ≤ 55 ∧ [1, 5, 45].length = 3 ∧ ∀ value ∈ [1, 5, 45], 0 ≤ value ∧ value < 55) :=
  ⟨by decide!,
    sampler_output_in_range 3 55 [some [1, 230, 60], none, some [100]] [] [1, 5, 45]
      (by decide!)⟩

theorem countP_mod_block (U r : Nat) (hr : r < U) :
    (List.range U).countP (fun b => decide (b % U = r)) = 1 := by
  have h1 : (List.range U).countP (fun b => decide (b % U = r))
      = (List.range U).countP (fun b => b == r) := by
    apply List.countP_congr
    intro x hx
    have hx' : x < U := List.mem_range.mp hx
    simp [Nat.mod_eq_of_lt hx']
  rw [h1]
  have := List.count_eq_one_of_mem (List.nodup_range U) (List.mem_range.mpr hr)
  simpa [List.count] using this

theorem countP_mod_multiple (U r : Nat) (hr : r < U) :
    ∀ k, (List.range (U * k)).countP (fun b => decide (b % U = r)) = k := by
  intro k
  induction k with
  | zero => simp
  | succ j ih =>
    rw [Nat.mul_succ, List.range_add, List.countP_append, ih, List.countP_map]
    have : (List.range U).countP ((fun b => decide (b % U = r)) ∘ fun x => U * j + x)
        = (List.range U).countP (fun b => decide (b % U = r)) := by
      apply List.countP_congr
      intro x _
      simp [Nat.mul_add_mod]
    rw [this, countP_mod_block U r hr]

theorem countP_below_limit (L U r : Nat) (hL : L ≤ 256) :
    (List.range 256).countP (fun b => decide (b < L) && decide (b % U = r))
      = (List.range L).countP (fun b => decide (b % U = r)) := by
  have h256 : 256 = L + (256 - L) := by omega
  rw [h256, List.range_add, List.countP_append, List.countP_map]
  have h1 : (List.range L).countP (fun b => decide (b < L) && decide (b % U = r))
      = (List.range L).countP (fun b => decide (b % U = r)) := by
    apply List.countP_congr
    intro x hx
    have hx' : x < L := List.mem_range.mp hx
    simp [hx']
  have h2 : (List.range (256 - L)).countP
      ((fun b => decide (b < L) && decide (b % U = r)) ∘ fun x => L + x) = 0 := by
    rw [List.countP_eq_zero]
    intro x _
    simp
  rw [h1, h2, Nat.add_zero]

/-- C20: for every upper bound from 1 to 255 the limit `255 - 255 % upperBound` is a positive
multiple of the upper bound, and for every residue below the upper bound the number of byte
values below the limit with this residue is the same, `limit / upperBound`; for the upper
bound 55 the limit is 220 and the inner loop of the sampler discards exactly the bytes from
220 to 255. -/
theorem limit_avoids_modulo_bias (upperBound residue : Nat) (hlow : 1 ≤ upperBound)
    (hhigh : upperBound ≤ 255) (hresidue : residue < upperBound) :
    0 < limitAvoidingModuloBias upperBound
      ∧ upperBound ∣ limitAvoidingModuloBias upperBound
      ∧ limitAvoidingModuloBias upperBound ≤ 255
      ∧ ((List.range 256).filter (fun b =>
            decide (b < limitAvoidingModuloBias upperBound)
              && decide (b % upperBound = residue))).length
          = limitAvoidingModuloBias upperBound / upperBound
      ∧ limitAvoidingModuloBias 55 = 220
      ∧ ∀ b, b < 256 → ((acceptLoop (limitAvoidingModuloBias 55) 55 1 [b] 0 0).2 = 0 ↔ 220 ≤ b) := by
  have hmod : 255 % upperBound < upperBound := Nat.mod_lt _ (by omega)
  have hmul : limitAvoidingModuloBias upperBound = upperBound * (255 / upperBound) := by
    unfold limitAvoidingModuloBias
    have := Nat.div_add_mod 255 upperBound
    omega
  refine ⟨?_, ?_, ?_, ?_, rfl, ?_⟩
  · unfold limitAvoidingModuloBias; omega
  · rw [hmul]; exact Nat.dvd_mul_right _ _
  · unfold limitAvoidingModuloBias; omega
  · rw [← List.countP_eq_length_filter,
      countP_below_limit _ _ _ (by unfold limitAvoidingModuloBias; omega), hmul,
      countP_mod_multiple upperBound residue hresidue,
      Nat.mul_div_cancel_left _ (by omega : 0 < upperBound)]
  · intro b _
    have h220 : limitAvoidingModuloBias 55 = 220 := rfl
    rw [h220]
    by_cases hb : b < 220
    · simp [acceptLoop, hb]
    · simp [acceptLoop, hb]
      omega

/-- C20, witness: the upper bound 55 and the residue 7, with 4 bytes below the limit. -/
theorem limit_avoids_modulo_bias_witness :
    1 ≤ 55 ∧ 55 ≤ 255 ∧ 7 < 55
      ∧ (0 < limitAvoidingModuloBias 55
        ∧ 55 ∣ limitAvoidingModuloBias 55
        ∧ limitAvoidingModuloBias 55 ≤ 255
        ∧ ((List.range 256).filter (fun b =>
              decide (b < limitAvoidingModuloBias 55) && decide (b % 55 = 7))).length
            = limitAvoidingModuloBias 55 / 55
        ∧ limitAvoidingModuloBias 55 = 220
        ∧ ∀ b, b < 256 →
            ((acceptLoop (limitAvoidingModuloBias 55) 55 1 [b] 0 0).2 = 0 ↔ 220 ≤ b)) :=
  ⟨by decide, by decide, by decide,
    limit_avoids_modulo_bias 55 7 (by decide) (by decide) (by decide)⟩


/-! ## The predicate on identical consecutive characters, both directions -/

theorem replicate_infix_of_length_four (c k a0 a1 a2 a3 : Nat)
    (h : List.replicate k c <:+: [a0, a1, a2, a3]) (hk : 4 ≤ k) :
    a0 = c ∧ a1 = c ∧ a2 = c ∧ a3 = c := by
  have hlen := h.length_le
  simp only [List.length_replicate, List.length_cons, List.length_nil] at hlen
  have hk4 : k = 4 := by omega
  subst hk4
  obtain ⟨s, t, hst⟩ := h
  have hl := congrArg List.length hst
  simp only [List.length_append, List.length_replicate, List.length_cons, List.length_nil] at hl
  have hs : s = [] := List.eq_nil_of_length_eq_zero (by omega)
  have ht : t = [] := List.eq_nil_of_length_eq_zero (by omega)
  subst hs ht
  simp [List.replicate] at hst
  obtain ⟨h0, h1, h2, h3⟩ := hst
  exact ⟨h0.symm, h1.symm, h2.symm, h3.symm⟩

/-- C21, the code at the failing inputs: `passwordContainsLessThanNIdenticalCharacters` is
false on `baaa` with the bound 3, although `baaa` has no run of more than 3 identical
characters, and true on `a` with the bound 0, although `a` is a run of 1 character. -/
theorem identical_predicate_not_exact :
    passwordContainsLessThanNIdenticalCharacters (CFSTR "baaa") 3 = false
      ∧ (∀ c k, List.replicate k c <:+: CFSTR "baaa" → (k : Int) ≤ 3)
      ∧ passwordContainsLessThanNIdenticalCharacters (CFSTR "a") 0 = true
      ∧ List.replicate 1 97 <:+: CFSTR "a" := by
  refine ⟨by decide!, ?_, by decide!, ?_⟩
  · intro c k h
    by_contra hk
    have hk4 : 4 ≤ k := by omega
    have e : CFSTR "baaa" = [98, 97, 97, 97] := by decide!
    rw [e] at h
    obtain ⟨h0, h1, -, -⟩ := replicate_infix_of_length_four c k 98 97 97 97 h hk4
    omega
  · have e : CFSTR "a" = [97] := by decide!
    rw [e]
    exact List.infix_refl _

/-- C29: for every string and every bound of at least 1, when
`passwordContainsLessThanNIdenticalCharacters` is true the string has no run of more than
`N` identical consecutive characters. -/
theorem identical_predicate_sound (p : CFString) (N : Int) (hN : 1 ≤ N)
    (h : passwordContainsLessThanNIdenticalCharacters p N = true) :
    ∀ c k, List.replicate k c <:+: p → (k : Int) ≤ N :=
  identicalOuterLoop_sound N p 0 (le_refl 0) h (Or.inr hN)

/-- C29, witness: the string `aabba` with the bound 2. -/
theorem identical_predicate_sound_witness :
    (1 : Int) ≤ 2 ∧ passwordContainsLessThanNIdenticalCharacters (CFSTR "aabba") 2 = true
      ∧ ∀ c k, List.replicate k c <:+: CFSTR "aabba" → (k : Int) ≤ 2 :=
  ⟨by decide, by decide!, identical_predicate_sound (CFSTR "aabba") 2 (by decide) (by decide!)⟩

/-! ## The perfect hash of the PIN word list -/

theorem wordlist_slots :
    ∀ w ∈ wordlist, w ≠ [] →
      wordlist.getD (pinhash w 4) [] = w ∧ MIN_HASH_VALUE ≤ pinhash w 4
        ∧ pinhash w 4 ≤ MAX_HASH_VALUE := by
  decide!

/-- C22: for every string of four decimal digits `in_word_set` returns an entry exactly when
the string is one of the 100 filled entries of `wordlist`, and then returns the string; every
filled entry sits at the index that `pinhash` gives it, which lies between 21 and 275, and a
string of four digits that the table holds at the slot of its hash is such an entry. -/
theorem in_word_set_exact (s : CFString) (hlen : s.length = 4)
    (hdigits : ∀ c ∈ s, isDecimalDigit c = true) :
    ((in_word_set s 4).isSome = true ↔ s ∈ wordlist.filter (fun w => !w.isEmpty))
      ∧ (∀ entry, in_word_set s 4 = some entry → entry = s)
      ∧ (wordlist.filter (fun w => !w.isEmpty)).length = TOTAL_KEYWORDS
      ∧ (∀ w ∈ wordlist.filter (fun w => !w.isEmpty),
          wordlist.getD (pinhash w 4) [] = w ∧ MIN_HASH_VALUE ≤ pinhash w 4
            ∧ pinhash w 4 ≤ MAX_HASH_VALUE)
      ∧ (wordlist.getD (pinhash s 4) [] = s → s ∈ wordlist.filter (fun w => !w.isEmpty)) := by
  have hne : s ≠ [] := by
    intro h; rw [h] at hlen; simp at hlen
  have h0 : s.getD 0 0 ≠ 0 := by
    cases s with
    | nil => exact absurd rfl hne
    | cons a t =>
      have := (isDecimalDigit_iff a).mp (hdigits a (by simp))
      simp only [List.getD_cons_zero]
      omega
  have hmem : ∀ w : CFString, w ∈ wordlist.filter (fun w => !w.isEmpty) ↔ w ∈ wordlist ∧ w ≠ [] := by
    intro w
    simp [List.mem_filter]
  refine ⟨?_, ?_, by decide!, ?_, ?_⟩
  · rw [hmem]; exact in_word_set_isSome_iff s h0
  · intro entry he
    have hsome : (in_word_set s 4).isSome = true := by rw [he]; rfl
    obtain ⟨hm, -⟩ := (in_word_set_isSome_iff s h0).mp hsome
    have hslot := (wordlist_slots s hm hne).1
    have h21 := (wordlist_slots s hm hne).2.2
    unfold in_word_set at he
    simp only [MAX_WORD_LENGTH, MIN_WORD_LENGTH] at he
    rw [if_pos (by omega), if_pos h21, hslot] at he
    simp at he
    exact he.symm
  · intro w hw
    obtain ⟨h1, h2⟩ := (hmem w).mp hw
    exact wordlist_slots w h1 h2
  · intro h
    rw [hmem]
    refine ⟨?_, hne⟩
    have := getD_mem_of_ne wordlist (pinhash s 4) [] (by rw [h]; exact hne)
    rwa [h] at this

/-- C22, witness: the string `1979`, an entry of the word list. -/
theorem in_word_set_exact_witness :
    (CFSTR "1979").length = 4 ∧ (∀ c ∈ CFSTR "1979", isDecimalDigit c = true)
      ∧ in_word_set (CFSTR "1979") 4 = some (CFSTR "1979")
      ∧ (((in_word_set (CFSTR "1979") 4).isSome = true
            ↔ CFSTR "1979" ∈ wordlist.filter (fun w => !w.isEmpty))
        ∧ (∀ entry, in_word_set (CFSTR "1979") 4 = some entry → entry = CFSTR "1979")
        ∧ (wordlist.filter (fun w => !w.isEmpty)).length = TOTAL_KEYWORDS
        ∧ (∀ w ∈ wordlist.filter (fun w => !w.isEmpty),
            wordlist.getD (pinhash w 4) [] = w ∧ MIN_HASH_VALUE ≤ pinhash w 4
              ∧ pinhash w 4 ≤ MAX_HASH_VALUE)
        ∧ (wordlist.getD (pinhash (CFSTR "1979") 4) [] = CFSTR "1979"
            → CFSTR "1979" ∈ wordlist.filter (fun w => !w.isEmpty))) :=
  ⟨by decide, by decide, by decide!, in_word_set_exact (CFSTR "1979") (by decide) (by decide)⟩

/-! ## Candidates of fewer than four characters -/

theorem doesFinalPasswordPass_length (password : CFString) (parameters : Parameters)
    (h : doesFinalPasswordPass password parameters = some true) : 4 ≤ password.length :=
  weak_of_short password (doesFinalPasswordPass_sound password parameters h).notWeak

theorem generateLoop_short (parameters : Parameters) (n groupSize : Int) (hn : n < 4)
    (hgroups : (parameters.kSecPasswordNumberOfGroups.isSome
      && parameters.kSecPasswordGroupSize.isSome) = false) :
    ∀ (fuel : Nat) (rng : RandomSource),
      generateLoop parameters n groupSize fuel rng = none := by
  intro fuel
  induction fuel with
  | zero => intro rng; rfl
  | succ f ih =>
    intro rng
    unfold generateLoop
    split
    · rfl
    · rename_i raw rng1 hraw
      have hlen := (getPasswordRandomCharacters_spec _ _ _ _ _ _ hraw).2.1
      have hfmt : formatPassword raw parameters n groupSize = some raw := by
        simp [formatPassword, hgroups]
      rw [hfmt]
      dsimp only
      split
      · rfl
      · rename_i hpass
        have := doesFinalPasswordPass_length raw parameters hpass
        omega
      · exact ih rng1

/-- C30: every string `doesFinalPasswordPass` accepts has at least 4 characters, and so has
every password `SecPasswordGenerate` returns; with a number of random characters below 4
and without the two grouping keys the loop of `SecPasswordGenerate` returns for no random
source, as for the validated Safari requirements with `minLength = maxLength = 3`. -/
theorem accepted_passwords_have_four_characters :
    (∀ password parameters,
        doesFinalPasswordPass password parameters = some true → 4 ≤ password.length)
      ∧ (∀ type passwordRequirements rng rng' password,
          SecPasswordGenerate type passwordRequirements rng = some (.password password, rng') →
            4 ≤ password.length)
      ∧ (∀ (parameters : Parameters) (n groupSize : Int) (fuel : Nat) (rng : RandomSource),
          n < 4 →
          (parameters.kSecPasswordNumberOfGroups = none
            ∨ parameters.kSecPasswordGroupSize = none) →
          generateLoop parameters n groupSize fuel rng = none)
      ∧ isDictionaryFormattedProperly .kSecPasswordTypeSafari (some requirementsMin3Max3)
          = .proper
      ∧ (∃ parameters,
          properlyFormattedRequirements .kSecPasswordTypeSafari (some requirementsMin3Max3)
              = some parameters
            ∧ parameters.kSecNumberOfRequiredRandomCharactersKey = 3)
      ∧ ∀ rng, SecPasswordGenerate .kSecPasswordTypeSafari (some requirementsMin3Max3) rng
          = none := by
  refine ⟨doesFinalPasswordPass_length, ?_, ?_, by decide!, ⟨_, rfl, by decide!⟩, ?_⟩
  · intro type req rng rng' password h
    obtain ⟨parameters, g, -, -, -, hloop⟩ := SecPasswordGenerate_returns _ _ _ _ _ h
    obtain ⟨raw, rng0, rng1, -, -, hpass⟩ := generateLoop_returns _ _ _ _ _ _ _ hloop
    exact doesFinalPasswordPass_length password parameters hpass
  · intro parameters n g fuel rng hn hg
    apply generateLoop_short parameters n g hn
    rcases hg with hg | hg <;> simp [hg]
  · intro rng
    have hv : isDictionaryFormattedProperly .kSecPasswordTypeSafari (some requirementsMin3Max3)
        = .proper := by decide!
    have hp : ∃ parameters,
        properlyFormattedRequirements .kSecPasswordTypeSafari (some requirementsMin3Max3)
            = some parameters
          ∧ parameters.kSecNumberOfRequiredRandomCharactersKey = 3
          ∧ parameters.kSecPasswordNumberOfGroups = none
          ∧ parameters.kSecPasswordGroupSize = none := ⟨_, rfl, by decide!, rfl, rfl⟩
    obtain ⟨parameters, hp, hn, hng, hgs⟩ := hp
    unfold SecPasswordGenerate
    rw [hv]
    dsimp only
    rw [hp]
    dsimp only
    rw [hng, hgs]
    simp only [readGroupNumber]
    rw [generateLoop_short parameters _ 0 (by rw [hn]; decide) (by simp [hng])]

/-! ## The dash in the alphabet -/

/-- C23, the code at the failing input: the validated requirements `requirementsDashAlphabet`,
whose alphabet `ab-` contains the dash, get generation parameters in the default format with
the dash still in the alphabet, and a password generated from them has dashes drawn from
the alphabet; for `requirementsMandatoryOnly`, whose alphabet has no dash, the default
format is switched off. -/
theorem dash_alphabet_keeps_default_format :
    isDictionaryFormattedProperly .kSecPasswordTypeSafari (some requirementsDashAlphabet)
        = .proper
      ∧ isDefaultForType requirementsDashAlphabet = false
      ∧ requirementsDashAlphabet.kSecPasswordAllowedCharactersKey
          = some (.string (CFSTR "ab-"))
      ∧ (∃ parameters,
          passwordGenerationParametersDictionary .kSecPasswordTypeSafari
              requirementsDashAlphabet = some parameters
            ∧ parameters.kSecUseDefaultPasswordFormatKey = true
            ∧ parameters.kSecAllowedCharactersKey = CFSTR "ab-"
            ∧ 45 ∈ parameters.kSecAllowedCharactersKey)
      ∧ SecPasswordGenerate .kSecPasswordTypeSafari (some requirementsDashAlphabet)
          [some ((List.range 20).map (fun i => i * 7))]
          = some (.password (CFSTR "ab-ab-ab-ab-ab-ab-ab"), [])
      ∧ (∃ parameters,
          passwordGenerationParametersDictionary .kSecPasswordTypeSafari
              requirementsMandatoryOnly = some parameters
            ∧ parameters.kSecUseDefaultPasswordFormatKey = false) :=
  ⟨by decide!, by decide!, rfl, ⟨_, rfl, by decide!, by decide!, by decide!⟩, by decide!,
    ⟨_, rfl, by decide!⟩⟩

/-! ## The upper bound handed to the sampler -/

theorem getPasswordRandomCharacters_zero_bound (prohibited : CFTypeRef) (n : Int)
    (allowed : CFString) (rng : RandomSource) (h : allowed.length % 256 = 0) :
    getPasswordRandomCharacters prohibited n allowed rng = none := by
  unfold getPasswordRandomCharacters
  split_ifs
  · rfl
  · rfl
  · simp [getUniformRandomNumbers, h]

theorem generateLoop_zero_bound (parameters : Parameters) (n groupSize : Int)
    (h : parameters.kSecAllowedCharactersKey.length % 256 = 0) (fuel : Nat)
    (rng : RandomSource) : generateLoop parameters n groupSize fuel rng = none := by
  cases fuel with
  | zero => rfl
  | succ f =>
    unfold generateLoop
    rw [getPasswordRandomCharacters_zero_bound _ _ _ _ h]

theorem SecPasswordGenerate_zero_bound (type : SecPasswordType) (requirements : Requirements)
    (parameters : Parameters)
    (hp : properlyFormattedRequirements type (some requirements) = some parameters)
    (h : parameters.kSecAllowedCharactersKey.length % 256 = 0) (rng : RandomSource)
    (password : CFString) (rng' : RandomSource) :
    SecPasswordGenerate type (some requirements) rng ≠ some (.password password, rng') := by
  intro hgen
  obtain ⟨parameters', g, -, hp', -, hloop⟩ := SecPasswordGenerate_returns _ _ _ _ _ hgen
  rw [hp] at hp'
  simp only [Option.some.injEq] at hp'
  subst hp'
  rw [generateLoop_zero_bound parameters _ _ h] at hloop
  simp at hloop

/-- C24, the code at the failing inputs: the validated requirements `requirementsDashOnly`,
whose alphabet `-` is empty once the dash is stripped, and `requirements256Characters`, whose
alphabet has 256 characters, both give the sampler the 8-bit upper bound 0; the sampler and
`getPasswordRandomCharacters` have then no defined result, for any random source. -/
theorem sampler_upper_bound_zero :
    isDictionaryFormattedProperly .kSecPasswordTypeSafari (some requirementsDashOnly) = .proper
      ∧ (∃ parameters,
          properlyFormattedRequirements .kSecPasswordTypeSafari (some requirementsDashOnly)
              = some parameters
            ∧ parameters.kSecAllowedCharactersKey = []
            ∧ parameters.kSecAllowedCharactersKey.length % 256 = 0
            ∧ ∀ rng, getPasswordRandomCharacters parameters.kSecPasswordDisallowedCharacters
                parameters.kSecNumberOfRequiredRandomCharactersKey
                parameters.kSecAllowedCharactersKey rng = none)
      ∧ isDictionaryFormattedProperly .kSecPasswordTypeSafari (some requirements256Characters)
          = .proper
      ∧ (∃ parameters,
          properlyFormattedRequirements .kSecPasswordTypeSafari (some requirements256Characters)
              = some parameters
            ∧ parameters.kSecAllowedCharactersKey.length = 256
            ∧ parameters.kSecAllowedCharactersKey.length % 256 = 0
            ∧ ∀ rng, getPasswordRandomCharacters parameters.kSecPasswordDisallowedCharacters
                parameters.kSecNumberOfRequiredRandomCharactersKey
                parameters.kSecAllowedCharactersKey rng = none)
      ∧ (∀ upperBound count rng, upperBound % 256 = 0 →
          getUniformRandomNumbers count (upperBound % 256) rng = none)
      ∧ (∀ rng password rng',
          SecPasswordGenerate .kSecPasswordTypeSafari (some requirementsDashOnly) rng
              ≠ some (.password password, rng')
            ∧ SecPasswordGenerate .kSecPasswordTypeSafari (some requirements256Characters) rng
              ≠ some (.password password, rng')) := by
  have h1 : (∃ parameters,
      properlyFormattedRequirements .kSecPasswordTypeSafari (some requirementsDashOnly)
          = some parameters
        ∧ parameters.kSecAllowedCharactersKey = []
        ∧ parameters.kSecAllowedCharactersKey.length % 256 = 0) :=
    ⟨_, rfl, by decide!, by decide!⟩
  have h2 : (∃ parameters,
      properlyFormattedRequirements .kSecPasswordTypeSafari (some requirements256Characters)
          = some parameters
        ∧ parameters.kSecAllowedCharactersKey.length = 256
        ∧ parameters.kSecAllowedCharactersKey.length % 256 = 0) :=
    ⟨_, rfl, by decide!, by decide!⟩
  obtain ⟨p1, hp1, he1, hz1⟩ := h1
  obtain ⟨p2, hp2, he2, hz2⟩ := h2
  refine ⟨by decide!, ⟨p1, hp1, he1, hz1, fun rng =>
      getPasswordRandomCharacters_zero_bound _ _ _ rng hz1⟩, by decide!,
    ⟨p2, hp2, he2, hz2, fun rng => getPasswordRandomCharacters_zero_bound _ _ _ rng hz2⟩,
    ?_, fun rng password rng' =>
      ⟨SecPasswordGenerate_zero_bound _ _ p1 hp1 hz1 rng password rng',
        SecPasswordGenerate_zero_bound _ _ p2 hp2 hz2 rng password rng'⟩⟩
  intro U count rng hU
  simp [getUniformRandomNumbers, hU]

/-! ## The random characters and the wide alphabet -/

/-- C28, the code at the failing input: over the alphabet of the one character U+0141, with
the disallowed string `A`, `getPasswordRandomCharacters` returns `AAAA`, four characters that
are not in the alphabet and are in the disallowed string; over the alphabet of the two
characters U+00C3 and U+00A9 it returns for the length 2 the one character U+00E9, which is
not in the alphabet. Over an alphabet of ASCII characters every string it returns has the
length asked for, is made of characters of the alphabet and has no character of the
disallowed string. -/
theorem random_characters_wide_alphabet :
    getPasswordRandomCharacters (some (.string (CFSTR "A"))) 4 [321] [some [0, 0, 0, 0]]
        = some (CFSTR "AAAA", [])
      ∧ (∀ c ∈ CFSTR "AAAA", c ∉ [321] ∧ c ∈ CFSTR "A")
      ∧ passwordDoesNotContainCharacters [321] (CFSTR "A") = true
      ∧ passwordDoesNotContainCharacters (CFSTR "AAAA") (CFSTR "A") = false
      ∧ getPasswordRandomCharacters none 2 [195, 169] [some [0, 1]] = some ([233], [])
      ∧ (∀ (prohibited : CFTypeRef) (n : Int) (allowed : CFString) (rng rng' : RandomSource)
          (raw : CFString),
          (∀ a ∈ allowed, a < 128) →
          getPasswordRandomCharacters prohibited n allowed rng = some (raw, rng') →
          (raw.length : Int) = n
            ∧ ∀ c ∈ raw, c ∈ allowed ∧ ∀ p, prohibited = some (.string p) → c ∉ p) := by
  refine ⟨by decide!, by decide!, by decide!, by decide!, by decide!, ?_⟩
  intro prohibited n allowed rng rng' raw h7 h
  obtain ⟨-, -, hasc⟩ := getPasswordRandomCharacters_spec _ _ _ _ _ _ h
  obtain ⟨hlen, hmem⟩ := hasc h7
  refine ⟨hlen, fun c hc => ?_⟩
  obtain ⟨-, a, ha, rfl, hp⟩ := hmem c hc
  rw [Nat.mod_eq_of_lt (by have := h7 a ha; omega)]
  exact ⟨ha, hp⟩

/-! ## The sampler as a filter of the byte stream -/

theorem emittedIndices_append (U : Nat) (a b : List Nat) :
    emittedIndices U (a ++ b) = emittedIndices U a ++ emittedIndices U b := by
  simp [emittedIndices]

theorem emittedIndices_length (U : Nat) (a : List Nat) :
    (emittedIndices U a).length
      = (a.filter (fun b => decide (b < limitAvoidingModuloBias U))).length := by
  simp [emittedIndices]

theorem SecRandomCopyBytes_some (count : Nat) (rng rng1 : RandomSource) (bytes : List Nat)
    (h : SecRandomCopyBytes count rng = some (some bytes, rng1)) :
    ∃ raw, rng = some raw :: rng1 ∧ raw.length = count ∧ bytes = raw.map (fun b => b % 256) := by
  unfold SecRandomCopyBytes at h
  split at h
  · simp at h
  · simp at h
  · rename_i raw rest
    split at h
    · rename_i hl
      simp only [Option.some.injEq, Prod.mk.injEq] at h
      exact ⟨raw, by rw [h.2], hl, h.1.symm⟩
    · simp at h

theorem SecRandomCopyBytes_none (count : Nat) (rng rng1 : RandomSource)
    (h : SecRandomCopyBytes count rng = some (none, rng1)) : rng = none :: rng1 := by
  unfold SecRandomCopyBytes at h
  split at h
  · simp at h
  · simp only [Option.some.injEq, Prod.mk.injEq, true_and] at h
    rw [h]
  · split at h <;> simp at h

theorem getUniformRandomNumbersLoop_stream (U D : Nat) :
    ∀ (fuel : Nat) (buffer : List Nat) (acc : Nat) (rng : RandomSource) (out : List Nat)
      (rng' : RandomSource),
      buffer.length = D → acc ≤ D →
      getUniformRandomNumbersLoop (limitAvoidingModuloBias U) U D fuel buffer acc rng
        = some (out, rng') →
      ∃ fills, rng = fills ++ rng'
        ∧ out = buffer.take acc ++ emittedIndices U (filledBytes fills)
        ∧ requestsMatch U D acc fills := by
  intro fuel
  induction fuel with
  | zero =>
    intro buffer acc rng out rng' hlen hacc h
    unfold getUniformRandomNumbersLoop at h
    split at h
    · simp at h
    · simp only [Option.some.injEq, Prod.mk.injEq] at h
      obtain ⟨rfl, rfl⟩ := h
      have : acc = buffer.length := by omega
      refine ⟨[], by simp, ?_, trivial⟩
      rw [this, List.take_length]
      simp [filledBytes, emittedIndices]
  | succ f ih =>
    intro buffer acc rng out rng' hlen hacc h
    unfold getUniformRandomNumbersLoop at h
    split at h
    · rename_i hlt
      split at h
      · simp at h
      · rename_i rng1 hcopy
        have hrng := SecRandomCopyBytes_none _ _ _ hcopy
        obtain ⟨fills, h1, h2, h3⟩ := ih buffer acc rng1 out rng' hlen hacc h
        refine ⟨none :: fills, by rw [hrng, h1]; rfl, ?_, ?_⟩
        · simpa [filledBytes] using h2
        · simpa [requestsMatch] using h3
      · rename_i bytes rng1 hcopy
        obtain ⟨raw, hrng, hraw, hbytes⟩ := SecRandomCopyBytes_some _ _ _ _ hcopy
        have hbl : bytes.length = D - acc := by rw [hbytes]; simpa using hraw
        have hfl : (buffer.take acc ++ bytes).length = D := by
          simp [hbl, List.length_take]; omega
        have htl : (buffer.take acc).length = acc := by
          simp [List.length_take]; omega
        obtain ⟨e1, e2, e3⟩ := acceptLoop_spec (limitAvoidingModuloBias U) U (D - acc)
          (buffer.take acc ++ bytes) acc acc (le_refl _) (by rw [hfl]; omega)
        have hdrop : (buffer.take acc ++ bytes).drop acc = bytes := by
          rw [List.drop_append_of_le_length (by omega)]
          rw [List.drop_eq_nil_of_le (by omega)]
          rfl
        have htake : (buffer.take acc ++ bytes).take acc = buffer.take acc := by
          rw [List.take_append_of_le_length (by omega)]
          simp
        rw [hdrop] at e2 e3
        rw [htake] at e3
        have hle : (acceptLoop (limitAvoidingModuloBias U) U (D - acc)
            (buffer.take acc ++ bytes) acc acc).2 ≤ D := by
          rw [e2]
          have := List.length_filter_le (fun b => decide (b < limitAvoidingModuloBias U)) bytes
          omega
        obtain ⟨fills, h1, h2, h3⟩ := ih _ _ rng1 out rng' (by rw [e1, hfl]) hle h
        refine ⟨some raw :: fills, by rw [hrng, h1]; rfl, ?_, ?_⟩
        · rw [h2, e3]
          simp only [filledBytes, emittedIndices_append, ← hbytes]
          simp [emittedIndices]
        · simp only [requestsMatch]
          refine ⟨hraw, ?_⟩
          rw [← hbytes, emittedIndices_length, ← e2]
          exact h3
    · simp only [Option.some.injEq, Prod.mk.injEq] at h
      obtain ⟨rfl, rfl⟩ := h
      have : acc = buffer.length := by omega
      refine ⟨[], by simp, ?_, trivial⟩
      rw [this, List.take_length]
      simp [filledBytes, emittedIndices]

/-- C25: when `getUniformRandomNumbers` returns, the answers of the random source it has
taken are a first part `fills` of the source, the numbers returned are exactly
`b % upperBound` for the bytes `b < limitAvoidingModuloBias` of the successful fills, in
the order of the stream, every successful fill was asked for `count` minus the number
accepted so far bytes, and a failed fill adds nothing. -/
theorem sampler_output_stream (count upperBound : Nat) (rng rng' : RandomSource)
    (out : List Nat)
    (h : getUniformRandomNumbers count upperBound rng = some (out, rng')) :
    ∃ fills, rng = fills ++ rng'
      ∧ out = emittedIndices upperBound (filledBytes fills)
      ∧ out = ((filledBytes fills).filter
          (fun b => decide (b < limitAvoidingModuloBias upperBound))).map
            (fun b => b % upperBound)
      ∧ requestsMatch upperBound count 0 fills
      ∧ 1 ≤ upperBound := by
  unfold getUniformRandomNumbers at h
  split at h
  · simp at h
  · rename_i hU
    obtain ⟨fills, h1, h2, h3⟩ := getUniformRandomNumbersLoop_stream upperBound count _ _ 0
      rng out rng' (by simp) (Nat.zero_le _) h
    rw [List.take_zero, List.nil_append] at h2
    exact ⟨fills, h1, h2, h2, h3, by omega⟩

/-- C25, witness: 3 numbers below 55 from a source whose first fill fails, whose second
fill has the byte 250, which is not below the limit 220, and whose third fill is the one
byte still asked for. -/
theorem sampler_output_stream_witness :
    getUniformRandomNumbers 3 55 [none, some [10, 250, 60], some [7], some [9, 9]]
        = some ([10, 5, 7], [some [9, 9]])
      ∧ ∃ fills, [none, some [10, 250, 60], some [7], some [9, 9]] = fills ++ [some [9, 9]]
        ∧ [10, 5, 7] = emittedIndices 55 (filledBytes fills)
        ∧ [10, 5, 7] = ((filledBytes fills).filter
            (fun b => decide (b < limitAvoidingModuloBias 55))).map (fun b => b % 55)
        ∧ requestsMatch 55 3 0 fills
        ∧ 1 ≤ 55 :=
  ⟨by decide!, sampler_output_stream 3 55 _ _ _ (by decide!)⟩

/-! ## The formatting step as a function of the raw string -/

theorem groupLoop_total (raw separator : CFString) (G : Nat) (hG : 1 ≤ G) :
    ∀ (fuel k : Nat) (acc : CFString), k ≤ raw.length → raw.length - k < fuel →
      ∃ p, groupLoop raw separator (G : Int) (raw.length : Int) fuel (k : Int) acc = some p := by
  intro fuel
  induction fuel with
  | zero => intro k acc _ hf; omega
  | succ f ih =>
    intro k acc hk hf
    unfold groupLoop
    by_cases hend : (k : Int) ≠ (raw.length : Int)
    · rw [if_pos hend]
      have hkl : k < raw.length := by omega
      by_cases h1 : (k : Int) + (G : Int) < (raw.length : Int)
      · rw [if_pos h1, CFStringCreateWithSubstring_nat raw k G (by omega)]
        have e : (k : Int) + (G : Int) = ((k + G : Nat) : Int) := by push_cast; rfl
        rw [e]
        exact ih (k + G) _ (by omega) (by omega)
      · rw [if_neg h1]
        by_cases h2 : (k : Int) + (G : Int) = (raw.length : Int)
        · rw [if_pos h2, CFStringCreateWithSubstring_nat raw k G (by omega)]
          have e : (k : Int) + (G : Int) = ((k + G : Nat) : Int) := by push_cast; rfl
          rw [e]
          exact ih (k + G) _ (by omega) (by omega)
        · rw [if_neg h2]
          have e1 : (raw.length : Int) - (k : Int) = ((raw.length - k : Nat) : Int) := by omega
          rw [e1, CFStringCreateWithSubstring_nat raw k (raw.length - k) (by omega)]
          have e2 : (k : Int) + ((raw.length - k : Nat) : Int) = ((raw.length : Nat) : Int) := by
            omega
          rw [e2]
          exact ih raw.length _ (le_refl _) (by omega)
    · rw [if_neg hend]
      exact ⟨acc, rfl⟩

theorem groupsOf_length (G : Nat) (hG : 1 ≤ G) :
    ∀ (fuel : Nat) (raw : CFString), raw.length ≤ fuel →
      (groupsOf G fuel raw).length = (raw.length + G - 1) / G := by
  intro fuel
  induction fuel with
  | zero =>
    intro raw h
    have : raw = [] := List.eq_nil_of_length_eq_zero (by omega)
    subst this
    simp only [groupsOf, List.length_nil, Nat.zero_add]
    exact (Nat.div_eq_of_lt (by omega)).symm
  | succ f ih =>
    intro raw h
    unfold groupsOf
    split
    · rename_i h0
      subst h0
      simp only [List.length_nil, Nat.zero_add]
      exact (Nat.div_eq_of_lt (by omega)).symm
    · rename_i hne
      have hpos : 0 < raw.length := List.length_pos.mpr hne
      rw [List.length_cons, ih (raw.drop G) (by simp; omega), List.length_drop]
      by_cases hle : G ≤ raw.length
      · have e : raw.length + G - 1 = (raw.length - G + G - 1) + G := by omega
        rw [e, Nat.add_div_right _ (by omega)]
      · have e1 : raw.length - G + G - 1 = G - 1 := by omega
        rw [e1, Nat.div_eq_of_lt (by omega)]
        have e2 : raw.length + G - 1 = (raw.length - 1) + G := by omega
        rw [e2, Nat.add_div_right _ (by omega), Nat.div_eq_of_lt (by omega)]

theorem groupsOf_getD (G : Nat) :
    ∀ (fuel : Nat) (raw : CFString) (i : Nat), i < (groupsOf G fuel raw).length →
      (groupsOf G fuel raw).getD i [] = (raw.drop (i * G)).take G := by
  intro fuel
  induction fuel with
  | zero => intro raw i h; simp [groupsOf] at h
  | succ f ih =>
    intro raw i h
    unfold groupsOf at h ⊢
    split at h
    · simp at h
    · rename_i hne
      rw [if_neg hne]
      cases i with
      | zero => simp
      | succ j =>
        simp only [List.length_cons, Nat.add_lt_add_iff_right] at h
        rw [List.getD_cons_succ, ih (raw.drop G) j h, List.drop_drop]
        congr 2
        ring

theorem joinWith_length_flatten (separator : CFString) (groups : List CFString) :
    (joinWith separator groups).length
      = groups.flatten.length + (groups.length - 1) * separator.length := by
  induction groups with
  | nil => simp [joinWith]
  | cons group rest ih =>
    cases rest with
    | nil => simp [joinWith]
    | cons next rest' =>
      rw [joinWith_cons_cons, List.length_append, List.length_append, ih]
      simp only [List.flatten_cons, List.length_append, List.length_cons, Nat.add_sub_cancel]
      ring

theorem joinWith_head_prefix (separator : CFString) (groups : List CFString) :
    groups.getD 0 [] <+: joinWith separator groups := by
  cases groups with
  | nil => simp [joinWith]
  | cons group rest =>
    cases rest with
    | nil => simp [joinWith]
    | cons next rest' =>
      rw [joinWith_cons_cons, List.getD_cons_zero, List.append_assoc]
      exact List.prefix_append _ _

theorem joinWith_last_suffix (separator : CFString) (groups : List CFString) :
    groups.getD (groups.length - 1) [] <:+ joinWith separator groups := by
  induction groups with
  | nil => simp [joinWith]
  | cons group rest ih =>
    cases rest with
    | nil => simp [joinWith]
    | cons next rest' =>
      rw [joinWith_cons_cons]
      have e : (group :: next :: rest').getD ((group :: next :: rest').length - 1) []
          = (next :: rest').getD ((next :: rest').length - 1) [] := by
        simp
      rw [e]
      exact ih.trans (List.suffix_append _ _)

/-- C26: for a raw string of at least one character and a group size of at least one, with
both grouping keys in the parameters the formatting step returns the chunks of the raw
string joined by the separator, which is `-` when the parameters have none: the chunk `i`
is the `groupSize` characters from the position `i * groupSize` on, there are
`(L + groupSize - 1) / groupSize` chunks, all of `groupSize` characters but the last, which
has 1 to `groupSize`, the result starts with the first chunk, ends with the last and has
`L + (chunks - 1) * length(separator)` characters; when one of the two keys is absent the
raw string is returned as it is. -/
theorem format_step_chunks (raw : CFString) (parameters : Parameters) (G : Nat)
    (hL : 1 ≤ raw.length) (hG : 1 ≤ G) :
    (∀ separator,
        parameters.kSecPasswordNumberOfGroups.isSome = true →
        parameters.kSecPasswordGroupSize.isSome = true →
        asString (separatorOrDash parameters.kSecPasswordSeparator) = some separator →
        ∃ chunks,
          formatPassword raw parameters raw.length G = some (joinWith separator chunks)
            ∧ chunks.length = (raw.length + G - 1) / G
            ∧ (∀ i, i < chunks.length → chunks.getD i [] = (raw.drop (i * G)).take G)
            ∧ (∀ i, i + 1 < chunks.length → (chunks.getD i []).length = G)
            ∧ 1 ≤ (chunks.getD (chunks.length - 1) []).length
            ∧ (chunks.getD (chunks.length - 1) []).length ≤ G
            ∧ chunks.flatten = raw
            ∧ (joinWith separator chunks).length
                = raw.length + ((raw.length + G - 1) / G - 1) * separator.length
            ∧ chunks.getD 0 [] <+: joinWith separator chunks
            ∧ chunks.getD (chunks.length - 1) [] <:+ joinWith separator chunks)
      ∧ (parameters.kSecPasswordSeparator = none →
          asString (separatorOrDash parameters.kSecPasswordSeparator) = some (CFSTR "-"))
      ∧ (∀ separator, parameters.kSecPasswordSeparator = some (.string separator) →
          asString (separatorOrDash parameters.kSecPasswordSeparator) = some separator)
      ∧ ((parameters.kSecPasswordNumberOfGroups = none
            ∨ parameters.kSecPasswordGroupSize = none) →
          formatPassword raw parameters raw.length G = some raw) := by
  refine ⟨?_, ?_, ?_, ?_⟩
  · intro separator hng hgs hsep
    obtain ⟨p, hp⟩ := groupLoop_total raw separator G hG (raw.length + 1) 0 [] (Nat.zero_le _)
      (by omega)
    have hpe := groupLoop_correct raw separator G (raw.length + 1) 0 [] p (Nat.zero_le _) hp
    simp only [List.drop_zero, List.nil_append] at hpe
    have hcount := groupsOf_length G hG (raw.length + 1) raw (by omega)
    have hchunk := groupsOf_getD G (raw.length + 1) raw
    have hflat := groupsOf_flatten G hG (raw.length + 1) raw (by omega)
    have hdm := Nat.div_mul_le_self (raw.length + G - 1) G
    have hpos : 1 ≤ (raw.length + G - 1) / G :=
      Nat.div_pos (by omega) (by omega)
    refine ⟨groupsOf G (raw.length + 1) raw, ?_, hcount, hchunk, ?_, ?_, ?_, hflat, ?_,
      joinWith_head_prefix _ _, joinWith_last_suffix _ _⟩
    · unfold formatPassword
      rw [hng, hgs, hsep]
      simp only [Bool.and_self, if_true, Int.toNat_ofNat]
      rw [← hpe]
      exact hp
    · intro i hi
      rw [hchunk i (by omega), List.length_take, List.length_drop]
      rw [hcount] at hi
      have h1 : (i + 2) * G ≤ (raw.length + G - 1) / G * G := Nat.mul_le_mul_right G (by omega)
      have h2 : (i + 2) * G = i * G + 2 * G := by ring
      omega
    · rw [hchunk _ (by omega), List.length_take, List.length_drop, hcount]
      obtain ⟨m, hm⟩ : ∃ m, (raw.length + G - 1) / G = m + 1 := ⟨_, (Nat.sub_add_cancel hpos).symm⟩
      rw [hm] at hdm ⊢
      have h2 : (m + 1) * G = m * G + G := by ring
      simp only [Nat.add_sub_cancel]
      omega
    · rw [hchunk _ (by omega), List.length_take]
      exact Nat.min_le_left _ _
    · rw [joinWith_length_flatten, hflat, hcount]
  · intro h
    rw [h]
    rfl
  · intro separator h
    rw [h]
    rfl
  · intro h
    unfold formatPassword
    rcases h with h | h <;> simp [h]

/-- C26, witness: the raw string `abcdefghij` in groups of 4 with the separator `-`, and
without the two grouping keys. -/
theorem format_step_chunks_witness :
    1 ≤ (CFSTR "abcdefghij").length ∧ 1 ≤ 4
      ∧ formatPassword (CFSTR "abcdefghij") parametersPIN8 10 4 = some (CFSTR "abcd-efgh-ij")
      ∧ formatPassword (CFSTR "abcdefghij") parametersAllConstraints 10 4
          = some (CFSTR "abcdefghij")
      ∧ ((∀ separator,
          parametersPIN8.kSecPasswordNumberOfGroups.isSome = true →
          parametersPIN8.kSecPasswordGroupSize.isSome = true →
          asString (separatorOrDash parametersPIN8.kSecPasswordSeparator) = some separator →
          ∃ chunks,
            formatPassword (CFSTR "abcdefghij") parametersPIN8 (CFSTR "abcdefghij").length
                (4 : Nat) = some (joinWith separator chunks)
              ∧ chunks.length = ((CFSTR "abcdefghij").length + 4 - 1) / 4
              ∧ (∀ i, i < chunks.length →
                  chunks.getD i [] = ((CFSTR "abcdefghij").drop (i * 4)).take 4)
              ∧ (∀ i, i + 1 < chunks.length → (chunks.getD i []).length = 4)
              ∧ 1 ≤ (chunks.getD (chunks.length - 1) []).length
              ∧ (chunks.getD (chunks.length - 1) []).length ≤ 4
              ∧ chunks.flatten = CFSTR "abcdefghij"
              ∧ (joinWith separator chunks).length
                  = (CFSTR "abcdefghij").length
                    + (((CFSTR "abcdefghij").length + 4 - 1) / 4 - 1) * separator.length
              ∧ chunks.getD 0 [] <+: joinWith separator chunks
              ∧ chunks.getD (chunks.length - 1) [] <:+ joinWith separator chunks)
        ∧ (parametersPIN8.kSecPasswordSeparator = none →
            asString (separatorOrDash parametersPIN8.kSecPasswordSeparator)
              = some (CFSTR "-"))
        ∧ (∀ separator, parametersPIN8.kSecPasswordSeparator = some (.string separator) →
            asString (separatorOrDash parametersPIN8.kSecPasswordSeparator) = some separator)
        ∧ ((parametersPIN8.kSecPasswordNumberOfGroups = none
              ∨ parametersPIN8.kSecPasswordGroupSize = none) →
            formatPassword (CFSTR "abcdefghij") parametersPIN8 (CFSTR "abcdefghij").length
              (4 : Nat) = some (CFSTR "abcdefghij"))) :=
  ⟨by decide, by decide, by decide!, by decide!,
    format_step_chunks (CFSTR "abcdefghij") parametersPIN8 4 (by decide) (by decide)⟩

/-! ## The required character sets of the generation parameters -/

theorem CFStringFindCharacterFromSet_iff (s : CFString) (set : CFCharacterSet) :
    CFStringFindCharacterFromSet s set = true ↔ ∃ c ∈ s, set.isMember c = true := by
  simp [CFStringFindCharacterFromSet]

/-- C27: for a type other than the PIN and validated requirements that are not flagged as
the default for the type, the required character sets of the generation parameters are the
sets of the requirements that have a member in the alphabet of the parameters, in the order
of the requirements, and there are none at all when these sets are more than the number of
random characters. -/
theorem normalised_required_sets (type : SecPasswordType) (requirements : Requirements)
    (htype : type ≠ .kSecPasswordTypePIN)
    (hflag : isDefaultForType requirements = false)
    (hvalid : isDictionaryFormattedProperly type (some requirements) = .proper) :
    ∃ (parameters : Parameters) (sets : List CFCharacterSet),
      properlyFormattedRequirements type (some requirements) = some parameters
        ∧ requirements.kSecPasswordRequiredCharactersKey = some (.array sets)
        ∧ parameters.kSecRequiredCharacterSetsKey
          = (if ((sets.filter (fun set =>
                  CFStringFindCharacterFromSet parameters.kSecAllowedCharactersKey set)).length
                    : Int) > parameters.kSecNumberOfRequiredRandomCharactersKey
              then none
              else some (sets.filter (fun set =>
                  CFStringFindCharacterFromSet parameters.kSecAllowedCharactersKey set)))
        ∧ ∀ set, CFStringFindCharacterFromSet parameters.kSecAllowedCharactersKey set = true
            ↔ ∃ c ∈ parameters.kSecAllowedCharactersKey, set.isMember c = true := by
  obtain ⟨a, b, hmin, hmax, -, -, hother⟩ := validated_lengths type requirements hflag hvalid
  obtain ⟨allowed, sets, h1, -, h3, -⟩ := hother htype
  obtain ⟨parameters, -, -, hpp, hp, -, -, -⟩ :=
    validated_parameters type requirements hflag hvalid
  refine ⟨parameters, sets, hpp, h3, ?_, fun set => CFStringFindCharacterFromSet_iff _ set⟩
  unfold passwordGenerationParametersDictionary at hp
  simp only [hmin, hmax, CFNumberGetValue, lengthAndAlphabet, htype, if_false, h1, h3,
    isString, isArray, asString, Option.isSome_some, Bool.not_true, Bool.and_false,
    Bool.false_eq_true, Option.getD_some, List.nil_append, Option.some.injEq] at hp
  subst hp
  rfl

/-- C27, witness: the Safari requirements `requirementsMandatoryOnly`, whose two required
sets both have a member in the alphabet `abc123XYZ`. -/
theorem normalised_required_sets_witness :
    SecPasswordType.kSecPasswordTypeSafari ≠ .kSecPasswordTypePIN
      ∧ isDefaultForType requirementsMandatoryOnly = false
      ∧ isDictionaryFormattedProperly .kSecPasswordTypeSafari (some requirementsMandatoryOnly)
          = .proper
      ∧ ∃ (parameters : Parameters) (sets : List CFCharacterSet),
        properlyFormattedRequirements .kSecPasswordTypeSafari (some requirementsMandatoryOnly)
            = some parameters
          ∧ requirementsMandatoryOnly.kSecPasswordRequiredCharactersKey = some (.array sets)
          ∧ parameters.kSecRequiredCharacterSetsKey
            = (if ((sets.filter (fun set =>
                    CFStringFindCharacterFromSet parameters.kSecAllowedCharactersKey set)).length
                      : Int) > parameters.kSecNumberOfRequiredRandomCharactersKey
                then none
                else some (sets.filter (fun set =>
                    CFStringFindCharacterFromSet parameters.kSecAllowedCharactersKey set)))
          ∧ ∀ set, CFStringFindCharacterFromSet parameters.kSecAllowedCharactersKey set = true
              ↔ ∃ c ∈ parameters.kSecAllowedCharactersKey, set.isMember c = true :=
  ⟨by decide, by decide!, by decide!,
    normalised_required_sets .kSecPasswordTypeSafari requirementsMandatoryOnly (by decide)
      (by decide!) (by decide!)⟩

/-! ## The restrictions on the start and the end of a candidate -/

theorem endWithCheck_eq (p r : CFString) (hlen : r.length ≤ p.length) :
    endWithCheck p (some (.string r))
      = some (!decide (p.drop (p.length - r.length) = r)) := by
  simp only [endWithCheck, asString, Option.some_bind, doesPasswordEndWith, hlen, if_true]
  by_cases h : p.drop (p.length - r.length) = r <;> simp [h]

theorem startWithCheck_eq (p r : CFString) (hlen : r.length ≤ p.length) :
    startWithCheck p (some (.string r)) = some (!decide (p.take r.length = r)) := by
  simp only [startWithCheck, asString, Option.some_bind, doesPasswordStartWith, hlen, if_true]
  by_cases h : p.take r.length = r <;> simp [h]

/-- C31: for a candidate `p` and a restriction string `r` that is not longer than `p`, the
step of `doesFinalPasswordPass` on the start restriction fails exactly when the first
`length(r)` characters of `p` are the string `r`, and the step on the end restriction
fails exactly when the last `length(r)` characters of `p` are the string `r`; a candidate
on which one of the two steps fails is not accepted by `doesFinalPasswordPass`. -/
theorem start_end_restrictions (p r : CFString) (hlen : r.length ≤ p.length) :
    (startWithCheck p (some (.string r)) = some false ↔ p.take r.length = r)
      ∧ (startWithCheck p (some (.string r)) = some true ↔ p.take r.length ≠ r)
      ∧ (endWithCheck p (some (.string r)) = some false
          ↔ p.drop (p.length - r.length) = r)
      ∧ (endWithCheck p (some (.string r)) = some true
          ↔ p.drop (p.length - r.length) ≠ r)
      ∧ (doesPasswordStartWith p r = some false ↔ p.take r.length = r)
      ∧ (doesPasswordEndWith p r = some false ↔ p.drop (p.length - r.length) = r)
      ∧ (∀ parameters : Parameters,
          parameters.kSecPasswordCantStartWithChars = some (.string r) →
          p.take r.length = r → doesFinalPasswordPass p parameters ≠ some true)
      ∧ (∀ parameters : Parameters,
          parameters.kSecPasswordCantEndWithChars = some (.string r) →
          p.drop (p.length - r.length) = r → doesFinalPasswordPass p parameters ≠ some true) := by
  refine ⟨?_, ?_, ?_, ?_, ?_, ?_, ?_, ?_⟩
  · rw [startWithCheck_eq p r hlen]; simp
  · rw [startWithCheck_eq p r hlen]; simp
  · rw [endWithCheck_eq p r hlen]; simp
  · rw [endWithCheck_eq p r hlen]; simp
  · simp only [doesPasswordStartWith, hlen, if_true]
    by_cases h : p.take r.length = r <;> simp [h]
  · simp only [doesPasswordEndWith, hlen, if_true]
    by_cases h : p.drop (p.length - r.length) = r <;> simp [h]
  · intro parameters hr heq hpass
    have := (doesFinalPasswordPass_sound p parameters hpass).cannotStartWith r hr
    exact this (List.prefix_iff_eq_take.mpr heq.symm)
  · intro parameters hr heq hpass
    have := (doesFinalPasswordPass_sound p parameters hpass).cannotEndWith r hr
    exact this (List.suffix_iff_eq_drop.mpr heq.symm)

/-- C31, witness: the candidate `abcab` and the restriction `ab`, which it starts and ends
with; it starts with a character of the restriction `ba` and is not rejected for it. -/
theorem start_end_restrictions_witness :
    (CFSTR "ab").length ≤ (CFSTR "abcab").length
      ∧ startWithCheck (CFSTR "abcab") (some (.string (CFSTR "ba"))) = some true
      ∧ endWithCheck (CFSTR "abcab") (some (.string (CFSTR "ba"))) = some true
      ∧ ((startWithCheck (CFSTR "abcab") (some (.string (CFSTR "ab"))) = some false
            ↔ (CFSTR "abcab").take (CFSTR "ab").length = CFSTR "ab")
        ∧ (startWithCheck (CFSTR "abcab") (some (.string (CFSTR "ab"))) = some true
            ↔ (CFSTR "abcab").take (CFSTR "ab").length ≠ CFSTR "ab")
        ∧ (endWithCheck (CFSTR "abcab") (some (.string (CFSTR "ab"))) = some false
            ↔ (CFSTR "abcab").drop ((CFSTR "abcab").length - (CFSTR "ab").length) = CFSTR "ab")
        ∧ (endWithCheck (CFSTR "abcab") (some (.string (CFSTR "ab"))) = some true
            ↔ (CFSTR "abcab").drop ((CFSTR "abcab").length - (CFSTR "ab").length) ≠ CFSTR "ab")
        ∧ (doesPasswordStartWith (CFSTR "abcab") (CFSTR "ab") = some false
            ↔ (CFSTR "abcab").take (CFSTR "ab").length = CFSTR "ab")
        ∧ (doesPasswordEndWith (CFSTR "abcab") (CFSTR "ab") = some false
            ↔ (CFSTR "abcab").drop ((CFSTR "abcab").length - (CFSTR "ab").length) = CFSTR "ab")
        ∧ (∀ parameters : Parameters,
            parameters.kSecPasswordCantStartWithChars = some (.string (CFSTR "ab")) →
            (CFSTR "abcab").take (CFSTR "ab").length = CFSTR "ab" →
            doesFinalPasswordPass (CFSTR "abcab") parameters ≠ some true)
        ∧ (∀ parameters : Parameters,
            parameters.kSecPasswordCantEndWithChars = some (.string (CFSTR "ab")) →
            (CFSTR "abcab").drop ((CFSTR "abcab").length - (CFSTR "ab").length) = CFSTR "ab" →
            doesFinalPasswordPass (CFSTR "abcab") parameters ≠ some true)) :=
  ⟨by decide, by decide!, by decide!,
    start_end_restrictions (CFSTR "abcab") (CFSTR "ab") (by decide)⟩

/-! ## The bounds on the occurrences of specific characters -/

theorem countP_eq_positions (p cs : CFString) :
    p.countP (fun c => decide (c ∈ cs))
      = ((List.range p.length).filter (fun i => decide (p.getD i 0 ∈ cs))).length := by
  induction p using List.reverseRecOn with
  | nil => simp
  | append_singleton l a ih =>
    rw [List.countP_append, ih, List.length_append, List.length_singleton, List.range_succ,
      List.filter_append, List.length_append]
    have e1 : (List.range l.length).filter (fun i => decide ((l ++ [a]).getD i 0 ∈ cs))
        = (List.range l.length).filter (fun i => decide (l.getD i 0 ∈ cs)) := by
      apply List.filter_congr
      intro i hi
      have hi' : i < l.length := List.mem_range.mp hi
      rw [List.getD_append _ _ _ _ hi']
    rw [e1]
    congr 1
    by_cases ha : a ∈ cs <;> simp [ha]

/-- C32: `passwordContainsAtLeastNCharacters` is true exactly when the number of positions
of the candidate that hold a character of the string `cs` is at least `N`, and
`passwordContainsLessThanNCharacters` exactly when that number is at most `N`; these are the
results of the two steps of `doesFinalPasswordPass` on the occurrence bounds. -/
theorem occurrence_bounds (p cs : CFString) (N : Int) :
    (passwordContainsAtLeastNCharacters p cs N = true
        ↔ N ≤ ((p.countP (fun c => decide (c ∈ cs)) : Nat) : Int))
      ∧ (passwordContainsLessThanNCharacters p cs N = true
        ↔ ((p.countP (fun c => decide (c ∈ cs)) : Nat) : Int) ≤ N)
      ∧ p.countP (fun c => decide (c ∈ cs))
          = ((List.range p.length).filter (fun i => decide (p.getD i 0 ∈ cs))).length
      ∧ specificCharactersCheck passwordContainsAtLeastNCharacters p
          (some (.dictionary (some (.number N)) (some (.string cs))))
          = some (decide (N ≤ ((p.countP (fun c => decide (c ∈ cs)) : Nat) : Int)))
      ∧ specificCharactersCheck passwordContainsLessThanNCharacters p
          (some (.dictionary (some (.number N)) (some (.string cs))))
          = some (decide (((p.countP (fun c => decide (c ∈ cs)) : Nat) : Int) ≤ N)) := by
  have h1 : (passwordContainsAtLeastNCharacters p cs N = true
      ↔ N ≤ ((p.countP (fun c => decide (c ∈ cs)) : Nat) : Int)) := by
    unfold passwordContainsAtLeastNCharacters
    rw [countCharacters_eq]
    split_ifs with h <;> simp <;> omega
  have h2 : (passwordContainsLessThanNCharacters p cs N = true
      ↔ ((p.countP (fun c => decide (c ∈ cs)) : Nat) : Int) ≤ N) := by
    unfold passwordContainsLessThanNCharacters
    rw [countCharacters_eq]
    split_ifs with h <;> simp <;> omega
  refine ⟨h1, h2, ?_, ?_, ?_⟩
  · exact countP_eq_positions p cs
  · simp only [specificCharactersCheck, CFNumberGetValue, asString]
    congr 1
    by_cases h : N ≤ ((p.countP (fun c => decide (c ∈ cs)) : Nat) : Int)
    · simp [h, h1.mpr h]
    · have : passwordContainsAtLeastNCharacters p cs N = false := by
        cases hb : passwordContainsAtLeastNCharacters p cs N
        · rfl
        · exact absurd (h1.mp hb) h
      simp [h, this]
  · simp only [specificCharactersCheck, CFNumberGetValue, asString]
    congr 1
    by_cases h : ((p.countP (fun c => decide (c ∈ cs)) : Nat) : Int) ≤ N
    · simp [h, h2.mpr h]
    · have : passwordContainsLessThanNCharacters p cs N = false := by
        cases hb : passwordContainsLessThanNCharacters p cs N
        · rfl
        · exact absurd (h2.mp hb) h
      simp [h, this]

/-! ## The optional fields and the length of the generation parameters -/

theorem length_four_cases (raw : CFString) (h : raw.length = 4) :
    ∃ a b c d, raw = [a, b, c, d] := by
  match raw, h with
  | [a, b, c, d], _ => exact ⟨a, b, c, d, rfl⟩

/-- C33, counterexample: the default generation parameters of a PIN have the two grouping
keys, with the group size 4 and the number of groups 1, so the formatting step takes its
grouping branch for a PIN. -/
theorem default_parameters_counterexample :
    (passwordGenerateDefaultParametersDictionary .kSecPasswordTypePIN).kSecPasswordGroupSize
        = some (.number 4)
      ∧ (passwordGenerateDefaultParametersDictionary
          .kSecPasswordTypePIN).kSecPasswordNumberOfGroups = some (.number 1)
      ∧ ((passwordGenerateDefaultParametersDictionary
            .kSecPasswordTypePIN).kSecPasswordNumberOfGroups.isSome
          && (passwordGenerateDefaultParametersDictionary
            .kSecPasswordTypePIN).kSecPasswordGroupSize.isSome) = true :=
  ⟨rfl, rfl, rfl⟩

/-- C33 (as amended): the default generation parameters are, for a PIN, the alphabet of the
ten decimal digits, the length 4, the one required set of the digits and one group of 4
characters, which the formatting step returns as it is; for a Safari password and any type
that is not listed, an alphabet of upper and lower case letters and digits, the length 20,
the three required sets upper case, lower case and digits, the group size 4 and the number
of groups 6; for an iCloud recovery password, an alphabet of upper case letters and digits,
the length 24, the group size 4 and the number of groups 6. None of them has a separator,
for which the formatting step takes `-`. -/
theorem default_parameters :
    ((passwordGenerateDefaultParametersDictionary .kSecPasswordTypePIN).kSecAllowedCharactersKey
          = CFSTR "0123456789"
        ∧ (passwordGenerateDefaultParametersDictionary
            .kSecPasswordTypePIN).kSecNumberOfRequiredRandomCharactersKey = 4
        ∧ (passwordGenerateDefaultParametersDictionary
            .kSecPasswordTypePIN).kSecRequiredCharacterSetsKey = some [.decimalDigit]
        ∧ (passwordGenerateDefaultParametersDictionary .kSecPasswordTypePIN).kSecPasswordGroupSize
            = some (.number 4)
        ∧ (passwordGenerateDefaultParametersDictionary
            .kSecPasswordTypePIN).kSecPasswordNumberOfGroups = some (.number 1)
        ∧ ∀ raw : CFString, raw.length = 4 →
            formatPassword raw (passwordGenerateDefaultParametersDictionary .kSecPasswordTypePIN)
              4 4 = some raw)
      ∧ (∀ type, type = .kSecPasswordTypeSafari ∨ type = .other →
          (∀ c ∈ (passwordGenerateDefaultParametersDictionary type).kSecAllowedCharactersKey,
              isUppercaseLetter c = true ∨ isLowercaseLetter c = true
                ∨ isDecimalDigit c = true)
            ∧ (passwordGenerateDefaultParametersDictionary type).kSecAllowedCharactersKey
              = defaultCharacters
            ∧ (passwordGenerateDefaultParametersDictionary
                type).kSecNumberOfRequiredRandomCharactersKey = 20
            ∧ (passwordGenerateDefaultParametersDictionary type).kSecRequiredCharacterSetsKey
              = some [.uppercaseLetter, .lowercaseLetter, .decimalDigit]
            ∧ (passwordGenerateDefaultParametersDictionary type).kSecPasswordGroupSize
              = some (.number 4)
            ∧ (passwordGenerateDefaultParametersDictionary type).kSecPasswordNumberOfGroups
              = some (.number 6))
      ∧ ((∀ c ∈ (passwordGenerateDefaultParametersDictionary
              .kSecPasswordTypeiCloudRecovery).kSecAllowedCharactersKey,
            isUppercaseLetter c = true ∨ isDecimalDigit c = true)
        ∧ (passwordGenerateDefaultParametersDictionary
            .kSecPasswordTypeiCloudRecovery).kSecAllowedCharactersKey = defaultiCloudCharacters
        ∧ (passwordGenerateDefaultParametersDictionary
            .kSecPasswordTypeiCloudRecovery).kSecNumberOfRequiredRandomCharactersKey = 24
        ∧ (passwordGenerateDefaultParametersDictionary
            .kSecPasswordTypeiCloudRecovery).kSecPasswordGroupSize = some (.number 4)
        ∧ (passwordGenerateDefaultParametersDictionary
            .kSecPasswordTypeiCloudRecovery).kSecPasswordNumberOfGroups = some (.number 6))
      ∧ ∀ type,
          (passwordGenerateDefaultParametersDictionary type).kSecPasswordSeparator = none
            ∧ asString (separatorOrDash
                (passwordGenerateDefaultParametersDictionary type).kSecPasswordSeparator)
              = some (CFSTR "-") := by
  refine ⟨⟨by decide!, rfl, rfl, rfl, rfl, ?_⟩, ?_, ⟨by decide!, rfl, rfl, rfl, rfl⟩, ?_⟩
  · intro raw hraw
    obtain ⟨a, b, c, d, rfl⟩ := length_four_cases raw hraw
    rfl
  · intro type htype
    rcases htype with rfl | rfl
    · exact ⟨by decide!, rfl, rfl, rfl, rfl, rfl⟩
    · exact ⟨by decide!, rfl, rfl, rfl, rfl, rfl⟩
  · intro type
    cases type <;> exact ⟨rfl, rfl⟩

/-! ## The alphabet of the generation parameters -/

theorem not_weak_of_long_mixed (s : CFString) (hlen : 11 ≤ s.length)
    (hmixed : ∃ c ∈ s, isDecimalDigit c = false)
    (hclass : ∃ c ∈ s, isUppercaseLetter c = true ∨ isLowercaseLetter c = true
      ∨ isDecimalDigit c = true ∨ isPunctuation c = true) :
    10 ≤ alphabetSizeEstimate s ∧ SecPasswordIsPasswordWeak s = false := by
  have hnum : s.all CFCharacterSet.decimalDigit.isMember = false := by
    by_contra h
    simp only [Bool.not_eq_false] at h
    obtain ⟨c, hc, hcd⟩ := hmixed
    have := (all_decimalDigit_iff s).mp h c hc
    simp [hcd] at this
  have h4 : ¬ s.length < 4 := by omega
  have hS : 10 ≤ alphabetSizeEstimate s := by
    obtain ⟨c, hc, hcl⟩ := hclass
    unfold alphabetSizeEstimate
    rcases hcl with h | h | h | h
    · have : s.any isUppercaseLetter = true := List.any_eq_true.mpr ⟨c, hc, h⟩
      rw [if_pos this]; omega
    · have : s.any isLowercaseLetter = true := List.any_eq_true.mpr ⟨c, hc, h⟩
      rw [if_pos this]; omega
    · have : s.any isDecimalDigit = true := List.any_eq_true.mpr ⟨c, hc, h⟩
      rw [if_pos this]; omega
    · have : s.any isPunctuation = true := List.any_eq_true.mpr ⟨c, hc, h⟩
      rw [if_pos this]; omega
  refine ⟨hS, ?_⟩
  have hstrong : ¬ strengthBelowThreshold s.length (alphabetSizeEstimate s) := by
    rw [strengthBelowThreshold_iff]
    have h0 : alphabetSizeEstimate s ≠ 0 := by omega
    rw [if_neg h0]
    have h1 : 10 ^ 11 ≤ alphabetSizeEstimate s ^ 11 := Nat.pow_le_pow_left hS 11
    have h2 : alphabetSizeEstimate s ^ 11 ≤ alphabetSizeEstimate s ^ s.length :=
      Nat.pow_le_pow_right (by omega) hlen
    have h3 : 2 ^ entropyStrengthThreshold ≤ 10 ^ 11 := by decide
    omega
  unfold SecPasswordIsPasswordWeak
  simp [h4, hnum, characterSetSize_eq, hstrong]

theorem default_candidate_not_weak (type : SecPasswordType)
    (htype : type ≠ .kSecPasswordTypePIN) (raw p : CFString)
    (hlen : (raw.length : Int)
      = (passwordGenerateDefaultParametersDictionary type).kSecNumberOfRequiredRandomCharactersKey)
    (hfmt : formatPassword raw (passwordGenerateDefaultParametersDictionary type)
      (passwordGenerateDefaultParametersDictionary type).kSecNumberOfRequiredRandomCharactersKey
      4 = some p) :
    11 ≤ p.length ∧ 45 ∈ p ∧ SecPasswordIsPasswordWeak p = false := by
  have hgrp : ((passwordGenerateDefaultParametersDictionary type).kSecPasswordNumberOfGroups.isSome
      && (passwordGenerateDefaultParametersDictionary type).kSecPasswordGroupSize.isSome)
        = true := by
    cases type <;> rfl
  have hsepd : asString (separatorOrDash
      (passwordGenerateDefaultParametersDictionary type).kSecPasswordSeparator)
        = some (CFSTR "-") := by
    cases type <;> rfl
  have hcount : 3 ≤ defaultGroupCount type := by
    cases type <;> first | (exact absurd rfl htype) | decide
  have hn : 0 < (passwordGenerateDefaultParametersDictionary
      type).kSecNumberOfRequiredRandomCharactersKey := by
    cases type <;> decide
  rcases formatPassword_spec raw _ _ 4 p hlen hn hfmt with ⟨hno, -⟩ | ⟨-, sep, hsep, -, hp⟩
  · rw [hgrp] at hno; simp at hno
  · rw [hsepd] at hsep
    simp only [Option.some.injEq] at hsep
    subst hsep
    rw [default_length] at hlen
    have hlen' : raw.length = 4 * defaultGroupCount type := by exact_mod_cast hlen
    have e4 : (4 : Int).toNat = 4 := rfl
    rw [e4] at hp
    obtain ⟨h1, h2, -⟩ := groupsOf_exact 4 (by decide) (defaultGroupCount type)
      (raw.length + 1) raw hlen' (by omega)
    have hdash : CFSTR "-" = [45] := by decide!
    have hplen : p.length = defaultGroupCount type * 4 + (defaultGroupCount type - 1) * 1 := by
      rw [hp, joinWith_length _ 4 _ h2, h1, hdash]
      rfl
    have h45 : p.getD 4 0 = 45 := by
      rw [hp, hdash]
      have := joinWith_separator_at 45 4 _ h2 0 (by rw [h1]; omega)
      simpa using this
    have hmem : 45 ∈ p := by
      have hlt : 4 < p.length := by omega
      rw [List.getD_eq_getElem _ _ hlt] at h45
      rw [← h45]
      exact List.getElem_mem hlt
    have hlen11 : 11 ≤ p.length := by omega
    exact ⟨hlen11, hmem,
      (not_weak_of_long_mixed p hlen11 ⟨45, hmem, by decide⟩
        ⟨45, hmem, Or.inr (Or.inr (Or.inr (by decide)))⟩).2⟩

/-- C38: a string of at least 11 characters that has a character that is no decimal digit
and a character that is an upper case letter, a lower case letter, a decimal digit or a
punctuation character is not weak: its alphabet-size estimate is at least 10, and
`2 ^ 35 ≤ 10 ^ 11`. So no candidate in the default format of a type other than the PIN,
which has at least 11 characters and the separator `-`, is weak. -/
theorem long_mixed_not_weak (s : CFString) (hlen : 11 ≤ s.length)
    (hmixed : ∃ c ∈ s, isDecimalDigit c = false)
    (hclass : ∃ c ∈ s, isUppercaseLetter c = true ∨ isLowercaseLetter c = true
      ∨ isDecimalDigit c = true ∨ isPunctuation c = true) :
    SecPasswordIsPasswordWeak s = false
      ∧ 10 ≤ alphabetSizeEstimate s
      ∧ 2 ^ entropyStrengthThreshold ≤ 10 ^ 11
      ∧ ∀ (type : SecPasswordType) (raw p : CFString),
          type ≠ .kSecPasswordTypePIN →
          (raw.length : Int) = (passwordGenerateDefaultParametersDictionary
            type).kSecNumberOfRequiredRandomCharactersKey →
          formatPassword raw (passwordGenerateDefaultParametersDictionary type)
            (passwordGenerateDefaultParametersDictionary
              type).kSecNumberOfRequiredRandomCharactersKey 4 = some p →
          SecPasswordIsPasswordWeak p = false := by
  obtain ⟨hS, hweak⟩ := not_weak_of_long_mixed s hlen hmixed hclass
  exact ⟨hweak, hS, by decide, fun type raw p htype hl hf =>
    (default_candidate_not_weak type htype raw p hl hf).2.2⟩

/-- C38, witness: the string `aaaaaaaaaa1`, of 11 characters. -/
theorem long_mixed_not_weak_witness :
    11 ≤ (CFSTR "aaaaaaaaaa1").length
      ∧ (∃ c ∈ CFSTR "aaaaaaaaaa1", isDecimalDigit c = false)
      ∧ (∃ c ∈ CFSTR "aaaaaaaaaa1", isUppercaseLetter c = true ∨ isLowercaseLetter c = true
          ∨ isDecimalDigit c = true ∨ isPunctuation c = true)
      ∧ (SecPasswordIsPasswordWeak (CFSTR "aaaaaaaaaa1") = false
        ∧ 10 ≤ alphabetSizeEstimate (CFSTR "aaaaaaaaaa1")
        ∧ 2 ^ entropyStrengthThreshold ≤ 10 ^ 11
        ∧ ∀ (type : SecPasswordType) (raw p : CFString),
            type ≠ .kSecPasswordTypePIN →
            (raw.length : Int) = (passwordGenerateDefaultParametersDictionary
              type).kSecNumberOfRequiredRandomCharactersKey →
            formatPassword raw (passwordGenerateDefaultParametersDictionary type)
              (passwordGenerateDefaultParametersDictionary
                type).kSecNumberOfRequiredRandomCharactersKey 4 = some p →
            SecPasswordIsPasswordWeak p = false) :=
  ⟨by decide, ⟨97, by decide!, by decide⟩, ⟨97, by decide!, by decide⟩,
    long_mixed_not_weak (CFSTR "aaaaaaaaaa1") (by decide) ⟨97, by decide!, by decide⟩
      ⟨97, by decide!, by decide⟩⟩

/-! ## An accepted candidate for the default parameters of every type -/

/-- C39: for every password type, with no requirements, there is a raw string of the
default length of the type over its default alphabet whose formatted form
`doesFinalPasswordPass` accepts under the default parameters, `1357` for a PIN, and there is
a random source with which `SecPasswordGenerate` returns that formatted form. -/
theorem default_candidates_accepted :
    ∀ type : SecPasswordType, ∃ raw p : CFString,
      (raw.length : Int)
          = (passwordGenerateDefaultParametersDictionary
              type).kSecNumberOfRequiredRandomCharactersKey
        ∧ (∀ c ∈ raw,
            c ∈ (passwordGenerateDefaultParametersDictionary type).kSecAllowedCharactersKey)
        ∧ readGroupNumber (passwordGenerateDefaultParametersDictionary type).kSecPasswordGroupSize
            = some 4
        ∧ formatPassword raw (passwordGenerateDefaultParametersDictionary type)
            (passwordGenerateDefaultParametersDictionary
              type).kSecNumberOfRequiredRandomCharactersKey 4 = some p
        ∧ doesFinalPasswordPass p (passwordGenerateDefaultParametersDictionary type) = some true
        ∧ (type = .kSecPasswordTypePIN → raw = CFSTR "1357" ∧ p = CFSTR "1357")
        ∧ ∃ rng, SecPasswordGenerate type none rng = some (.password p, []) := by
  intro type
  cases type
  · exact ⟨CFSTR "anzMZcpBP2erDR4gtFT6", CFSTR "anzM-ZcpB-P2er-DR4g-tFT6", by decide!,
      by decide!, rfl, by decide!, by decide!, by decide, rngSafari, by decide!⟩
  · exact ⟨CFSTR "AHQX6DLT29GPW5CKSZ8FNV4B", CFSTR "AHQX-6DLT-29GP-W5CK-SZ8F-NV4B", by decide!,
      by decide!, rfl, by decide!, by decide!, by decide,
      [some ((List.range 24).map (fun i => i * 7))], by decide!⟩
  · exact ⟨CFSTR "ahov30gnu29f", CFSTR "ahov-30gn-u29f", by decide!,
      by decide!, rfl, by decide!, by decide!, by decide,
      [some ((List.range 12).map (fun i => i * 7))], by decide!⟩
  · exact ⟨CFSTR "1357", CFSTR "1357", by decide!,
      by decide!, rfl, by decide!, by decide!, fun _ => ⟨rfl, rfl⟩,
      [some [1, 3, 5, 7]], by decide!⟩
  · exact ⟨CFSTR "anzMZcpBP2erDR4gtFT6", CFSTR "anzM-ZcpB-P2er-DR4g-tFT6", by decide!,
      by decide!, rfl, by decide!, by decide!, by decide, rngSafari, by decide!⟩

/-! ## The turns of the group loop -/

theorem groupLoopIndices_end (G L : Nat) (fuel : Nat) :
    groupLoopIndices (G : Int) (L : Int) fuel (L : Int) = some [] := by
  cases fuel <;> simp [groupLoopIndices]

theorem groupLoopIndices_step (G L : Nat) (fuel k : Nat) (hk : k < L) :
    groupLoopIndices (G : Int) (L : Int) (fuel + 1) (k : Int)
      = (groupLoopIndices (G : Int) (L : Int) fuel ((min (k + G) L : Nat) : Int)).map
          (fun rest => ((min (k + G) L : Nat) : Int) :: rest) := by
  have hne : (k : Int) ≠ (L : Int) := by omega
  rw [groupLoopIndices, if_pos hne]
  by_cases h1 : (k : Int) + (G : Int) < (L : Int)
  · have e : (k : Int) + (G : Int) = ((min (k + G) L : Nat) : Int) := by
      rw [Nat.min_eq_left (by omega)]; push_cast; rfl
    rw [if_pos h1, e]
  · rw [if_neg h1]
    by_cases h2 : (k : Int) + (G : Int) = (L : Int)
    · have e : (k : Int) + (G : Int) = ((min (k + G) L : Nat) : Int) := by
        rw [Nat.min_eq_left (by omega)]; push_cast; rfl
      rw [if_pos h2, e]
    · have e : (k : Int) + ((L : Int) - (k : Int)) = ((min (k + G) L : Nat) : Int) := by
        rw [Nat.min_eq_right (by omega)]; omega
      rw [if_neg h2, e]

theorem groupLoopIndices_none (G L : Nat) :
    ∀ (fuel k : Nat), k ≤ L → fuel * G < L - k →
      groupLoopIndices (G : Int) (L : Int) fuel (k : Int) = none := by
  intro fuel
  induction fuel with
  | zero =>
    intro k hk h
    have hne : (k : Int) ≠ (L : Int) := by omega
    simp [groupLoopIndices, hne]
  | succ f ih =>
    intro k hk h
    have hmul : (f + 1) * G = f * G + G := Nat.succ_mul f G
    rw [groupLoopIndices_step G L f k (by omega)]
    rw [ih (min (k + G) L) (Nat.min_le_right _ _) (by rw [Nat.min_eq_left (by omega)]; omega)]
    rfl

theorem groupLoopIndices_some (G L : Nat) (hG : 1 ≤ G) :
    ∀ (fuel k : Nat), k ≤ L → L - k ≤ fuel * G →
      ∃ indices, groupLoopIndices (G : Int) (L : Int) fuel (k : Int) = some indices
        ∧ indices.length = (L - k + G - 1) / G
        ∧ List.Chain (fun a b => a < b) (k : Int) indices
        ∧ (∀ i ∈ indices, i ≤ (L : Int))
        ∧ indices.getLastD (k : Int) = (L : Int) := by
  intro fuel
  induction fuel with
  | zero =>
    intro k hk h
    have hkL : k = L := by omega
    subst hkL
    refine ⟨[], groupLoopIndices_end G k 0, ?_, List.Chain.nil, by simp, rfl⟩
    simp only [Nat.sub_self, Nat.zero_add, List.length_nil]
    exact (Nat.div_eq_of_lt (by omega)).symm
  | succ f ih =>
    intro k hk h
    have hmul : (f + 1) * G = f * G + G := Nat.succ_mul f G
    by_cases hkL : k = L
    · subst hkL
      refine ⟨[], groupLoopIndices_end G k _, ?_, List.Chain.nil, by simp, rfl⟩
      simp only [Nat.sub_self, Nat.zero_add, List.length_nil]
      exact (Nat.div_eq_of_lt (by omega)).symm
    · have hlt : k < L := by omega
      obtain ⟨rest, h1, h2, h3, h4, h5⟩ := ih (min (k + G) L) (Nat.min_le_right _ _)
        (by rcases Nat.le_total (k + G) L with hle | hle
            · rw [Nat.min_eq_left hle]; omega
            · rw [Nat.min_eq_right hle]; omega)
      refine ⟨((min (k + G) L : Nat) : Int) :: rest, ?_, ?_, ?_, ?_, ?_⟩
      · rw [groupLoopIndices_step G L f k hlt, h1]
        rfl
      · rw [List.length_cons, h2]
        rcases Nat.le_total (k + G) L with hle | hle
        · rw [Nat.min_eq_left hle]
          have e : L - k + G - 1 = (L - (k + G) + G - 1) + G := by omega
          rw [e, Nat.add_div_right _ (by omega)]
        · rw [Nat.min_eq_right hle]
          have e1 : L - L + G - 1 = G - 1 := by omega
          have e2 : L - k + G - 1 = (L - k - 1) + G := by omega
          rw [e1, Nat.div_eq_of_lt (by omega), e2, Nat.add_div_right _ (by omega),
            Nat.div_eq_of_lt (by omega)]
      · refine List.Chain.cons ?_ h3
        have : k < min (k + G) L := by
          rw [Nat.lt_min]; omega
        exact_mod_cast this
      · intro i hi
        rcases List.mem_cons.mp hi with rfl | hi
        · exact_mod_cast Nat.min_le_right _ _
        · exact h4 i hi
      · rw [List.getLastD_cons]
        exact h5

theorem ceil_le_iff (L G fuel : Nat) (hG : 1 ≤ G) :
    (L + G - 1) / G ≤ fuel ↔ L ≤ fuel * G := by
  have hmul : fuel.succ * G = fuel * G + G := Nat.succ_mul fuel G
  rw [← Nat.lt_succ_iff, Nat.div_lt_iff_lt_mul (by omega)]
  omega

theorem groupLoop_isSome (raw separator : CFString) (G : Nat) :
    ∀ (fuel k : Nat) (acc : CFString), k ≤ raw.length →
      (groupLoop raw separator (G : Int) (raw.length : Int) fuel (k : Int) acc).isSome
        = (groupLoopIndices (G : Int) (raw.length : Int) fuel (k : Int)).isSome := by
  intro fuel
  induction fuel with
  | zero =>
    intro k acc hk
    by_cases hend : (k : Int) ≠ (raw.length : Int) <;> simp [groupLoop, groupLoopIndices, hend]
  | succ f ih =>
    intro k acc hk
    by_cases hkL : k = raw.length
    · subst hkL
      simp [groupLoop, groupLoopIndices]
    · have hlt : k < raw.length := by omega
      have hend : (k : Int) ≠ (raw.length : Int) := by omega
      rw [groupLoopIndices_step G raw.length f k hlt, Option.isSome_map']
      rw [groupLoop, if_pos hend]
      by_cases h1 : (k : Int) + (G : Int) < (raw.length : Int)
      · rw [if_pos h1, CFStringCreateWithSubstring_nat raw k G (by omega)]
        have e : (k : Int) + (G : Int) = ((min (k + G) raw.length : Nat) : Int) := by
          rw [Nat.min_eq_left (by omega)]; push_cast; rfl
        rw [e]
        exact ih _ _ (Nat.min_le_right _ _)
      · rw [if_neg h1]
        by_cases h2 : (k : Int) + (G : Int) = (raw.length : Int)
        · rw [if_pos h2, CFStringCreateWithSubstring_nat raw k G (by omega)]
          have e : (k : Int) + (G : Int) = ((min (k + G) raw.length : Nat) : Int) := by
            rw [Nat.min_eq_left (by omega)]; push_cast; rfl
          rw [e]
          exact ih _ _ (Nat.min_le_right _ _)
        · rw [if_neg h2]
          have e1 : (raw.length : Int) - (k : Int) = ((raw.length - k : Nat) : Int) := by omega
          rw [e1, CFStringCreateWithSubstring_nat raw k (raw.length - k) (by omega)]
          have e2 : (k : Int) + ((raw.length - k : Nat) : Int)
              = ((min (k + G) raw.length : Nat) : Int) := by
            rw [Nat.min_eq_right (by omega)]; omega
          rw [e2]
          exact ih _ _ (Nat.min_le_right _ _)

/-- C37: for a raw length `L` and a group size of at least 1, the group loop of the
formatting step ends after exactly `(L + groupSize - 1) / groupSize` turns: with that many
turns or more the index goes through that many values, each greater than the one before,
starting above 0, none greater than `L`, the last being `L`; with fewer turns the loop has
not ended. The loop on a raw string of length `L` returns with exactly these numbers of
turns. -/
theorem group_loop_turns (L G : Nat) (hG : 1 ≤ G) :
    (∀ fuel, (L + G - 1) / G ≤ fuel →
        ∃ indices, groupLoopIndices (G : Int) (L : Int) fuel 0 = some indices
          ∧ indices.length = (L + G - 1) / G
          ∧ List.Chain (fun a b => a < b) (0 : Int) indices
          ∧ (∀ i ∈ indices, i ≤ (L : Int))
          ∧ indices.getLastD 0 = (L : Int))
      ∧ (∀ fuel, fuel < (L + G - 1) / G →
          groupLoopIndices (G : Int) (L : Int) fuel 0 = none)
      ∧ ∀ (raw separator : CFString) (fuel : Nat), raw.length = L →
          ((groupLoop raw separator (G : Int) (L : Int) fuel 0 []).isSome = true
            ↔ (L + G - 1) / G ≤ fuel) := by
  have hsome : ∀ fuel, (L + G - 1) / G ≤ fuel →
      ∃ indices, groupLoopIndices (G : Int) (L : Int) fuel 0 = some indices
        ∧ indices.length = (L + G - 1) / G
        ∧ List.Chain (fun a b => a < b) (0 : Int) indices
        ∧ (∀ i ∈ indices, i ≤ (L : Int))
        ∧ indices.getLastD 0 = (L : Int) := by
    intro fuel hf
    have := groupLoopIndices_some G L hG fuel 0 (Nat.zero_le _)
      (by rw [Nat.sub_zero]; exact (ceil_le_iff L G fuel hG).mp hf)
    simpa using this
  have hnone : ∀ fuel, fuel < (L + G - 1) / G →
      groupLoopIndices (G : Int) (L : Int) fuel 0 = none := by
    intro fuel hf
    have hlt : fuel * G < L - 0 := by
      rw [Nat.sub_zero]
      by_contra hcon
      exact absurd ((ceil_le_iff L G fuel hG).mpr (by omega)) (by omega)
    have := groupLoopIndices_none G L fuel 0 (Nat.zero_le _) hlt
    simpa using this
  refine ⟨hsome, hnone, ?_⟩
  intro raw separator fuel hraw
  subst hraw
  have e := groupLoop_isSome raw separator G fuel 0 [] (Nat.zero_le _)
  simp only [Nat.cast_zero] at e
  rw [e]
  constructor
  · intro h
    by_contra hcon
    rw [hnone fuel (by omega)] at h
    simp at h
  · intro h
    obtain ⟨indices, hi, -⟩ := hsome fuel h
    rw [hi]
    rfl

/-- C37, witness: a raw length of 10 and groups of 4, three turns with the index at 4, 8
and 10. -/
theorem group_loop_turns_witness :
    1 ≤ 4
      ∧ groupLoopIndices 4 10 3 0 = some [4, 8, 10]
      ∧ groupLoopIndices 4 10 2 0 = none
      ∧ ((∀ fuel, (10 + 4 - 1) / 4 ≤ fuel →
          ∃ indices, groupLoopIndices ((4 : Nat) : Int) ((10 : Nat) : Int) fuel 0 = some indices
            ∧ indices.length = (10 + 4 - 1) / 4
            ∧ List.Chain (fun a b => a < b) (0 : Int) indices
            ∧ (∀ i ∈ indices, i ≤ ((10 : Nat) : Int))
            ∧ indices.getLastD 0 = ((10 : Nat) : Int))
        ∧ (∀ fuel, fuel < (10 + 4 - 1) / 4 →
            groupLoopIndices ((4 : Nat) : Int) ((10 : Nat) : Int) fuel 0 = none)
        ∧ ∀ (raw separator : CFString) (fuel : Nat), raw.length = 10 →
            ((groupLoop raw separator ((4 : Nat) : Int) ((10 : Nat) : Int) fuel 0 []).isSome = true
              ↔ (10 + 4 - 1) / 4 ≤ fuel)) :=
  ⟨by decide, by decide!, by decide!, group_loop_turns 10 4 (by decide)⟩

end SecPassword
